import Mathlib

/-!
gogo: type system, integer literals and constant commitment.

A shallow embedding of `type.go`, `parse.go` and the integer part of `value.go`.

Go code can panic (a method call on a nil interface, an explicit `panic(...)`),
so every embedded function that can do so returns `Except Panic _`.
-/

/-- Run-time panics that the embedded code can raise. -/
inductive Panic where
  | nilDereference
  | indexOutOfRange
  | explicit (msg : String)
deriving DecidableEq, Repr

/-- Target descriptor of `target.go`; `PointerSize` stands for `Data.PointerSize()`. -/
structure Target where
  DataLayout : String
  Triple : String
  PointerSize : Nat
deriving DecidableEq, Repr

def BLTN_TY_UINT8 : Nat := 0
def BLTN_TY_UINT16 : Nat := 1
def BLTN_TY_UINT32 : Nat := 2
def BLTN_TY_UINT64 : Nat := 3
def BLTN_TY_INT8 : Nat := 4
def BLTN_TY_INT16 : Nat := 5
def BLTN_TY_INT32 : Nat := 6
def BLTN_TY_INT64 : Nat := 7
def BLTN_TY_INT : Nat := 8
def BLTN_TY_UINT : Nat := 9
def BLTN_TY_LIT : Nat := 10

/-- The implementations of the `Type` interface of `type.go`. A nil `Result`
of a `FuncType` is `none`. -/
inductive GoType where
  | IntType (Type_ : Nat) (target : Target)
  | AliasType (Ident : String) (Alias : GoType)
  | PointerType (At : GoType)
  | FuncType (Params : List GoType) (Result : Option GoType)
deriving Repr

namespace GoType

mutual
/-- The `Eq` methods. The receiver is a non-nil type; the argument is an
interface value and may be nil (`none`), in which case every type assertion
fails. `fn.Result.Eq(...)` on a nil `Result` is a nil dereference. -/
def Eq : GoType → Option GoType → Except Panic Bool
  | IntType k _, some (IntType k' _) => .ok (k == k')
  | IntType _ _, _ => .ok false
  | AliasType id al, some (AliasType id' al') =>
      if id == id' then Eq al (some al') else .ok false
  | AliasType _ _, _ => .ok false
  | PointerType a, some (PointerType a') => Eq a (some a')
  | PointerType _, _ => .ok false
  | FuncType ps none, some (FuncType ps' _) =>
      if ps.length != ps'.length then .ok false
      else
        match EqParams ps ps' with
        | .error e => .error e
        | .ok false => .ok false
        | .ok true => .error .nilDereference
  | FuncType ps (some rt), some (FuncType ps' r') =>
      if ps.length != ps'.length then .ok false
      else
        match EqParams ps ps' with
        | .error e => .error e
        | .ok false => .ok false
        | .ok true =>
          match Eq rt r' with
          | .error e => .error e
          | .ok false => .ok false
          | .ok true => .ok true
  | FuncType _ _, _ => .ok false
/-- The parameter loop of `FuncType.Eq`: `ty.Eq(other.Params[i])` in order,
leaving at the first mismatch. -/
def EqParams : List GoType → List GoType → Except Panic Bool
  | [], _ => .ok true
  | _ :: _, [] => .error .indexOutOfRange
  | t :: ts, o :: os =>
      match Eq t (some o) with
      | .error e => .error e
      | .ok false => .ok false
      | .ok true => EqParams ts os
end

mutual
/-- The `Base` methods. `fn.Result.Base()` on a nil `Result` is a nil
dereference. -/
def Base : GoType → Except Panic GoType
  | IntType k t => .ok (IntType k t)
  | AliasType _ al => Base al
  | PointerType a =>
      match Base a with
      | .error e => .error e
      | .ok b => .ok (PointerType b)
  | FuncType ps none =>
      match BaseParams ps with
      | .error e => .error e
      | .ok _ => .error .nilDereference
  | FuncType ps (some rt) =>
      match BaseParams ps with
      | .error e => .error e
      | .ok bps =>
        match Base rt with
        | .error e => .error e
        | .ok br => .ok (FuncType bps (some br))
/-- The loop of `FuncType.Base` filling `baseParams`. -/
def BaseParams : List GoType → Except Panic (List GoType)
  | [] => .ok []
  | t :: ts =>
      match Base t with
      | .error e => .error e
      | .ok b =>
        match BaseParams ts with
        | .error e => .error e
        | .ok bs => .ok (b :: bs)
end

/-- The `Named` methods. -/
def Named : GoType → Bool
  | IntType _ _ => false
  | AliasType _ _ => true
  | PointerType a => Named a
  | FuncType _ _ => false

end GoType

/-- The function `assignable` of `type.go`. Both type switches have only a
`default` case, so `tyA`/`tyB` are `typeA`/`typeB`; falling out of the two
`if`s reaches `panic("unreachable!")`. -/
def assignable (typeA typeB : GoType) : Except Panic Bool :=
  match typeA.Eq (some typeB) with
  | .error e => .error e
  | .ok true => .ok true
  | .ok false =>
    match typeA.Base with
    | .error e => .error e
    | .ok baseA =>
      match typeB.Base with
      | .error e => .error e
      | .ok baseB =>
        match baseA.Eq (some baseB) with
        | .error e => .error e
        | .ok eq =>
          if eq && !(typeA.Named && typeB.Named) then .ok true
          else .error (.explicit "unreachable!")

/-- Whether a type is an `*AliasType`. -/
def GoType.isAlias : GoType → Bool
  | .AliasType _ _ => true
  | _ => false

/-- Whether a type is a compound type: a `*PointerType` or a `*FuncType`. -/
def GoType.isCompound : GoType → Bool
  | .PointerType _ => true
  | .FuncType _ _ => true
  | _ => false

/-- The `Darwin`/`x86_64` entry of the table in `CreateNativeTarget`
(pointers are 8 bytes wide in its data layout). -/
def darwin_x86_64 : Target :=
  ⟨"e-p:64:64:64-i1:8:8-i8:8:8-i16:16:16-i32:32:32-i64:64:64-f32:32:32-f64:64:64-v64:64:64-v128:128:128-a0:0:64-s0:64:64-f80:128:128-n8:16:32:64-S128",
   "x86_64-apple-darwin", 8⟩

/-- The type bound to `uint8` by `CreateGoScope`. -/
def ty_uint8 : GoType := .IntType BLTN_TY_UINT8 darwin_x86_64
/-- The type bound to `int8` by `CreateGoScope`. -/
def ty_int8 : GoType := .IntType BLTN_TY_INT8 darwin_x86_64
/-- The type bound to `int16` by `CreateGoScope`. -/
def ty_int16 : GoType := .IntType BLTN_TY_INT16 darwin_x86_64
/-- The type bound to `int64` by `CreateGoScope`. -/
def ty_int64 : GoType := .IntType BLTN_TY_INT64 darwin_x86_64
/-- The alias installed by `scope.addTypeAlias("byte", "uint8")`. -/
def ty_byte : GoType := .AliasType "byte" ty_uint8
/-- The type given to `puts` by `addExternFunction("puts", nil, *uint8)`. -/
def ty_puts : GoType := .FuncType [.PointerType ty_uint8] none

/-- The Go type `string`. -/
abbrev string := String

mutual
/-- The `String` methods. An `IntType` whose kind is none of the ten named
constants reaches the `default` panic; `%u` is not a verb of `fmt`, which then
prints `%!u(uint=N)`. -/
def GoType.String : GoType → Except Panic string
  | .IntType k _ =>
      if k = BLTN_TY_UINT8 then .ok "uint8"
      else if k = BLTN_TY_UINT16 then .ok "uint16"
      else if k = BLTN_TY_UINT32 then .ok "uint32"
      else if k = BLTN_TY_UINT64 then .ok "uint64"
      else if k = BLTN_TY_INT8 then .ok "int8"
      else if k = BLTN_TY_INT16 then .ok "int16"
      else if k = BLTN_TY_INT32 then .ok "int32"
      else if k = BLTN_TY_INT64 then .ok "int64"
      else if k = BLTN_TY_INT then .ok "int"
      else if k = BLTN_TY_UINT then .ok "uint"
      else .error (.explicit
        ("Invalid internal state (unknown integer type %!u(uint=" ++ toString k ++ ")).")) 
  | .AliasType id _ => .ok id
  | .PointerType a =>
      match GoType.String a with
      | .error e => .error e
      | .ok s => .ok ("*" ++ s)
  | .FuncType ps none =>
      match GoType.StringParams ps "" false with
      | .error e => .error e
      | .ok paramStr => .ok ("func (" ++ paramStr ++ ")" ++ "")
  | .FuncType ps (some rt) =>
      match GoType.StringParams ps "" false with
      | .error e => .error e
      | .ok paramStr =>
        match GoType.String rt with
        | .error e => .error e
        | .ok s => .ok ("func (" ++ paramStr ++ ")" ++ (" " ++ s))
/-- The loop of `FuncType.String` over `fn.Params`, carrying `paramStr` and `rest`. -/
def GoType.StringParams : List GoType → string → Bool → Except Panic string
  | [], paramStr, _ => .ok paramStr
  | ty :: tys, paramStr, rest =>
      match GoType.String ty with
      | .error e => .error e
      | .ok s =>
        GoType.StringParams tys ((if rest then paramStr ++ ", " else paramStr) ++ s) true
end

/-- Digit value of a character as in `math/big`: `0`-`9`, then `a`-`z` and
`A`-`Z` for 10 to 35; any other character is no digit of a base up to 36. -/
def digitVal (ch : Char) : Nat :=
  if '0' ≤ ch ∧ ch ≤ '9' then ch.toNat - '0'.toNat
  else if 'a' ≤ ch ∧ ch ≤ 'z' then ch.toNat - 'a'.toNat + 10
  else if 'A' ≤ ch ∧ ch ≤ 'Z' then ch.toNat - 'A'.toNat + 10
  else 37

/-- The digit loop of `math/big`: `z = z*base + d` for every character, failing
at the first character that is not a digit of `base`. -/
def scanDigits (base : Nat) : List Char → Nat → Option Nat
  | [], acc => some acc
  | ch :: rest, acc =>
      if digitVal ch < base then scanDigits base rest (acc * base + digitVal ch)
      else none

/-- The library function `(*big.Int).SetString(s, base)` of `math/big` for an
explicit base between 2 and 36, after its documented contract: an optional
sign `+` or `-` followed by one or more digits of the base, and the entire
string must be consumed; `none` is `ok = false`. -/
def SetString (s : List Char) (base : Nat) : Option ℤ :=
  match s with
  | [] => none
  | ch :: rest =>
      if ch = '-' then
        if rest = [] then none else (scanDigits base rest 0).map (fun n => -(n : ℤ))
      else if ch = '+' then
        if rest = [] then none else (scanDigits base rest 0).map (fun n => (n : ℤ))
      else (scanDigits base (ch :: rest) 0).map (fun n => (n : ℤ))

/-- Modelled from the spec: the helper `assert(cond, msg)` is called by
`parseInt` but is not among the sources; the spec requires the input to be a
non-empty digit string, so a failed assertion aborts with its message. -/
def assert (cond : Bool) (msg : String) : Except Panic Unit :=
  if cond then .ok () else .error (.explicit msg)

/-- The struct `ConstInt` of `value.go`. -/
structure ConstInt where
  Int : ℤ
  Signed : Bool
deriving DecidableEq, Repr

/-- The function `parseInt` of `parse.go`. A literal is the list of its
characters (integer literals are ASCII, so bytes and characters coincide);
`ok (none)` is the nil result. -/
def parseInt (lit : List Char) : Except Panic (Option ConstInt) :=
  match assert (decide (lit.length > 0)) "Got an empty integer literal!" with
  | .error e => .error e
  | .ok _ =>
    let parsed : Option ℤ :=
      if lit.length = 1 then SetString lit 10
      else if lit.length = 2 then
        if lit[0]? = some '0' then SetString ((lit.drop 1).take 1) 8
        else none
      else
        if lit[0]? = some '0' then
          if lit[1]? = some 'x' ∨ lit[1]? = some 'X' then SetString (lit.drop 2) 16
          else SetString (lit.drop 1) 8
        else SetString lit 10
    match parsed with
    | none => .ok none
    | some v => .ok (some ⟨v, true⟩)

/-- The struct `TypedConstInt` of `value.go`. -/
structure TypedConstInt where
  Inner : ConstInt
  Ty : GoType

/-- The type `UDiag` of `diag.go`, a string. -/
structure UDiag where
  msg : String
deriving DecidableEq, Repr

/-- The struct `TypeFactory` of `type-factory.go`. -/
structure TypeFactory where
  Target : Target

/-- The method `TypeFactory.IntType`. -/
def TypeFactory.IntType (factory : TypeFactory) (ty : Nat) : GoType :=
  .IntType ty factory.Target

/-- The method `ConstInt.RValue` of `value.go`, with the global
`global_type_factory` as a parameter; the result is the pair of the returned
`TypedValue` and `*UDiag`, each `none` when nil. -/
def ConstInt.RValue (global_type_factory : TypeFactory) (lit : ConstInt)
    (expected_type : Option GoType) : Except Panic (Option TypedConstInt × Option UDiag) :=
  match expected_type with
  | none => .ok (some ⟨lit, global_type_factory.IntType BLTN_TY_INT⟩, none)
  | some (.IntType k t) => .ok (some ⟨lit, .IntType k t⟩, none)
  | some ty =>
      match ty.String with
      | .error e => .error e
      | .ok s => .ok (none, some ⟨"Expected type " ++ s ++ " but got integer constant"⟩)

/-- The hexadecimal digits. -/
def hexDigits : List Char :=
  ['0', '1', '2', '3', '4', '5', '6', '7', '8', '9',
   'a', 'b', 'c', 'd', 'e', 'f', 'A', 'B', 'C', 'D', 'E', 'F']
/-- The octal digits. -/
def octalDigits : List Char := ['0', '1', '2', '3', '4', '5', '6', '7']
/-- The decimal digits. -/
def decimalDigits : List Char := ['0', '1', '2', '3', '4', '5', '6', '7', '8', '9']

/-- Numeric value of a digit character, as a table (independent of the
arithmetic on character codes used by the scanner). -/
def digitValue : Char → Nat
  | '0' => 0 | '1' => 1 | '2' => 2 | '3' => 3 | '4' => 4
  | '5' => 5 | '6' => 6 | '7' => 7 | '8' => 8 | '9' => 9
  | 'a' => 10 | 'b' => 11 | 'c' => 12 | 'd' => 13 | 'e' => 14 | 'f' => 15
  | 'A' => 10 | 'B' => 11 | 'C' => 12 | 'D' => 13 | 'E' => 14 | 'F' => 15
  | _ => 0

/-- Mathematical value of a digit string in a base, most significant digit
first: the sum of `digit * base ^ position`. -/
def literalValue (base : Nat) (ds : List Char) : Nat :=
  Nat.ofDigits base (ds.reverse.map digitValue)

/-- A literal body with one optional leading sign `+` or `-` removed. -/
def dropSign : List Char → List Char
  | [] => []
  | c :: rest => if c = '-' ∨ c = '+' then rest else c :: rest

mutual
/-- Whether every `IntType` inside a type has one of the ten kinds
`BLTN_TY_UINT8` to `BLTN_TY_UINT` that `CreateGoScope` instantiates. -/
def GoType.knownKinds : GoType → Bool
  | .IntType k _ => decide (k ≤ BLTN_TY_UINT)
  | .AliasType _ al => GoType.knownKinds al
  | .PointerType a => GoType.knownKinds a
  | .FuncType ps none => GoType.knownKindsList ps
  | .FuncType ps (some rt) => GoType.knownKindsList ps && GoType.knownKinds rt
/-- List counterpart of `GoType.knownKinds`. -/
def GoType.knownKindsList : List GoType → Bool
  | [] => true
  | t :: ts => GoType.knownKinds t && GoType.knownKindsList ts
end

/-- Whether a type is an `*IntType`. -/
def GoType.isInt : GoType → Bool
  | .IntType _ _ => true
  | _ => false

mutual
/-- Whether every `FuncType` inside a type has a non-nil `Result`. -/
def GoType.hasResults : GoType → Bool
  | .IntType _ _ => true
  | .AliasType _ al => GoType.hasResults al
  | .PointerType a => GoType.hasResults a
  | .FuncType _ none => false
  | .FuncType ps (some rt) => GoType.hasResultsList ps && GoType.hasResults rt
/-- List counterpart of `GoType.hasResults`. -/
def GoType.hasResultsList : List GoType → Bool
  | [] => true
  | t :: ts => GoType.hasResults t && GoType.hasResultsList ts
end

/-- A Go map keyed by strings: the entry stored under each key, if any. -/
abbrev GoMap (α : Type) := string → Option α

/-- The map made by `make(map[string]T)`. -/
def GoMap.empty {α : Type} : GoMap α := fun _ => none

/-- The assignment `m[k] = v`. -/
def GoMap.set {α : Type} (m : GoMap α) (k : string) (v : α) : GoMap α :=
  fun k' => if k' = k then some v else m k'

/-- The type `TypeMap` of `type.go`. The types stored are never nil. -/
abbrev TypeMap := GoMap GoType

/-- The struct `BoundVar` of `value.go`, over the values `V` it can hold
(the scope code never looks into a held value). -/
structure BoundVar (V : Type) where
  Ident : string
  Const : Bool
  Val : V

/-- The type `ValueMap` of `value.go`; `addValue` only ever stores non-nil
bindings, so the `assert` of `lookupVar` cannot fail. -/
abbrev ValueMap (V : Type) := GoMap (BoundVar V)

/-- A `*Scope` of `scope.go`: nil, or the struct with its two map pointers
(addresses in the store) and its parent pointer. No field of the struct is
ever reassigned, so the pointer is modelled by the struct itself. -/
inductive Scope where
  | nil
  | mk (Types : Nat) (Values : Nat) (Parent : Scope)
deriving DecidableEq, Repr

/-- The memory holding the maps that scopes point to: the contents of every
`TypeMap` and `ValueMap` by address, and the next address that `make` hands
out. -/
structure Store (V : Type) where
  types : Nat → TypeMap
  values : Nat → ValueMap V
  next : Nat

/-- The store in which nothing is allocated yet. -/
def Store.init {V : Type} : Store V :=
  ⟨fun _ => GoMap.empty, fun _ => GoMap.empty, 0⟩

/-- The function `CreateScope`: two fresh empty maps and no parent. -/
def CreateScope {V : Type} (σ : Store V) : Scope × Store V :=
  (.mk σ.next σ.next .nil,
   ⟨Function.update σ.types σ.next GoMap.empty,
    Function.update σ.values σ.next GoMap.empty, σ.next + 1⟩)

/-- The method `createChild`: two fresh empty maps, the receiver as parent. -/
def Scope.createChild {V : Type} (σ : Store V) (scope : Scope) : Scope × Store V :=
  (.mk σ.next σ.next scope,
   ⟨Function.update σ.types σ.next GoMap.empty,
    Function.update σ.values σ.next GoMap.empty, σ.next + 1⟩)

/-- The loop of `lookupType`, with the loop variables `targetScope` and `ty`:
on a hit `ty` is the entry and the loop is left, on a miss `ty` is nil and the
parent is tried. -/
def Scope.lookupTypeLoop {V : Type} (σ : Store V) (ident : string) :
    Scope → Option GoType → Option GoType
  | .nil, ty => ty
  | .mk t _ parent, _ =>
      match σ.types t ident with
      | some tyInner => some tyInner
      | none => Scope.lookupTypeLoop σ ident parent none

/-- The method `lookupType`. -/
def Scope.lookupType {V : Type} (σ : Store V) (scope : Scope) (ident : string) :
    Option GoType :=
  Scope.lookupTypeLoop σ ident scope none

/-- The method `lookupVar`: the loop over `targetScope`. -/
def Scope.lookupVar {V : Type} (σ : Store V) : Scope → string → Option (BoundVar V)
  | .nil, _ => none
  | .mk _ v parent, ident =>
      match σ.values v ident with
      | some b => some b
      | none => Scope.lookupVar σ parent ident

/-- The method `lookupVar` together with the address of the value map in which
the binding was found: the identity of the `*BoundVar` that the method
returns. -/
def Scope.lookupVarAt {V : Type} (σ : Store V) : Scope → string → Option (Nat × BoundVar V)
  | .nil, _ => none
  | .mk _ v parent, ident =>
      match σ.values v ident with
      | some b => some (v, b)
      | none => Scope.lookupVarAt σ parent ident

/-- The method `addType`; writing through a nil receiver is a nil dereference. -/
def Scope.addType {V : Type} (σ : Store V) (scope : Scope) (ident : string) (ty : GoType) :
    Except Panic (Bool × Store V) :=
  match Scope.lookupType σ scope ident with
  | some _ => .ok (false, σ)
  | none =>
    match scope with
    | .nil => .error .nilDereference
    | .mk t _ _ =>
      .ok (true, ⟨Function.update σ.types t ((σ.types t).set ident ty), σ.values, σ.next⟩)

/-- The method `addTypeAlias`. -/
def Scope.addTypeAlias {V : Type} (σ : Store V) (scope : Scope) (lTypeID rTypeID : string) :
    Except Panic (Option UDiag × Store V) :=
  match Scope.lookupType σ scope rTypeID with
  | none => .ok (some ⟨"Type \"" ++ rTypeID ++ "\" not found."⟩, σ)
  | some rType =>
    match Scope.addType σ scope lTypeID (.AliasType lTypeID rType) with
    | .error e => .error e
    | .ok (false, σ') => .ok (some ⟨"Type \"" ++ lTypeID ++ "\" already exists."⟩, σ')
    | .ok (true, σ') => .ok (none, σ')

/-- The method `addValue`; writing through a nil receiver is a nil dereference. -/
def Scope.addValue {V : Type} (σ : Store V) (scope : Scope) (ident : string) (val : V) :
    Except Panic (Bool × Store V) :=
  match Scope.lookupVar σ scope ident with
  | none =>
    match scope with
    | .nil => .error .nilDereference
    | .mk _ v _ =>
      .ok (true, ⟨σ.types, Function.update σ.values v ((σ.values v).set ident ⟨ident, false, val⟩),
        σ.next⟩)
  | some _ => .ok (false, σ)

/-- The value-map addresses on the chain from a scope to the root. -/
def Scope.chain : Scope → List Nat
  | .nil => []
  | .mk _ v parent => v :: parent.chain

/-- The type-map addresses on the chain from a scope to the root. -/
def Scope.typeChain : Scope → List Nat
  | .nil => []
  | .mk t _ parent => t :: parent.typeChain

/-- The scopes on the chain from a scope to the root, itself first. -/
def Scope.ancestors : Scope → List Scope
  | .nil => []
  | .mk t v parent => .mk t v parent :: parent.ancestors

/-- The scopes on the chain from `s` to the root that hold a variable binding
for `x`, by the address of their value map. -/
def Scope.holders {V : Type} (σ : Store V) (s : Scope) (x : string) : List Nat :=
  s.chain.filter (fun a => (σ.values a x).isSome)

/-- Whether every map address on the chain of a scope is below `n`, the next
free address of a store: the scope was built from maps of that store. -/
def Scope.allocatedBelow (n : Nat) : Scope → Bool
  | .nil => true
  | .mk t v parent => decide (t < n) && decide (v < n) && parent.allocatedBelow n

/-- A mutating call on a scope: `addValue`, `addType` or `addTypeAlias`. -/
inductive ScopeMutation (V : Type) where
  | addValue (ident : string) (val : V)
  | addType (ident : string) (ty : GoType)
  | addTypeAlias (lTypeID rTypeID : string)

/-- The store after a mutating call on a scope, whatever the call returned. -/
def ScopeMutation.apply {V : Type} (σ : Store V) (scope : Scope) :
    ScopeMutation V → Except Panic (Store V)
  | .addValue ident val => (Scope.addValue σ scope ident val).map Prod.snd
  | .addType ident ty => (Scope.addType σ scope ident ty).map Prod.snd
  | .addTypeAlias l r => (Scope.addTypeAlias σ scope l r).map Prod.snd

/-- A scope tree under construction: the store and the scopes made so far, the
root first. -/
structure ScopeTree (V : Type) where
  store : Store V
  scopes : List Scope

/-- A call that builds a scope tree: `createChild` or `addValue` on the `i`-th
scope made so far. -/
inductive ScopeOp (V : Type) where
  | createChild (i : Nat)
  | addValue (i : Nat) (ident : string) (val : V)

/-- The tree right after `CreateScope` on the empty store. -/
def ScopeTree.init {V : Type} : ScopeTree V :=
  ⟨(CreateScope (Store.init : Store V)).2, [(CreateScope (Store.init : Store V)).1]⟩

/-- One call on the tree; a call that names no scope is skipped. -/
def ScopeTree.step {V : Type} (T : ScopeTree V) : ScopeOp V → ScopeTree V
  | .createChild i =>
      match T.scopes[i]? with
      | none => T
      | some s => ⟨(s.createChild T.store).2, T.scopes ++ [(s.createChild T.store).1]⟩
  | .addValue i ident val =>
      match T.scopes[i]? with
      | none => T
      | some s =>
        match Scope.addValue T.store s ident val with
        | .ok (_, σ') => ⟨σ', T.scopes⟩
        | .error _ => T

/-- The tree after a sequence of calls from `CreateScope`. -/
def ScopeTree.run {V : Type} (ops : List (ScopeOp V)) : ScopeTree V :=
  ops.foldl ScopeTree.step ScopeTree.init

/-- The unique-binding property of a tree: on the chain from any scope to the
root at most one scope holds a variable binding for any identifier. -/
def ScopeTree.uniqueBindings {V : Type} (T : ScopeTree V) : Prop :=
  ∀ s ∈ T.scopes, ∀ x : string, (Scope.holders T.store s x).length ≤ 1

/-- Whether a call respects the descendants: an `addValue(x, _)` on a scope
is made only when `x` is already visible from that scope (the call then
fails) or `x` is visible from no scope whose chain passes through it. -/
def ScopeOp.admissible {V : Type} (T : ScopeTree V) : ScopeOp V → Bool
  | .createChild _ => true
  | .addValue i ident _ =>
      match T.scopes[i]? with
      | none => true
      | some s =>
        (Scope.lookupVar T.store s ident).isSome ||
          T.scopes.all (fun d =>
            !(decide (s ∈ d.ancestors)) || (Scope.lookupVar T.store d ident).isNone)

/-- Whether every call of a sequence is admissible in the tree it is made on. -/
def ScopeTree.admissibleRun {V : Type} : ScopeTree V → List (ScopeOp V) → Bool
  | _, [] => true
  | T, op :: ops => op.admissible T && ScopeTree.admissibleRun (T.step op) ops

/-- The invariant of scope trees that carries the unique-binding property:
scopes are built from allocated maps, no map occurs twice on a chain, a chain
that reaches the value map of a scope passes through that scope, and bindings
are unique on every chain. -/
structure ScopeTree.Inv {V : Type} (T : ScopeTree V) : Prop where
  allocated : ∀ s ∈ T.scopes, s.allocatedBelow T.store.next = true
  nodup : ∀ s ∈ T.scopes, s.chain.Nodup
  tree : ∀ s ∈ T.scopes, ∀ d ∈ T.scopes, ∀ t v p, s = Scope.mk t v p →
    v ∈ d.chain → s ∈ d.ancestors
  unique : T.uniqueBindings

/-- A type handle of the external IR builder (`llvm.Type`), by the call that
made it. -/
inductive LLType where
  | IntType (numBits : Nat)
  | PointerType (elementType : LLType) (addressSpace : Nat)
  | FunctionType (returnType : LLType) (paramTypes : List LLType) (isVarArg : Bool)
  | VoidType
  | ArrayType (elementType : LLType) (elementCount : Nat)

/-- A value handle of the external IR builder (`llvm.Value`), by the call that
made it; globals, functions and instructions are named by their position in
the module or in the builder's output. -/
inductive LLValue where
  | ConstInt (t : LLType) (n : Nat) (signExtend : Bool)
  | ConstPointerNull (t : LLType)
  | ConstString (str : string) (dontNullTerminate : Bool)
  | ConstGEP (v : LLValue) (indices : List LLValue)
  | Global (index : Nat)
  | Function (index : Nat)
  | Instruction (index : Nat)

/-- A `*FuncType`: the struct `FuncType` of `type.go`. -/
structure FuncTy where
  Params : List GoType
  Result : Option GoType

/-- A `*FuncType` seen as a `Type`. -/
def FuncTy.toType (fn : FuncTy) : GoType := .FuncType fn.Params fn.Result

/-- The struct `FuncValue` of `value.go`. -/
structure FuncValue where
  Name : string
  Ty : FuncTy
  LLVMVal : LLValue

/-- The struct `ConstString` of `value.go`. -/
structure ConstString where
  Str : string
  LLVMVal : LLValue

/-- The struct `Pointer` of `value.go`. -/
structure Pointer where
  Ty : GoType
  Val : LLValue

/-- The concrete implementations of the interface `TypedValue` that `RValue`
can return. -/
inductive TypedValue where
  | TypedConstInt (lit : TypedConstInt)
  | FuncValue (fn : FuncValue)
  | ConstString (lit : ConstString)
  | Pointer (ptr : Pointer)

/-- The function `GetStringType`, with the global type factory as a parameter. -/
def GetStringType (global_type_factory : TypeFactory) : GoType :=
  .PointerType (global_type_factory.IntType BLTN_TY_UINT8)

/-- The function `TypeMismatchDiag` of `type.go`. -/
def TypeMismatchDiag (expected actual : GoType) : Except Panic UDiag :=
  match expected.String with
  | .error e => .error e
  | .ok se =>
    match actual.String with
    | .error e => .error e
    | .ok sa => .ok ⟨"Expected type " ++ se ++ " but got type " ++ sa⟩

/-- The common body of the `RValue` methods of the typed values: `v` itself
when no type is expected or `expected_type.Eq(ty)`, else the mismatch
diagnostic. -/
def typedRValue (v : TypedValue) (ty : GoType) (expected_type : Option GoType) :
    Except Panic (Option TypedValue × Option UDiag) :=
  match expected_type with
  | none => .ok (some v, none)
  | some E =>
    match E.Eq (some ty) with
    | .error e => .error e
    | .ok true => .ok (some v, none)
    | .ok false =>
      match TypeMismatchDiag E ty with
      | .error e => .error e
      | .ok d => .ok (none, some d)

/-- The method `TypedConstInt.RValue`. -/
def TypedConstInt.RValue (lit : TypedConstInt) (expected_type : Option GoType) :
    Except Panic (Option TypedValue × Option UDiag) :=
  typedRValue (.TypedConstInt lit) lit.Ty expected_type

/-- The method `FuncValue.RValue`. -/
def FuncValue.RValue (fn : FuncValue) (ty : Option GoType) :
    Except Panic (Option TypedValue × Option UDiag) :=
  typedRValue (.FuncValue fn) fn.Ty.toType ty

/-- The method `Pointer.RValue`. -/
def Pointer.RValue (ptr : Pointer) (expected_type : Option GoType) :
    Except Panic (Option TypedValue × Option UDiag) :=
  typedRValue (.Pointer ptr) ptr.Ty expected_type

/-- The method `ConstString.RValue`. -/
def ConstString.RValue (global_type_factory : TypeFactory) (lit : ConstString)
    (expected_type : Option GoType) : Except Panic (Option TypedValue × Option UDiag) :=
  typedRValue (.ConstString lit) (GetStringType global_type_factory) expected_type

/-- The `Type` methods of the typed values. -/
def TypedValue.Type (global_type_factory : TypeFactory) : TypedValue → GoType
  | .TypedConstInt lit => lit.Ty
  | .FuncValue fn => fn.Ty.toType
  | .ConstString _ => GetStringType global_type_factory
  | .Pointer ptr => ptr.Ty

/-- The `RValue` methods of the typed values. -/
def TypedValue.RValue (global_type_factory : TypeFactory) :
    TypedValue → Option GoType → Except Panic (Option TypedValue × Option UDiag)
  | .TypedConstInt lit, E => lit.RValue E
  | .FuncValue fn, E => fn.RValue E
  | .ConstString lit, E => lit.RValue global_type_factory E
  | .Pointer ptr, E => ptr.RValue E

/-- The value of `puts` declared by `CreateGoScope`, with the function handle
the module gave it. -/
def puts_value (llvmVal : LLValue) : FuncValue :=
  ⟨"puts", ⟨[.PointerType ty_uint8], none⟩, llvmVal⟩

mutual
/-- Number of constructors of a type. -/
def GoType.size : GoType → Nat
  | .IntType _ _ => 1
  | .AliasType _ al => al.size + 1
  | .PointerType a => a.size + 1
  | .FuncType ps none => GoType.sizeList ps + 1
  | .FuncType ps (some rt) => GoType.sizeList ps + rt.size + 1
/-- Number of constructors of a list of types. -/
def GoType.sizeList : List GoType → Nat
  | [] => 0
  | t :: ts => t.size + GoType.sizeList ts + 1
end

mutual
/-- The `BaseIDString` methods. An alias takes the base of its referent first
and asks that base for its identifier; the recursion ends because `Base`
never returns a larger type. -/
def GoType.BaseIDString : GoType → Except Panic string
  | .IntType k t => (GoType.IntType k t).String
  | .AliasType _ al =>
      match _h : al.Base with
      | .error e => .error e
      | .ok b => GoType.BaseIDString b
  | .PointerType a =>
      match GoType.BaseIDString a with
      | .error e => .error e
      | .ok s => .ok ("p." ++ s)
  | .FuncType ps none => GoType.BaseIDStringParams ps ("f." ++ "r." ++ "p")
  | .FuncType ps (some rt) =>
      match GoType.BaseIDString rt with
      | .error e => .error e
      | .ok s => GoType.BaseIDStringParams ps ("f." ++ "r." ++ s ++ "." ++ "p")
termination_by t => t.size
decreasing_by
  all_goals simp_wf
  all_goals (try simp only [GoType.size, GoType.sizeList])
  · have key : ∀ t : GoType, ∀ b, t.Base = .ok b → b.size ≤ t.size := by
      intro t
      refine GoType.rec
        (motive_1 := fun t => ∀ b, t.Base = .ok b → b.size ≤ t.size)
        (motive_2 := fun ps => ∀ bps, GoType.BaseParams ps = .ok bps →
          GoType.sizeList bps ≤ GoType.sizeList ps)
        (motive_3 := fun o => ∀ rt, o = some rt → ∀ b, rt.Base = .ok b → b.size ≤ rt.size)
        ?_ ?_ ?_ ?_ ?_ ?_ ?_ ?_ t
      · intro k tg b hb
        simp only [GoType.Base, Except.ok.injEq] at hb
        subst hb
        exact Nat.le_refl _
      · intro _ al ih b hb
        simp only [GoType.Base] at hb
        have := ih b hb
        simp only [GoType.size]
        omega
      · intro a ih b hb
        simp only [GoType.Base] at hb
        cases ha : a.Base with
        | error e => simp [ha] at hb
        | ok ba =>
          simp only [ha, Except.ok.injEq] at hb
          subst hb
          have := ih ba ha
          simp only [GoType.size]
          omega
      · intro ps r ihps ihr b hb
        cases r with
        | none =>
          simp only [GoType.Base] at hb
          cases hps : GoType.BaseParams ps <;> simp [hps] at hb
        | some rt =>
          simp only [GoType.Base] at hb
          cases hps : GoType.BaseParams ps with
          | error e => simp [hps] at hb
          | ok bps =>
            cases hr : rt.Base with
            | error e => simp [hps, hr] at hb
            | ok br =>
              simp only [hps, hr, Except.ok.injEq] at hb
              subst hb
              have h1 := ihps bps hps
              have h2 := ihr rt rfl br hr
              simp only [GoType.size]
              omega
      · intro bps hb
        simp only [GoType.BaseParams, Except.ok.injEq] at hb
        subst hb
        exact Nat.le_refl _
      · intro t' ts iht ihts bps hb
        simp only [GoType.BaseParams] at hb
        cases ht : t'.Base with
        | error e => simp [ht] at hb
        | ok b' =>
          cases hts : GoType.BaseParams ts with
          | error e => simp [ht, hts] at hb
          | ok bs =>
            simp only [ht, hts, Except.ok.injEq] at hb
            subst hb
            have h1 := iht b' ht
            have h2 := ihts bs hts
            simp only [GoType.sizeList]
            omega
      · intro rt hrt
        cases hrt
      · intro rt ih rt' hrt b hb
        injection hrt with hrt
        subst hrt
        exact ih b hb
    have := key _ _ _h
    omega
  all_goals omega
/-- The loop of `FuncType.BaseIDString` over `fn.Params`. -/
def GoType.BaseIDStringParams : List GoType → string → Except Panic string
  | [], str => .ok str
  | paramTy :: rest, str =>
      match GoType.BaseIDString paramTy with
      | .error e => .error e
      | .ok s => GoType.BaseIDStringParams rest (str ++ "." ++ s)
termination_by ps _ => GoType.sizeList ps
decreasing_by
  all_goals simp_wf
  all_goals (try simp only [GoType.size, GoType.sizeList])
  all_goals omega
end

/-- The method `Target.WordSize`. -/
def Target.WordSize (tar : Target) : Nat := tar.PointerSize

/-- The method `IntType.BitWidth`, on the kind and the target of the type. -/
def IntType_BitWidth (k : Nat) (target : Target) : Except Panic Nat :=
  if k = BLTN_TY_UINT8 then .ok 8
  else if k = BLTN_TY_INT8 then .ok 8
  else if k = BLTN_TY_UINT16 then .ok 16
  else if k = BLTN_TY_INT16 then .ok 16
  else if k = BLTN_TY_UINT32 then .ok 32
  else if k = BLTN_TY_INT32 then .ok 32
  else if k = BLTN_TY_UINT64 then .ok 64
  else if k = BLTN_TY_INT64 then .ok 64
  else if k = BLTN_TY_INT then .ok target.WordSize
  else if k = BLTN_TY_UINT then .ok target.WordSize
  else .error (.explicit
    ("Invalid internal state (unknown integer type %!u(uint=" ++ toString k ++ ")).")) 

mutual
/-- The `LLVM` methods of the types. -/
def GoType.LLVM : GoType → Except Panic LLType
  | .IntType k target =>
      match IntType_BitWidth k target with
      | .error e => .error e
      | .ok bits => .ok (.IntType bits)
  | .AliasType _ al => GoType.LLVM al
  | .PointerType a =>
      match GoType.LLVM a with
      | .error e => .error e
      | .ok t => .ok (.PointerType t 0)
  | .FuncType ps none =>
      match GoType.LLVMParams ps with
      | .error e => .error e
      | .ok paramTypes => .ok (.FunctionType .VoidType paramTypes false)
  | .FuncType ps (some rt) =>
      match GoType.LLVMParams ps with
      | .error e => .error e
      | .ok paramTypes =>
        match GoType.LLVM rt with
        | .error e => .error e
        | .ok returnType => .ok (.FunctionType returnType paramTypes false)
/-- The loop of `FuncType.LLVM` filling `paramTypes`. -/
def GoType.LLVMParams : List GoType → Except Panic (List LLType)
  | [] => .ok []
  | param :: rest =>
      match GoType.LLVM param with
      | .error e => .error e
      | .ok t =>
        match GoType.LLVMParams rest with
        | .error e => .error e
        | .ok ts => .ok (t :: ts)
end

/-- The `LLVM` methods of the typed values. `uint64(x.Int64())` keeps the low
64 bits of the constant. -/
def TypedValue.LLVM : TypedValue → Except Panic LLValue
  | .TypedConstInt lit =>
      match lit.Ty.LLVM with
      | .error e => .error e
      | .ok t => .ok (.ConstInt t (lit.Inner.Int % 2 ^ 64).toNat lit.Inner.Signed)
  | .FuncValue fn => .ok fn.LLVMVal
  | .ConstString lit =>
      .ok (.ConstGEP lit.LLVMVal
        [.ConstInt (.IntType 64) 0 false, .ConstInt (.IntType 64) 0 false])
  | .Pointer ptr => .ok ptr.Val

/-- A global variable of the module under construction. `Name` is the name
asked for; the IR builder itself renames a later global whose name is taken. -/
structure GlobalVar where
  Name : string
  Ty : LLType
  IsConstant : Bool
  Initializer : Option LLValue

/-- A function of the module under construction. -/
structure FunctionDecl where
  Name : string
  Ty : LLType
  ExternalLinkage : Bool

/-- The module behind an `llvm.Module` handle, as far as the translator
builds it. -/
structure LLModule where
  Name : string
  Target : string
  DataLayout : string
  Globals : List GlobalVar
  Functions : List FunctionDecl

/-- The call `mod.AddGlobal(ty, name)`: a new global at the end of the module. -/
def LLModule.AddGlobal (mod : LLModule) (ty : LLType) (name : string) : LLValue × LLModule :=
  (.Global mod.Globals.length, { mod with Globals := mod.Globals ++ [⟨name, ty, false, none⟩] })

/-- The calls `llvm.SetGlobalConstant(v, true)` and `llvm.SetInitializer(v, ll)`
on the global with handle `v`. -/
def LLModule.SetConstantAndInitializer (mod : LLModule) (v : LLValue) (ll : LLValue) :
    LLModule :=
  match v with
  | .Global i =>
      { mod with Globals :=
          (mod.Globals.modify (fun g => ⟨g.Name, g.Ty, true, some ll⟩) i) }
  | _ => mod

/-- The struct `LLVMNamespace` of `namespace.go`. -/
structure LLVMNamespace where
  TypeCounter : GoMap Nat
  Zero : GoMap TypedValue
  Mod : LLModule

/-- The function `CreateNamespace`. -/
def CreateNamespace (mod : LLModule) : LLVMNamespace :=
  ⟨GoMap.empty, GoMap.empty, mod⟩

/-- The method `createAndSetGlobal`. -/
def LLVMNamespace.createAndSetGlobal (ns : LLVMNamespace) (id : string) (ty : LLType)
    (ll : LLValue) : LLValue × LLVMNamespace :=
  ((ns.Mod.AddGlobal ty id).1,
   { ns with Mod :=
      ((ns.Mod.AddGlobal ty id).2.SetConstantAndInitializer (ns.Mod.AddGlobal ty id).1 ll) })

/-- The method `requestStaticConstAlloc`. The counters are of type `uint`,
`w` bits wide, so `curr + 1` wraps at `2 ^ w`; `%d` prints `curr` in decimal. -/
def LLVMNamespace.requestStaticConstAlloc (w : Nat) (ns : LLVMNamespace) (ty : GoType)
    (llTy : LLType) (val : LLValue) : Except Panic (LLValue × LLVMNamespace) :=
  match ty.BaseIDString with
  | .error e => .error e
  | .ok rootTy =>
    let curr := match ns.TypeCounter rootTy with
      | some c => c
      | none => 0
    let allocated := rootTy ++ "." ++ toString curr
    let counted : LLVMNamespace :=
      { ns with TypeCounter := ns.TypeCounter.set rootTy ((curr + 1) % 2 ^ w) }
    .ok (counted.createAndSetGlobal allocated llTy val)

/-- The method `allocZero`. -/
def LLVMNamespace.allocZero (global_type_factory : TypeFactory) (ns : LLVMNamespace)
    (zeroVal : TypedValue) : Except Panic (LLValue × LLVMNamespace) :=
  match (zeroVal.Type global_type_factory).BaseIDString with
  | .error e => .error e
  | .ok rootTy =>
    match (zeroVal.Type global_type_factory).LLVM with
    | .error e => .error e
    | .ok llTy =>
      match zeroVal.LLVM with
      | .error e => .error e
      | .ok ll => .ok (ns.createAndSetGlobal (rootTy ++ ".zero") llTy ll)

/-- A request to `requestStaticConstAlloc`: its three arguments. -/
structure AllocRequest where
  ty : GoType
  llTy : LLType
  val : LLValue

/-- A sequence of `requestStaticConstAlloc` calls on a namespace, in order. -/
def LLVMNamespace.requestAll (w : Nat) :
    LLVMNamespace → List AllocRequest → Except Panic LLVMNamespace
  | ns, [] => .ok ns
  | ns, r :: rest =>
      match ns.requestStaticConstAlloc w r.ty r.llTy r.val with
      | .error e => .error e
      | .ok (_, ns') => LLVMNamespace.requestAll w ns' rest

/-- The names that the spec expects for a sequence of requests with base
identifiers `bs`, after requests with base identifiers `earlier`: the request
for `b` is named `b.k` where `k` counts the earlier requests for `b`. -/
def mintedNames : List string → List string → List string
  | _, [] => []
  | earlier, b :: rest =>
      (b ++ "." ++ toString (earlier.count b)) :: mintedNames (earlier ++ [b]) rest

/-- The counters that the spec expects after requests with base identifiers
`bs`: the number of requests per base identifier, and no entry where there
was none. -/
def mintedCounters (bs : List string) : GoMap Nat :=
  fun b => if bs.count b = 0 then none else some (bs.count b)

/-- The module made by `llvm.ModuleCreateWithName(name)`. -/
def LLModule.create (name : string) : LLModule := ⟨name, "", "", [], []⟩

/-- Three requests as `translateStringLit` makes them for string literals
(typed `*byte`) with one request for an `int64` in between. -/
def sampleRequests : List AllocRequest :=
  [⟨.PointerType ty_byte, .ArrayType (.IntType 8) 3, .ConstString "hi" false⟩,
   ⟨ty_int64, .IntType 64, .ConstInt (.IntType 64) 0 true⟩,
   ⟨.PointerType ty_byte, .ArrayType (.IntType 8) 4, .ConstString "abc" false⟩]

/-- The zero value of `int64`, as `IntType.Zero` makes it. -/
def zero_int64 : TypedValue := .TypedConstInt ⟨⟨0, true⟩, ty_int64⟩

/-- The interface `Stage` of `pipeline.go`: its name, and its `Run` as a
function of the state `W` of the world (files, processes) it acts on,
returning the diagnostic, `none` for nil. -/
structure Stage (W D : Type) where
  Name : string
  Run : W → Option D × W

/-- The type `Pipeline` of `pipeline.go`. -/
abbrev Pipeline (W D : Type) := List (Stage W D)

/-- The function `CreatePipeline`. -/
def CreatePipeline {W D : Type} : Pipeline W D := []

/-- The method `AddStage`. -/
def Pipeline.AddStage {W D : Type} (pipe : Pipeline W D) (stage : Stage W D) : Pipeline W D :=
  pipe ++ [stage]

/-- The method `Execute`: the loop over the stages, left at the first
diagnostic. -/
def Pipeline.Execute {W D : Type} : Pipeline W D → Bool → W → Option D × W
  | [], _, w => (none, w)
  | stage :: rest, verbose, w =>
      match stage.Run w with
      | (some diag, w') => (some diag, w')
      | (none, w') => Pipeline.Execute rest verbose w'

/-- The world after running every stage of a list in order, whatever each
returns. -/
def runEvery {W D : Type} : List (Stage W D) → W → W
  | [], w => w
  | stage :: rest, w => runEvery rest (stage.Run w).2

/-- Whether every stage of a list returns nil when the stages are run in
order. -/
def everyNil {W D : Type} : List (Stage W D) → W → Bool
  | [], _ => true
  | stage :: rest, w => (stage.Run w).1.isNone && everyNil rest (stage.Run w).2

/-- The token kinds of `go/token` that the translator looks at. -/
inductive Token where
  | INT | FLOAT | IMAG | CHAR | STRING | VAR | CONST | IMPORT | TYPE
deriving DecidableEq, Repr

/-- The expression nodes of `go/ast` that the translator tells apart, with the
positions that `Pos()` and `End()` are computed from; `Other` is any other
node, by the name `%T` prints for it and its two positions. -/
inductive Expr where
  | Ident (NamePos : Nat) (Name : string)
  | BasicLit (ValuePos : Nat) (Kind : Token) (Value : string)
  | CallExpr (Fun : Expr) (Lparen : Nat) (Args : List Expr) (Rparen : Nat)
  | StarExpr (Star : Nat) (X : Expr)
  | Other (typeName : string) (pos end_ : Nat)

/-- The method `Pos` of an expression node. -/
def Expr.Pos : Expr → Nat
  | .Ident p _ => p
  | .BasicLit p _ _ => p
  | .CallExpr f _ _ _ => f.Pos
  | .StarExpr s _ => s
  | .Other _ p _ => p

/-- The method `End` of an expression node. -/
def Expr.End : Expr → Nat
  | .Ident p n => p + n.utf8ByteSize
  | .BasicLit p _ v => p + v.utf8ByteSize
  | .CallExpr _ _ _ r => r + 1
  | .StarExpr _ x => x.End
  | .Other _ _ e => e

/-- What `%T` prints for an expression node. -/
def Expr.typeName : Expr → string
  | .Ident _ _ => "*ast.Ident"
  | .BasicLit _ _ _ => "*ast.BasicLit"
  | .CallExpr _ _ _ _ => "*ast.CallExpr"
  | .StarExpr _ _ => "*ast.StarExpr"
  | .Other n _ _ => n

/-- The struct `GoDiag` of `diag.go`; its `fset` stays nil inside the
translator. -/
structure GoDiag where
  start : Nat
  end_ : Nat
  msg : string

/-- The function `DiagFromAST` on an expression node, with the message
already formatted. -/
def DiagFromAST (node : Expr) (msg : string) : GoDiag := ⟨node.Pos, node.End, msg⟩

/-- The function `BindDiagToAST` on an expression node. -/
def BindDiagToAST (node : Expr) (unbound : UDiag) : GoDiag :=
  ⟨node.Pos, node.End, unbound.msg⟩

/-- The implementations of the interface `UntypedValue`: an untyped constant,
a typed value, or a `*BoundVar` with its fields. -/
inductive UntypedValue where
  | ConstInt (lit : ConstInt)
  | Typed (v : TypedValue)
  | BoundVar (Ident : string) (Const : Bool) (Val : UntypedValue)

/-- A binding of a scope as an `UntypedValue`. -/
def BoundVar.toValue (v : BoundVar UntypedValue) : UntypedValue :=
  .BoundVar v.Ident v.Const v.Val

/-- The `RValue` methods of the untyped values; `BoundVar.RValue` hands the
call on to the held value. -/
def UntypedValue.RValue (global_type_factory : TypeFactory) :
    UntypedValue → Option GoType → Except Panic (Option TypedValue × Option UDiag)
  | .ConstInt lit, E =>
      match lit.RValue global_type_factory E with
      | .error e => .error e
      | .ok (v, d) => .ok (v.map TypedValue.TypedConstInt, d)
  | .Typed v, E => v.RValue global_type_factory E
  | .BoundVar _ _ val, E =>
      match UntypedValue.RValue global_type_factory val E with
      | .error e => .error e
      | .ok (_, some diag) => .ok (none, some diag)
      | .ok (typed, none) => .ok (typed, none)

/-- The `Type` methods as far as an untyped value has one. `BoundVar.Type`
panics when the held value is no `TypedValue`; an untyped `ConstInt` has no
method `Type` at all, and the call `rValue.Type()` of `translateVarDecl` on it
(the source never declares `rValue`) is taken as a panic. -/
def UntypedValue.Type (global_type_factory : TypeFactory) : UntypedValue → Except Panic GoType
  | .ConstInt _ => .error (.explicit "ConstInt has no method Type")
  | .Typed v => .ok (v.Type global_type_factory)
  | .BoundVar _ _ (.ConstInt _) =>
      .error (.explicit "Attemped to find type of non-concrete value.")
  | .BoundVar _ _ val => UntypedValue.Type global_type_factory val

/-- The `Zero` methods of the types; the namespace argument is unused. -/
def GoType.Zero : GoType → Except Panic TypedValue
  | .IntType k t => .ok (.TypedConstInt ⟨⟨0, true⟩, .IntType k t⟩)
  | .AliasType _ al => GoType.Zero al
  | .PointerType a =>
      match (GoType.PointerType a).LLVM with
      | .error e => .error e
      | .ok t => .ok (.Pointer ⟨.PointerType a, .ConstPointerNull t⟩)
  | .FuncType ps r =>
      match (GoType.FuncType ps r).LLVM with
      | .error e => .error e
      | .ok t => .ok (.Pointer ⟨.FuncType ps r, .ConstPointerNull t⟩)

/-- An instruction emitted through a builder. -/
inductive Instr where
  | Call (builder : Nat) (fn : LLValue) (args : List LLValue) (name : string)
  | Ret (builder : Nat) (v : LLValue)
  | RetVoid (builder : Nat)

/-- What a translation acts on: the maps of the scopes, the IR namespace with
the module, the instructions emitted so far, and the values written through
`*BoundVar` pointers. A value map holds each `*BoundVar` as the struct that
`addValue` made; an assignment `v.Val = val` changes no map, and `assigned`
holds, for the pointer kept in the map at address `place` under `key`, the
`Val` it was last given (nothing when it was never assigned to). -/
structure TransState where
  store : Store UntypedValue
  LLns : LLVMNamespace
  code : List Instr
  assigned : Nat → string → Option TypedValue

/-- The struct behind a `*BoundVar` as it is now: the struct `v` kept in the
value map at address `place` under `key`, with the `Val` last assigned to it
when there was an assignment. -/
def TransState.pointee (st : TransState) (place : Nat) (key : string)
    (v : BoundVar UntypedValue) : BoundVar UntypedValue :=
  match st.assigned place key with
  | some typed => ⟨v.Ident, v.Const, .Typed typed⟩
  | none => v

/-- The values that are global to the program: the type factory
`global_type_factory` and the width in bits of the type `uint`. -/
structure Globals where
  global_type_factory : TypeFactory
  uintBits : Nat

/-- The struct `Translator` of `trans.go`; its module, builder and namespace
are handles into the `TransState`. -/
structure Translator where
  Scope : Scope
  Target : Target

/-- The struct `Block` of `block.go`; its basic block (the field `Block`) and
its `Builder` are handles. -/
structure Block where
  Scope : Scope
  BasicBlock : Nat
  Builder : Nat
  ResultTy : Option GoType
  Trans : Translator

/-- The method `translateType`: the type, or the diagnostic. -/
def Translator.translateType (trans : Translator) (st : TransState) :
    Expr → Except GoDiag GoType
  | .Ident p name =>
      match Scope.lookupType st.store trans.Scope name with
      | none => .error (DiagFromAST (.Ident p name) ("Unknown type \"" ++ name ++ "\"."))
      | some ty => .ok ty
  | .StarExpr _ x =>
      match Translator.translateType trans st x with
      | .error diag => .error diag
      | .ok atType => .ok (.PointerType atType)
  | e => .error (DiagFromAST e
      ("Unknown internal type expression type: " ++ e.typeName ++ "."))

/-- The method `translateStringLit`. A string literal token starts and ends
with a one-byte quote, which `lit[1 : len(lit)-1]` strips; on a shorter
string the slice is out of range. -/
def Block.translateStringLit (g : Globals) (block : Block) (lit : string) (st : TransState) :
    Except Panic (TypedValue × TransState) :=
  if lit.utf8ByteSize < 2 then .error .indexOutOfRange
  else
    let unescaped : string := String.mk ((lit.toList.drop 1).dropLast)
    match Scope.lookupType st.store block.Scope "byte" with
    | none => .error .nilDereference
    | some byteTy =>
      match byteTy.LLVM with
      | .error e => .error e
      | .ok llByte =>
        match st.LLns.requestStaticConstAlloc g.uintBits (.PointerType byteTy)
            (.ArrayType llByte (unescaped.utf8ByteSize + 1)) (.ConstString unescaped false) with
        | .error e => .error e
        | .ok (llvmVal, ns') =>
          .ok (.ConstString ⟨unescaped, llvmVal⟩, { st with LLns := ns' })

/-- One step of `fmt.Sprintf` over a format without operands: the state is 0 in
plain text, 1 after a `%` and its flags, 2 in a width and 3 in a precision.
A verb other than `%` has no operand to print and gives `%!verb(MISSING)`. -/
def SprintfStep (acc : Nat × List Char) (c : Char) : Nat × List Char :=
  let verb : Nat × List Char :=
    if c = '%' then (0, acc.2 ++ ['%'])
    else (0, acc.2 ++ ['%', '!', c] ++ "(MISSING)".toList)
  if acc.1 = 0 then
    if c = '%' then (1, acc.2) else (0, acc.2 ++ [c])
  else if acc.1 = 1 then
    if c = '#' ∨ c = '0' ∨ c = '+' ∨ c = '-' ∨ c = ' ' then (1, acc.2)
    else if c.isDigit then (2, acc.2)
    else if c = '.' then (3, acc.2)
    else verb
  else if acc.1 = 2 then
    if c.isDigit then (2, acc.2)
    else if c = '.' then (3, acc.2)
    else verb
  else
    if c.isDigit then (3, acc.2) else verb

/-- The library function `fmt.Sprintf(format)` called with a format and no
operand, after the documentation of `fmt`: plain text is copied, `%%` gives
`%`, every other verb (after flags, a width and a precision written in
digits) gives `%!verb(MISSING)`, and a `%` that no verb follows gives
`%!(NOVERB)`. A width or precision `*` and an index `[n]`, which the text of
no literal has after a `%`, are read as verbs. -/
def Sprintf (format : string) : string :=
  String.mk
    (if (format.toList.foldl SprintfStep (0, [])).1 = 0 then
      (format.toList.foldl SprintfStep (0, [])).2
    else (format.toList.foldl SprintfStep (0, [])).2 ++ "%!(NOVERB)".toList)

/-- The method `translateBasicLit`: the value, or the diagnostic. In the
default case the message made by `Sprintf` is handed to `DiagFromAST` as a
format without operands and formatted a second time there. -/
def Block.translateBasicLit (g : Globals) (block : Block) (ValuePos : Nat) (Kind : Token)
    (Value : string) (st : TransState) :
    Except Panic (Except GoDiag UntypedValue × TransState) :=
  match Kind with
  | .STRING =>
      match block.translateStringLit g Value st with
      | .error e => .error e
      | .ok (v, st') => .ok (.ok (.Typed v), st')
  | .INT =>
      match parseInt Value.toList with
      | .error e => .error e
      | .ok none =>
          .ok (.error (DiagFromAST (.BasicLit ValuePos Kind Value) "Unable to parse integer!"), st)
      | .ok (some parsed) => .ok (.ok (.ConstInt parsed), st)
  | _ =>
      .ok (.error (DiagFromAST (.BasicLit ValuePos Kind Value)
        (Sprintf ("Unable to translate literal: \"" ++ Value ++ "\"."))), st)

mutual
/-- The method `translateExprRHS`: the value, or the diagnostic. The case of
a call is the method `translateCallExpr`. For an identifier the `*BoundVar`
that `lookupVar` finds is returned, as the struct it points to at that time. -/
def Block.translateExprRHS (g : Globals) (block : Block) :
    Expr → TransState → Except Panic (Except GoDiag UntypedValue × TransState)
  | .CallExpr funExpr lp args rp, st =>
      match Block.translateExprRHS g block funExpr st with
      | .error e => .error e
      | .ok (.error diag, st1) => .ok (.error diag, st1)
      | .ok (.ok (.Typed (.FuncValue funcValue)), st1) =>
          if funcValue.Ty.Params.length ≠ args.length then
            .ok (.error (DiagFromAST (.CallExpr funExpr lp args rp)
              ("Expected " ++ toString funcValue.Ty.Params.length ++ " arguments, found "
                ++ toString args.length ++ "!")), st1)
          else
            match Block.translateCallArgs g block funcValue.Ty.Params args st1 with
            | .error e => .error e
            | .ok (.error diag, st2) => .ok (.error diag, st2)
            | .ok (.ok llvmArgs, st2) =>
                .ok (.ok (.Typed (.FuncValue funcValue)),
                  { st2 with code :=
                      (st2.code ++ [.Call block.Builder funcValue.LLVMVal llvmArgs ""]) })
      | .ok (.ok _, st1) =>
          .ok (.error (DiagFromAST funExpr "Given expression not a function!"), st1)
  | .Ident p name, st =>
      match Scope.lookupVarAt st.store block.Scope name with
      | none =>
          .ok (.error (DiagFromAST (.Ident p name) ("Unknown identifier \"" ++ name ++ "\".")),
            st)
      | some (place, identVal) => .ok (.ok (st.pointee place name identVal).toValue, st)
  | .BasicLit p kind value, st => block.translateBasicLit g p kind value st
  | e, st =>
      .ok (.error (DiagFromAST e ("Cannot translate expr of type: " ++ e.typeName ++ "\n")),
        st)
/-- The loop of `translateCallExpr` over the arguments, with the parameter
types `funType.Params[i:]` that are left: the handles of the arguments, or
the first diagnostic. -/
def Block.translateCallArgs (g : Globals) (block : Block) :
    List GoType → List Expr → TransState →
      Except Panic (Except GoDiag (List LLValue) × TransState)
  | _, [], st => .ok (.ok [], st)
  | params, argExpr :: rest, st =>
      match Block.translateExprRHS g block argExpr st with
      | .error e => .error e
      | .ok (.error diag, st1) => .ok (.error diag, st1)
      | .ok (.ok untyped, st1) =>
        match params with
        | [] => .error .indexOutOfRange
        | param :: params' =>
          match untyped.RValue g.global_type_factory (some param) with
          | .error e => .error e
          | .ok (_, some udiag) => .ok (.error (BindDiagToAST argExpr udiag), st1)
          | .ok (none, none) => .error .nilDereference
          | .ok (some typed_val, none) =>
            match typed_val.LLVM with
            | .error e => .error e
            | .ok ll =>
              match Block.translateCallArgs g block params' rest st1 with
              | .error e => .error e
              | .ok (.error diag, st2) => .ok (.error diag, st2)
              | .ok (.ok lls, st2) => .ok (.ok (ll :: lls), st2)
end

/-- An identifier node of `go/ast`. -/
structure IdentNode where
  NamePos : Nat
  Name : string

/-- The struct `ast.ValueSpec`. -/
structure ValueSpec where
  Names : List IdentNode
  Type_ : Option Expr
  Values : List Expr

/-- A spec node of a general declaration: a value spec, or a node of another
type. -/
inductive Spec where
  | ValueSpec (spec : ValueSpec)
  | Other (typeName : string) (pos end_ : Nat)

/-- The struct `ast.GenDecl`. -/
structure GenDecl where
  TokPos : Nat
  Tok : Token
  Specs : List Spec

/-- The method `Pos` of a value spec: that of its first name. -/
def ValueSpec.Pos (spec : ValueSpec) : Nat :=
  match spec.Names with
  | [] => 0
  | n :: _ => n.NamePos

/-- The method `End` of a value spec: the end of its last value, else of its
type, else of its last name. -/
def ValueSpec.End (spec : ValueSpec) : Nat :=
  match spec.Values.getLast?, spec.Type_, spec.Names.getLast? with
  | some v, _, _ => v.End
  | none, some t, _ => t.End
  | none, none, some n => n.NamePos + n.Name.utf8ByteSize
  | none, none, none => 0

/-- The function `DiagFromAST` on a value spec. -/
def DiagFromValueSpec (spec : ValueSpec) (msg : string) : GoDiag := ⟨spec.Pos, spec.End, msg⟩

/-- The loop of `translateVarDecl` over `valueSpec.Names`, from index `idx`:
nil, or the diagnostic. With initializers every round leaves the function:
line 252 returns the mismatch diagnostic, and line 254 returns the same
diagnostic when the types are equal. -/
def Block.translateVarDeclNames (g : Globals) (block : Block) (valueSpec : ValueSpec)
    (ty : GoType) : List IdentNode → Nat → TransState → Except Panic (Option GoDiag × TransState)
  | [], _, st => .ok (none, st)
  | name :: rest, idx, st =>
      match Scope.lookupVar st.store block.Scope name.Name with
      | some _ =>
          .ok (some (DiagFromAST (.Ident name.NamePos name.Name)
            "A variable already exists with this identifier."), st)
      | none =>
        if valueSpec.Values.length = 0 then
          match ty.Zero with
          | .error e => .error e
          | .ok rValue =>
            match Scope.addValue st.store block.Scope name.Name (.Typed rValue) with
            | .error e => .error e
            | .ok (_, store') =>
                Block.translateVarDeclNames g block valueSpec ty rest (idx + 1)
                  { st with store := store' }
        else
          match valueSpec.Values[idx]? with
          | none => .error .indexOutOfRange
          | some rExpr =>
            match block.translateExprRHS g rExpr st with
            | .error e => .error e
            | .ok (.error diag, st1) => .ok (some diag, st1)
            | .ok (.ok rValue, st1) =>
              match rValue.Type g.global_type_factory with
              | .error e => .error e
              | .ok rTy =>
                match rTy.Eq (some ty) with
                | .error e => .error e
                | .ok _ =>
                  match ty.String with
                  | .error e => .error e
                  | .ok sTy =>
                    match rTy.String with
                    | .error e => .error e
                    | .ok sR =>
                      .ok (some (DiagFromAST rExpr
                        ("Expected initializer of type \"" ++ sTy ++ "\", but found type \""
                          ++ sR ++ "\".")), st1)

/-- The method `translateVarDecl`: nil, or the diagnostic. The body of the
loop over `gen.Specs` always leaves the function, so only the first spec is
looked at. -/
def Block.translateVarDecl (g : Globals) (block : Block) (gen : GenDecl) (st : TransState) :
    Except Panic (Option GoDiag × TransState) :=
  match gen.Specs with
  | [] => .error (.explicit "Unreachable.")
  | spec :: _ =>
    match spec with
    | .Other _ _ _ => .error (.explicit "Expected *ast.ValueSpec, but got different type!")
    | .ValueSpec valueSpec =>
      match assert (decide (valueSpec.Names.length > 0))
          "Found a spec with zero names to assign to." with
      | .error e => .error e
      | .ok _ =>
        match (match valueSpec.Type_ with
            | none => Except.ok none
            | some tyExpr => (block.Trans.translateType st tyExpr).map some) with
        | .error diag => .ok (some diag, st)
        | .ok ty =>
          if gen.Tok = .CONST then
            .ok (some (DiagFromValueSpec valueSpec "Const declarations are not yet implemented."),
              st)
          else
            match ty with
            | none =>
                .ok (some (DiagFromValueSpec valueSpec
                  "Unable to handle non-typed variable declarations at this time."), st)
            | some ty =>
              if valueSpec.Values.length ≠ 0 ∧ valueSpec.Values.length ≠ valueSpec.Names.length
              then
                .ok (some (DiagFromValueSpec valueSpec
                  "Partial initialization of variables in a variable declaration is not allowed."),
                  st)
              else block.translateVarDeclNames g valueSpec ty valueSpec.Names 0 st

/-- A state in which the top-level scope (maps at address 0) binds the type
`int64` and the scope of a function body (maps at address 1) binds the
variable `y` to the zero value of `int64`. -/
def sampleState : TransState :=
  ⟨⟨fun a => if a = 0 then (GoMap.empty : TypeMap).set "int64" ty_int64 else GoMap.empty,
    fun a => if a = 1 then
        (GoMap.empty : ValueMap UntypedValue).set "y" ⟨"y", false, .Typed zero_int64⟩
      else GoMap.empty,
    2⟩,
   CreateNamespace (LLModule.create "main"), [], fun _ _ => none⟩

/-- The block of a function body whose scope is the child of the top-level
scope in `sampleState`. -/
def sampleBlock : Block :=
  ⟨.mk 1 1 (.mk 0 0 .nil), 0, 0, some ty_int64, ⟨.mk 0 0 .nil, darwin_x86_64⟩⟩

/-- The declaration `var x int64 = y`. -/
def sampleVarDecl : GenDecl :=
  ⟨0, .VAR, [.ValueSpec ⟨[⟨4, "x"⟩], some (.Ident 6 "int64"), [.Ident 14 "y"]⟩]⟩

/-- The store made by `CreateScope` on the empty store, holding values of
type `Nat`; its scope is `sampleRoot`. -/
def sampleRootStore : Store Nat := (CreateScope (Store.init : Store Nat)).2

/-- The scope made by `CreateScope` on the empty store. -/
def sampleRoot : Scope := .mk 0 0 .nil

/-- A store in which the scope with maps at address 1 binds `x` to 1 and its
parent, with maps at address 0, binds `x` to 0. -/
def shadowStore : Store Nat :=
  ⟨fun _ => GoMap.empty,
   fun a => if a = 1 then (GoMap.empty : ValueMap Nat).set "x" ⟨"x", false, 1⟩
     else (GoMap.empty : ValueMap Nat).set "x" ⟨"x", false, 0⟩,
   2⟩

/-- A store in which the root scope (maps at address 0) has two children, with
maps at the addresses 1 and 2, and the second child binds `x` to 7. -/
def siblingStore : Store Nat :=
  ⟨fun _ => GoMap.empty,
   fun a => if a = 2 then (GoMap.empty : ValueMap Nat).set "x" ⟨"x", false, 7⟩
     else GoMap.empty,
   3⟩

/-- A stage that writes its name to a log and returns the given diagnostic. -/
def logStage (name : string) (diag : Option string) : Stage (List string) string :=
  ⟨name, fun w => (diag, w ++ [name])⟩

mutual
/-- Whether a type holds no `*AliasType` at any depth. -/
def GoType.noAlias : GoType → Bool
  | .IntType _ _ => true
  | .AliasType _ _ => false
  | .PointerType a => GoType.noAlias a
  | .FuncType ps none => GoType.noAliasList ps
  | .FuncType ps (some rt) => GoType.noAliasList ps && GoType.noAlias rt
/-- List counterpart of `GoType.noAlias`. -/
def GoType.noAliasList : List GoType → Bool
  | [] => true
  | t :: ts => GoType.noAlias t && GoType.noAliasList ts
end

mutual
/-- The type the specification describes as the base of a type: every alias
replaced by its referent, the pointers, the function types and the order of
the parameters kept. -/
def GoType.stripAliases : GoType → GoType
  | .IntType k t => .IntType k t
  | .AliasType _ al => GoType.stripAliases al
  | .PointerType a => .PointerType (GoType.stripAliases a)
  | .FuncType ps none => .FuncType (GoType.stripAliasesList ps) none
  | .FuncType ps (some rt) =>
      .FuncType (GoType.stripAliasesList ps) (some (GoType.stripAliases rt))
/-- List counterpart of `GoType.stripAliases`. -/
def GoType.stripAliasesList : List GoType → List GoType
  | [] => []
  | t :: ts => GoType.stripAliases t :: GoType.stripAliasesList ts
end

/-- Whether a type holds no `*FuncType` at any depth. -/
def GoType.funcFree : GoType → Bool
  | .IntType _ _ => true
  | .AliasType _ al => GoType.funcFree al
  | .PointerType a => GoType.funcFree a
  | .FuncType _ _ => false

/-- The type `func(*uint8) int64`. -/
def ty_func_ptr_int64 : GoType := .FuncType [.PointerType ty_uint8] (some ty_int64)

/-- The type `func(int16) func(*uint8) int8`. -/
def ty_collide_a : GoType :=
  .FuncType [ty_int16] (some (.FuncType [.PointerType ty_uint8] (some ty_int8)))

/-- The type `func(uint8, *int16) func() int8`. -/
def ty_collide_b : GoType :=
  .FuncType [ty_uint8, .PointerType ty_int16] (some (.FuncType [] (some ty_int8)))

/-- Whether a type holds no function type inside a function type, and every
function type in it has a result: integers, pointers and aliases around at
most one function type, whose result and parameters hold no function type. -/
def GoType.firstOrder : GoType → Bool
  | .IntType _ _ => true
  | .AliasType _ al => GoType.firstOrder al
  | .PointerType a => GoType.firstOrder a
  | .FuncType _ none => false
  | .FuncType ps (some rt) => ps.all GoType.funcFree && rt.funcFree

/-- The type `func(func(uint8) int8, int16) int8`. -/
def ty_collide_c : GoType :=
  .FuncType [.FuncType [ty_uint8] (some ty_int8), ty_int16] (some ty_int8)

/-- The type `func(func(uint8, int16) int8) int8`. -/
def ty_collide_d : GoType :=
  .FuncType [.FuncType [ty_uint8, ty_int16] (some ty_int8)] (some ty_int8)

/-- The type `func(*byte) int64`. -/
def ty_func_byteptr_int64 : GoType := .FuncType [.PointerType ty_byte] (some ty_int64)

/-- What `%s` prints for a token: the method `Token.String`. -/
def Token.String : Token → string
  | .INT => "INT"
  | .FLOAT => "FLOAT"
  | .IMAG => "IMAG"
  | .CHAR => "CHAR"
  | .STRING => "STRING"
  | .VAR => "var"
  | .CONST => "const"
  | .IMPORT => "import"
  | .TYPE => "type"

/-- A non-nil `*BoundVar` as an `Assignable`: the address of the value map
that holds the pointer, and its key there. -/
structure Assignable where
  place : Nat
  key : string

/-- The method `BoundVar.LValue`. -/
def BoundVar.LValue {V : Type} (v : BoundVar V) : Bool :=
  if v.Const then false else true

/-- The method `BoundVar.BuildAssign`: `v.Val = val` writes through the
pointer and changes no map. A pointer taken from a scope finds its struct in
the store, so the first case does not arise. -/
def Assignable.BuildAssign (v : Assignable) (val : TypedValue) (st : TransState) :
    Except Panic (Option GoDiag × TransState) :=
  match st.store.values v.place v.key with
  | none => .error .nilDereference
  | some bound =>
    match assert (!bound.Const) "Attempting to assign to a const value." with
    | .error e => .error e
    | .ok _ =>
      .ok (none, { st with assigned := fun place key =>
        if place = v.place ∧ key = v.key then some val else st.assigned place key })

/-- The method `translateExprLHS`: the assignable, or the diagnostic.
`lVal.LValue()` reads `v.Const` through the pointer that `lookupVar` returned,
which is nil for an identifier without a binding. -/
def Block.translateExprLHS (block : Block) (st : TransState) :
    Expr → Except Panic (Except GoDiag Assignable)
  | .Ident p name =>
      match Scope.lookupVarAt st.store block.Scope name with
      | none => .error .nilDereference
      | some (place, lVal) =>
          if !lVal.LValue then
            .ok (.error (DiagFromAST (.Ident p name)
              ("Unable to assign to variable \"" ++ name ++ "\".")))
          else .ok (.ok ⟨place, name⟩)
  | e => .ok (.error (DiagFromAST e "Expected an lvalue expression."))

/-- The method `translateExprRHSTyped`: the typed value (nil when `RValue`
returned nil), or the diagnostic. -/
def Block.translateExprRHSTyped (g : Globals) (block : Block) (expr : Expr)
    (expected_type : Option GoType) (st : TransState) :
    Except Panic (Except GoDiag (Option TypedValue) × TransState) :=
  match block.translateExprRHS g expr st with
  | .error e => .error e
  | .ok (.error diag, st1) => .ok (.error diag, st1)
  | .ok (.ok untyped, st1) =>
    match untyped.RValue g.global_type_factory expected_type with
    | .error e => .error e
    | .ok (_, some udiag) => .ok (.error (BindDiagToAST expr udiag), st1)
    | .ok (typed, none) => .ok (.ok typed, st1)

/-- The method `translateReturn` on a return statement with the position
`Return` of its keyword; the statement ends after its last result, or after
the keyword. -/
def Block.translateReturn (g : Globals) (block : Block) (Return : Nat) (Results : List Expr)
    (st : TransState) : Except Panic (Option GoDiag × TransState) :=
  match Results with
  | [] =>
      match block.ResultTy with
      | some _ => .ok (some ⟨Return, Return + 6, "Function is expected to return a value!"⟩, st)
      | none => .ok (none, { st with code := st.code ++ [.RetVoid block.Builder] })
  | first :: more =>
      if (first :: more).length > 1 then
        .ok (some ⟨Return, ((first :: more).getLast (List.cons_ne_nil first more)).End,
          "Only single-value return is implemented at this time."⟩, st)
      else
        match block.translateExprRHSTyped g first block.ResultTy st with
        | .error e => .error e
        | .ok (.error diag, st1) => .ok (some diag, st1)
        | .ok (.ok none, _) => .error .nilDereference
        | .ok (.ok (some result), st1) =>
          match result.LLVM with
          | .error e => .error e
          | .ok ll => .ok (none, { st1 with code := st1.code ++ [.Ret block.Builder ll] })

/-- The method `End` of a spec node. -/
def Spec.End : Spec → Nat
  | .ValueSpec spec => spec.End
  | .Other _ _ e => e

/-- The method `End` of a general declaration whose closing parenthesis is at
`Rparen` (0 when it has none): after the parenthesis, else the end of the
first spec (a parsed declaration without parentheses has one spec). -/
def GenDecl.End (gen : GenDecl) (Rparen : Nat) : Nat :=
  if Rparen ≠ 0 then Rparen + 1
  else
    match gen.Specs with
    | [] => 0
    | spec :: _ => spec.End

/-- The method `translateGenDecl`, on the node and the position of its closing
parenthesis. -/
def Block.translateGenDecl (g : Globals) (block : Block) (gen : GenDecl) (Rparen : Nat)
    (st : TransState) : Except Panic (Option GoDiag × TransState) :=
  match gen.Tok with
  | .VAR => block.translateVarDecl g gen st
  | .CONST => block.translateVarDecl g gen st
  | tok =>
      .ok (some ⟨gen.TokPos, gen.End Rparen,
        "General declaration type \"" ++ tok.String ++ "\" not implemented yet."⟩, st)

/-- A declaration node inside a declaration statement: a general declaration
with the position of its closing parenthesis, or a node of another type. -/
inductive Decl where
  | GenDecl (gen : GenDecl) (Rparen : Nat)
  | Other (typeName : string) (pos end_ : Nat)

/-- The statement nodes of `go/ast` that the translator tells apart; `Other`
is any other node, by the name `%T` prints for it and its two positions. -/
inductive Stmt where
  | ExprStmt (X : Expr)
  | ReturnStmt (Return : Nat) (Results : List Expr)
  | DeclStmt (Decl : Decl)
  | AssignStmt (Lhs : List Expr) (TokPos : Nat) (Rhs : List Expr)
  | Other (typeName : string) (pos end_ : Nat)

/-- The method `translateDecl` of a block, on the declaration of the
statement. -/
def Block.translateDecl (g : Globals) (block : Block) (decl : Decl) (st : TransState) :
    Except Panic (Option GoDiag × TransState) :=
  match decl with
  | .GenDecl gen rparen => block.translateGenDecl g gen rparen st
  | .Other typeName pos end_ =>
      .ok (some ⟨pos, end_, "Unknown block declaration type: " ++ typeName ++ "."⟩, st)

/-- The call of line 293 of `trans.go`, `block.translateExprRHS(rExpr, nil)`,
as a function of the block, the expression and the state. The call has one
argument more than `translateExprRHS` takes, so the source does not say which
method of the block is meant; what it returns is handed to `BuildAssign`,
which takes a `TypedValue` (taken as not nil), or is the diagnostic. -/
abbrev AssignRhs :=
  Block → Expr → TransState → Except Panic (Except GoDiag TypedValue × TransState)

/-- The loop of `translateAssign` over `assign.Lhs`, from index `idx`; `rhs`
is the call of line 293. -/
def Block.translateAssignLoop (rhs : AssignRhs) (block : Block) (Rhs : List Expr) :
    List Expr → Nat → TransState → Except Panic (Option GoDiag × TransState)
  | [], _, st => .ok (none, st)
  | lExpr :: rest, idx, st =>
      match block.translateExprLHS st lExpr with
      | .error e => .error e
      | .ok (.error diag) => .ok (some diag, st)
      | .ok (.ok lValue) =>
        match Rhs[idx]? with
        | none => .error .indexOutOfRange
        | some rExpr =>
          match rhs block rExpr st with
          | .error e => .error e
          | .ok (.error diag, st1) => .ok (some diag, st1)
          | .ok (.ok rValue, st1) =>
            match lValue.BuildAssign rValue st1 with
            | .error e => .error e
            | .ok (some diag, st2) => .ok (some diag, st2)
            | .ok (none, st2) => Block.translateAssignLoop rhs block Rhs rest (idx + 1) st2

/-- The method `translateAssign`; the statement starts with its first target
and ends with its last value (a parsed statement has at least one of each). -/
def Block.translateAssign (rhs : AssignRhs) (block : Block) (Lhs Rhs : List Expr)
    (st : TransState) : Except Panic (Option GoDiag × TransState) :=
  if Lhs.length ≠ Rhs.length then
    .ok (some ⟨(Lhs.head?.map Expr.Pos).getD 0, (Rhs.getLast?.map Expr.End).getD 0,
      "Every variable must have an equivalent rValue"⟩, st)
  else Block.translateAssignLoop rhs block Rhs Lhs 0 st

/-- The method `translateStatement`. -/
def Block.translateStatement (g : Globals) (rhs : AssignRhs) (block : Block) (statement : Stmt)
    (st : TransState) : Except Panic (Option GoDiag × TransState) :=
  match statement with
  | .ExprStmt x =>
      match block.translateExprRHS g x st with
      | .error e => .error e
      | .ok (.error diag, st1) => .ok (some diag, st1)
      | .ok (.ok _, st1) => .ok (none, st1)
  | .ReturnStmt ret results => block.translateReturn g ret results st
  | .DeclStmt decl => block.translateDecl g decl st
  | .AssignStmt lhs _ rhsExprs => block.translateAssign rhs lhs rhsExprs st
  | .Other typeName pos end_ =>
      .ok (some ⟨pos, end_, "Unknown statement type: " ++ typeName⟩, st)

/-- The loop of `translateFuncDecl` over `decl.Body.List`: nil, or the first
diagnostic. -/
def Block.translateStatements (g : Globals) (rhs : AssignRhs) (block : Block) :
    List Stmt → TransState → Except Panic (Option GoDiag × TransState)
  | [], st => .ok (none, st)
  | statement :: rest, st =>
      match block.translateStatement g rhs statement st with
      | .error e => .error e
      | .ok (some diag, st1) => .ok (some diag, st1)
      | .ok (none, st1) => Block.translateStatements g rhs block rest st1

/-- The struct `ast.Field`: the names declared with one type. -/
structure FieldNode where
  Names : List IdentNode
  Type_ : Expr

/-- The struct `ast.FieldList`; `Closing` is 0 when there is no closing
parenthesis. -/
structure FieldList where
  Opening : Nat
  List_ : List FieldNode
  Closing : Nat

/-- The struct `ast.FuncType`: `Params` is never nil, `Results` is nil when the
function declares no result. -/
structure FuncTypeNode where
  Func : Nat
  Params : FieldList
  Results : Option FieldList

/-- The struct `ast.BlockStmt`. -/
structure BlockStmt where
  Lbrace : Nat
  List_ : List Stmt
  Rbrace : Nat

/-- The struct `ast.FuncDecl`; `Recv` is nil for a function, `Body` is nil for
a declaration without a body. -/
structure FuncDecl where
  Recv : Option FieldList
  Name : IdentNode
  Type_ : FuncTypeNode
  Body : Option BlockStmt

/-- The method `End` of a field list. -/
def FieldList.End (fields : FieldList) : Nat :=
  if fields.Closing ≠ 0 then fields.Closing + 1
  else
    match fields.List_.getLast? with
    | some field => field.Type_.End
    | none => 0

/-- The method `End` of a function declaration: the end of its body, else of
its type. -/
def FuncDecl.End (decl : FuncDecl) : Nat :=
  match decl.Body, decl.Type_.Results with
  | some body, _ => body.Rbrace + 1
  | none, some results => results.End
  | none, none => decl.Type_.Params.End

/-- The function `DiagFromAST` on a function declaration, which starts at its
keyword `func`. -/
def DiagFromFuncDecl (decl : FuncDecl) (msg : string) : GoDiag :=
  ⟨decl.Type_.Func, decl.End, msg⟩

/-- The call `mod.AddFunction(name, ty)`: a new function at the end of the
module. -/
def LLModule.AddFunction (mod : LLModule) (name : string) (ty : LLType) : LLValue × LLModule :=
  (.Function mod.Functions.length,
   { mod with Functions := mod.Functions ++ [⟨name, ty, false⟩] })

/-- The loop of `translateFuncDecl` over `paramList.List`: one entry of
`paramTypes` for every name of every field. -/
def Translator.translateParams (trans : Translator) (st : TransState) :
    List FieldNode → List GoType → Except GoDiag (List GoType)
  | [], paramTypes => .ok paramTypes
  | field :: rest, paramTypes =>
      match trans.translateType st field.Type_ with
      | .error diag => .error diag
      | .ok ty =>
          Translator.translateParams trans st rest
            (paramTypes ++ List.replicate field.Names.length ty)

/-- The method `CreateBlockForFunction`. The entry block appended to the
function and the builder made for it are new handles; both are named by the
index of the function in the module. -/
def Translator.CreateBlockForFunction (trans : Translator) (llvmFunc : LLValue) (fnTy : FuncTy)
    (st : TransState) : Block × TransState :=
  (⟨(trans.Scope.createChild st.store).1,
      (match llvmFunc with
        | .Function index => index
        | _ => 0),
      (match llvmFunc with
        | .Function index => index
        | _ => 0),
      fnTy.Result, trans⟩,
   { st with store := (trans.Scope.createChild st.store).2 })

/-- The method `translateFuncDecl`: nil, or the diagnostic; `rhs` is the call
of line 293, which the assignment statements of the body reach. The first
line reads `fnTypeDecl.Results.List`, through a `Results` that is nil when the
declaration has no result. -/
def Translator.translateFuncDecl (g : Globals) (rhs : AssignRhs) (trans : Translator)
    (decl : FuncDecl) (st : TransState) : Except Panic (Option GoDiag × TransState) :=
  match decl.Type_.Results with
  | none => .error .nilDereference
  | some results =>
    if results.List_.length > 1 then
      .ok (some (DiagFromFuncDecl decl "Returning more than one value is not yet permitted."),
        st)
    else
      match trans.translateParams st decl.Type_.Params.List_ [] with
      | .error diag => .ok (some diag, st)
      | .ok paramTypes =>
        match (match results.List_ with
            | [] => Except.ok none
            | field :: _ => (trans.translateType st field.Type_).map some) with
        | .error diag => .ok (some diag, st)
        | .ok resultTy =>
          match (GoType.FuncType paramTypes resultTy).LLVM with
          | .error e => .error e
          | .ok llvmFnTy =>
            let added := st.LLns.Mod.AddFunction decl.Name.Name llvmFnTy
            let created := trans.CreateBlockForFunction added.1 ⟨paramTypes, resultTy⟩
              { st with LLns := { st.LLns with Mod := added.2 } }
            match decl.Body with
            | none => .error .nilDereference
            | some body => Block.translateStatements g rhs created.1 body.List_ created.2

/-- The method `translateDecl` of the translator on a function declaration. -/
def Translator.translateDecl (g : Globals) (rhs : AssignRhs) (trans : Translator)
    (fDecl : FuncDecl) (st : TransState) : Except Panic (Option GoDiag × TransState) :=
  match fDecl.Recv with
  | some _ => .ok (some (DiagFromFuncDecl fDecl "Methods not supported yet."), st)
  | none => trans.translateFuncDecl g rhs fDecl st

/-- Two stores agree outside the value map at address `own`: same type maps,
same next address, same value maps elsewhere. -/
def Store.sameOutside {V : Type} (own : Nat) (σ σ' : Store V) : Prop :=
  σ'.types = σ.types ∧ σ'.next = σ.next ∧ ∀ a, a ≠ own → σ'.values a = σ.values a

/-- One reading of the call of line 293: `translateExprRHSTyped(rExpr, nil)`,
the method that takes an expected type and returns a `TypedValue`. No `RValue`
method returns nil without a diagnostic; that case is closed as a nil
dereference. -/
def translateExprRHSTypedNil (g : Globals) : AssignRhs := fun block rExpr st =>
  match block.translateExprRHSTyped g rExpr none st with
  | .error e => .error e
  | .ok (.error diag, st1) => .ok (.error diag, st1)
  | .ok (.ok none, _) => .error .nilDereference
  | .ok (.ok (some typed), st1) => .ok (.ok typed, st1)

/-- The translator whose top-level scope has its maps at address 0. -/
def sampleTranslator : Translator := ⟨.mk 0 0 .nil, darwin_x86_64⟩

/-- A state in which the top-level scope (maps at address 0) binds the type
`int64` and, as `addExternFunction` does, the variable `puts` to the function
value of `puts`. -/
def sampleTopState : TransState :=
  ⟨⟨fun a => if a = 0 then (GoMap.empty : TypeMap).set "int64" ty_int64 else GoMap.empty,
    fun a => if a = 0 then
        (GoMap.empty : ValueMap UntypedValue).set "puts"
          ⟨"puts", false, .Typed (.FuncValue (puts_value (.Function 0)))⟩
      else GoMap.empty,
    1⟩,
   CreateNamespace ⟨"main", "", "", [],
     [⟨"puts", .FunctionType .VoidType [.PointerType (.IntType 8) 0] false, true⟩]⟩, [],
   fun _ _ => none⟩

/-- A block of the top-level scope of `sampleTopState`. -/
def sampleTopBlock : Block := ⟨.mk 0 0 .nil, 1, 1, none, sampleTranslator⟩

/-- The declaration `func f() int64 { puts = 5 }`. -/
def sampleAssignDecl : FuncDecl :=
  ⟨none, ⟨5, "f"⟩, ⟨0, ⟨6, [], 7⟩, some ⟨0, [⟨[], .Ident 9 "int64"⟩], 0⟩⟩,
   some ⟨15, [.AssignStmt [.Ident 17 "puts"] 22 [.BasicLit 24 .INT "5"]], 26⟩⟩

/-- The declaration `func f() (a, b int64) {}`. -/
def sampleTwoResultsDecl : FuncDecl :=
  ⟨none, ⟨5, "f"⟩,
   ⟨0, ⟨6, [], 7⟩, some ⟨9, [⟨[⟨10, "a"⟩, ⟨13, "b"⟩], .Ident 15 "int64"⟩], 20⟩⟩,
   some ⟨22, [], 23⟩⟩

/-- The declaration `var ( x int64; a, b int64 = 1 )`. -/
def sampleLaterPartialDecl : GenDecl :=
  ⟨0, .VAR, [.ValueSpec ⟨[⟨6, "x"⟩], some (.Ident 8 "int64"), []⟩,
    .ValueSpec ⟨[⟨15, "a"⟩, ⟨18, "b"⟩], some (.Ident 20 "int64"), [.BasicLit 28 .INT "1"]⟩]⟩

/-- The declaration `var a, b int64 = 1`. -/
def samplePartialDecl : GenDecl :=
  ⟨0, .VAR, [.ValueSpec ⟨[⟨4, "a"⟩, ⟨7, "b"⟩], some (.Ident 9 "int64"), [.BasicLit 17 .INT "1"]⟩]⟩

/-! Supporting lemmas. -/

namespace GoType

mutual
/-- When `Base` succeeds on the receiver, `Eq` returns a boolean for every argument. -/
theorem Eq_returns_of_Base : ∀ (A : GoType) (bA : GoType), Base A = .ok bA →
    ∀ o : Option GoType, ∃ b, Eq A o = .ok b
  | IntType k t, _, _, o => by
      cases o with
      | none => exact ⟨false, by simp [Eq]⟩
      | some B => cases B <;> simp [Eq]
  | AliasType id al, bA, h, o => by
      simp only [Base] at h
      cases o with
      | none => exact ⟨false, by simp [Eq]⟩
      | some B =>
        cases B with
        | AliasType id' al' =>
          simp only [Eq]
          split
          · exact Eq_returns_of_Base al bA h _
          · exact ⟨false, rfl⟩
        | _ => simp [Eq]
  | PointerType a, bA, h, o => by
      simp only [Base] at h
      cases hb : Base a with
      | error e => simp [hb] at h
      | ok b =>
        cases o with
        | none => exact ⟨false, by simp [Eq]⟩
        | some B =>
          cases B with
          | PointerType a' => simp only [Eq]; exact Eq_returns_of_Base a b hb _
          | _ => simp [Eq]
  | FuncType ps none, bA, h, o => by
      simp only [Base] at h
      cases hps : BaseParams ps <;> simp [hps] at h
  | FuncType ps (some rt), bA, h, o => by
      simp only [Base] at h
      cases hps : BaseParams ps with
      | error e => simp [hps] at h
      | ok bps =>
        cases hr : Base rt with
        | error e => simp [hps, hr] at h
        | ok br =>
          cases o with
          | none => exact ⟨false, by simp [Eq]⟩
          | some B =>
            cases B with
            | FuncType ps' r' =>
              simp only [Eq]
              split
              · exact ⟨false, rfl⟩
              · rename_i hlen
                have hlen' : ps.length = ps'.length := by simpa using hlen
                obtain ⟨b1, hb1⟩ := EqParams_returns_of_BaseParams ps bps hps ps' hlen'
                obtain ⟨b2, hb2⟩ := Eq_returns_of_Base rt br hr r'
                rw [hb1]
                cases b1
                · exact ⟨false, rfl⟩
                · simp only [hb2]
                  cases b2
                  · exact ⟨false, rfl⟩
                  · exact ⟨true, rfl⟩
            | _ => simp [Eq]
/-- List counterpart of `Eq_returns_of_Base` for the parameter loop. -/
theorem EqParams_returns_of_BaseParams : ∀ (ps : List GoType) (bps : List GoType),
    BaseParams ps = .ok bps → ∀ os : List GoType, ps.length = os.length →
    ∃ b, EqParams ps os = .ok b
  | [], _, _, os, _ => ⟨true, by simp [EqParams]⟩
  | t :: ts, bps, h, os, hlen => by
      cases os with
      | nil => simp at hlen
      | cons o os =>
        simp only [BaseParams] at h
        cases ht : Base t with
        | error e => simp [ht] at h
        | ok b =>
          cases hts : BaseParams ts with
          | error e => simp [ht, hts] at h
          | ok bs =>
            obtain ⟨b1, hb1⟩ := Eq_returns_of_Base t b ht (some o)
            simp only [EqParams, hb1]
            cases b1
            · exact ⟨false, rfl⟩
            · exact EqParams_returns_of_BaseParams ts bs hts os (by simpa using hlen)
end

mutual
/-- The result of `Base` is equal to itself under `Eq`. -/
theorem Eq_self_of_Base : ∀ (A : GoType) (bA : GoType), Base A = .ok bA →
    Eq bA (some bA) = .ok true
  | IntType k t, bA, h => by
      simp only [Base, Except.ok.injEq] at h
      subst h
      simp [Eq]
  | AliasType id al, bA, h => by
      simp only [Base] at h
      exact Eq_self_of_Base al bA h
  | PointerType a, bA, h => by
      simp only [Base] at h
      cases hb : Base a with
      | error e => simp [hb] at h
      | ok b =>
        simp only [hb, Except.ok.injEq] at h
        subst h
        simp only [Eq]
        exact Eq_self_of_Base a b hb
  | FuncType ps none, bA, h => by
      simp only [Base] at h
      cases hps : BaseParams ps <;> simp [hps] at h
  | FuncType ps (some rt), bA, h => by
      simp only [Base] at h
      cases hps : BaseParams ps with
      | error e => simp [hps] at h
      | ok bps =>
        cases hr : Base rt with
        | error e => simp [hps, hr] at h
        | ok br =>
          simp only [hps, hr, Except.ok.injEq] at h
          subst h
          have h1 := EqParams_self_of_BaseParams ps bps hps
          have h2 := Eq_self_of_Base rt br hr
          simp [Eq, h1, h2]
/-- List counterpart of `Eq_self_of_Base`. -/
theorem EqParams_self_of_BaseParams : ∀ (ps : List GoType) (bps : List GoType),
    BaseParams ps = .ok bps → EqParams bps bps = .ok true
  | [], bps, h => by
      simp only [BaseParams, Except.ok.injEq] at h
      subst h
      simp [EqParams]
  | t :: ts, bps, h => by
      simp only [BaseParams] at h
      cases ht : Base t with
      | error e => simp [ht] at h
      | ok b =>
        cases hts : BaseParams ts with
        | error e => simp [ht, hts] at h
        | ok bs =>
          simp only [ht, hts, Except.ok.injEq] at h
          subst h
          have h1 := Eq_self_of_Base t b ht
          have h2 := EqParams_self_of_BaseParams ts bs hts
          simp [EqParams, h1, h2]
end

end GoType

/-- Every hexadecimal digit is a digit of base 16 for the scanner, with its
tabulated value, and is no sign and not the letter of the hex marker. -/
theorem hexDigits_scan : ∀ c ∈ hexDigits,
    c ≠ '-' ∧ c ≠ '+' ∧ digitVal c = digitValue c ∧ digitVal c < 16 := by
  decide

/-- Every octal digit is a digit of base 8 for the scanner, with its tabulated
value, and is neither a sign nor `x`/`X`. -/
theorem octalDigits_scan : ∀ c ∈ octalDigits,
    c ≠ '-' ∧ c ≠ '+' ∧ digitVal c = digitValue c ∧ digitVal c < 8 ∧ c ≠ 'x' ∧ c ≠ 'X' := by
  decide

/-- Every decimal digit is a digit of base 10 for the scanner, with its
tabulated value, and is neither a sign nor `x`/`X`. -/
theorem decimalDigits_scan : ∀ c ∈ decimalDigits,
    c ≠ '-' ∧ c ≠ '+' ∧ digitVal c = digitValue c ∧ digitVal c < 10 ∧ c ≠ 'x' ∧ c ≠ 'X' := by
  decide

/-- The digit loop computes the positional value of a string of valid digits. -/
theorem scanDigits_eq_literalValue (base : Nat) :
    ∀ (ds : List Char) (acc : Nat),
      (∀ c ∈ ds, digitVal c = digitValue c ∧ digitVal c < base) →
      scanDigits base ds acc = some (acc * base ^ ds.length + literalValue base ds)
  | [], acc, _ => by simp [scanDigits, literalValue]
  | c :: rest, acc, h => by
      have hc := h c (List.mem_cons_self _ _)
      have hrest : ∀ d ∈ rest, digitVal d = digitValue d ∧ digitVal d < base :=
        fun d hd => h d (List.mem_cons_of_mem _ hd)
      have ih := scanDigits_eq_literalValue base rest (acc * base + digitVal c) hrest
      rw [scanDigits, if_pos hc.2, ih, hc.1]
      simp only [literalValue, List.reverse_cons, List.map_append, List.map_cons, List.map_nil,
        Nat.ofDigits_append, Nat.ofDigits_singleton, List.length_map, List.length_reverse,
        List.length_cons, Option.some.injEq]
      ring

/-- The digit loop fails as soon as one character is no digit of the base. -/
theorem scanDigits_eq_none (base : Nat) :
    ∀ (ds : List Char) (acc : Nat), (∃ c ∈ ds, ¬ digitVal c < base) →
      scanDigits base ds acc = none
  | [], _, h => by obtain ⟨c, hc, _⟩ := h; cases hc
  | c :: rest, acc, h => by
      simp only [scanDigits]
      split
      · apply scanDigits_eq_none base rest
        obtain ⟨d, hd, hnd⟩ := h
        rcases List.mem_cons.mp hd with rfl | hd'
        · contradiction
        · exact ⟨d, hd', hnd⟩
      · rfl

/-- On a non-empty string of valid digits that does not start with a sign,
`SetString` succeeds with the positional value. -/
theorem SetString_digits (base : Nat) (ds : List Char) (hne : ds ≠ [])
    (h : ∀ c ∈ ds, c ≠ '-' ∧ c ≠ '+' ∧ digitVal c = digitValue c ∧ digitVal c < base) :
    SetString ds base = some (literalValue base ds : ℤ) := by
  cases ds with
  | nil => exact absurd rfl hne
  | cons c rest =>
    have hc := h c (List.mem_cons_self _ _)
    have hv : ∀ d ∈ c :: rest, digitVal d = digitValue d ∧ digitVal d < base :=
      fun d hd => (h d hd).2.2
    simp [SetString, hc.1, hc.2.1, scanDigits_eq_literalValue base (c :: rest) 0 hv]

/-- On an unsigned string with a character that is no digit of the base,
`SetString` fails. -/
theorem SetString_invalid (base : Nat) (ds : List Char)
    (hsign : ∀ c ∈ ds.head?, c ≠ '-' ∧ c ≠ '+')
    (h : ∃ c ∈ ds, ¬ digitVal c < base) :
    SetString ds base = none := by
  cases ds with
  | nil => rfl
  | cons c rest =>
    have hc := hsign c (by simp)
    simp [SetString, hc.1, hc.2, scanDigits_eq_none base (c :: rest) 0 h]

/-- A character that the scanner accepts as a digit of base 16 is one of the
hexadecimal digits. -/
theorem mem_hexDigits_of_digitVal_lt (c : Char) (h : digitVal c < 16) : c ∈ hexDigits := by
  have hc := Char.ofNat_toNat c
  have e0 : '0'.toNat = 48 := rfl
  have ea : 'a'.toNat = 97 := rfl
  have eA : 'A'.toNat = 65 := rfl
  unfold digitVal at h
  split_ifs at h with h1 h2 h3
  · have a : 48 ≤ c.toNat := h1.1
    have b : c.toNat ≤ 57 := h1.2
    rw [← hc]
    interval_cases c.toNat <;> decide
  · have a : 97 ≤ c.toNat := h2.1
    have b : c.toNat ≤ 102 := by omega
    rw [← hc]
    interval_cases c.toNat <;> decide
  · have a : 65 ≤ c.toNat := h3.1
    have b : c.toNat ≤ 70 := by omega
    rw [← hc]
    interval_cases c.toNat <;> decide
  · omega

/-- In base 16 `SetString` fails on every string that, after one optional
sign, is empty or has a character that is no hexadecimal digit. -/
theorem SetString_hex_invalid (s : List Char)
    (h : dropSign s = [] ∨ ∃ c ∈ dropSign s, c ∉ hexDigits) : SetString s 16 = none := by
  have key : ∀ l : List Char, (∃ c ∈ l, c ∉ hexDigits) → scanDigits 16 l 0 = none := by
    intro l ⟨c, hc, hn⟩
    exact scanDigits_eq_none 16 l 0 ⟨c, hc, fun hlt => hn (mem_hexDigits_of_digitVal_lt c hlt)⟩
  cases s with
  | nil => rfl
  | cons c rest =>
    by_cases hm : c = '-'
    · subst hm
      simp only [dropSign, true_or, if_true] at h
      rcases h with h | h
      · simp [SetString, h]
      · simp [SetString, key rest h]
    · by_cases hp : c = '+'
      · subst hp
        simp only [dropSign, or_true, if_true] at h
        rcases h with h | h
        · simp [SetString, h]
        · simp [SetString, key rest h]
      · simp only [dropSign, hm, hp, or_self, if_false] at h
        rcases h with h | h
        · cases h
        · simp [SetString, hm, hp, key (c :: rest) h]

mutual
/-- The method `String` returns on every type whose integer kinds are known. -/
theorem String_returns_of_knownKinds : ∀ (T : GoType), T.knownKinds = true →
    ∃ s, T.String = .ok s
  | .IntType k t, h => by
      simp only [GoType.knownKinds, BLTN_TY_UINT, decide_eq_true_eq] at h
      interval_cases k <;> exact ⟨_, rfl⟩
  | .AliasType id al, _ => ⟨id, by simp [GoType.String]⟩
  | .PointerType a, h => by
      simp only [GoType.knownKinds] at h
      obtain ⟨s, hs⟩ := String_returns_of_knownKinds a h
      exact ⟨"*" ++ s, by simp [GoType.String, hs]⟩
  | .FuncType ps none, h => by
      simp only [GoType.knownKinds] at h
      obtain ⟨s, hs⟩ := StringParams_returns_of_knownKinds ps h "" false
      exact ⟨"func (" ++ s ++ ")" ++ "", by simp only [GoType.String, hs]⟩
  | .FuncType ps (some rt), h => by
      simp only [GoType.knownKinds, Bool.and_eq_true] at h
      obtain ⟨s, hs⟩ := StringParams_returns_of_knownKinds ps h.1 "" false
      obtain ⟨r, hr⟩ := String_returns_of_knownKinds rt h.2
      exact ⟨"func (" ++ s ++ ")" ++ (" " ++ r), by simp only [GoType.String, hs, hr]⟩
/-- List counterpart of `String_returns_of_knownKinds`. -/
theorem StringParams_returns_of_knownKinds : ∀ (ps : List GoType),
    GoType.knownKindsList ps = true →
    ∀ (paramStr : string) (rest : Bool), ∃ s, GoType.StringParams ps paramStr rest = .ok s
  | [], _, paramStr, _ => ⟨paramStr, by simp [GoType.StringParams]⟩
  | t :: ts, h, paramStr, rest => by
      simp only [GoType.knownKindsList, Bool.and_eq_true] at h
      obtain ⟨s, hs⟩ := String_returns_of_knownKinds t h.1
      simp only [GoType.StringParams, hs]
      exact StringParams_returns_of_knownKinds ts h.2 _ true
end

/-- No type equals the nil interface value. -/
theorem Eq_nil (a : GoType) : a.Eq none = .ok false := by
  cases a with
  | FuncType ps r => cases r <;> simp [GoType.Eq]
  | _ => simp [GoType.Eq]

/-- Unfolding of `Eq` on two function types with results. -/
theorem Eq_FuncType_true_iff (ps ps' : List GoType) (rt : GoType) (r' : Option GoType) :
    (GoType.FuncType ps (some rt)).Eq (some (.FuncType ps' r')) = .ok true ↔
      ps.length = ps'.length ∧ GoType.EqParams ps ps' = .ok true ∧ rt.Eq r' = .ok true := by
  simp only [GoType.Eq]
  by_cases hlen : ps.length = ps'.length
  · simp only [hlen, bne_self_eq_false, Bool.false_eq_true, if_false, true_and]
    cases hP : GoType.EqParams ps ps' with
    | error e => simp
    | ok b =>
      cases b with
      | false => simp
      | true =>
        cases hR : rt.Eq r' with
        | error e => simp
        | ok b' => cases b' <;> simp
  · simp [hlen]

/-- A function type without a result never compares equal as receiver. -/
theorem Eq_FuncType_nil_ne_true (ps : List GoType) (o : Option GoType) :
    (GoType.FuncType ps none).Eq o ≠ .ok true := by
  cases o with
  | none => simp [GoType.Eq]
  | some b =>
    cases b with
    | FuncType ps' r' =>
      simp only [GoType.Eq]
      split
      · simp
      · cases hP : GoType.EqParams ps ps' with
        | error e => simp
        | ok b => cases b <;> simp
    | _ => simp [GoType.Eq]

/-- Unfolding of the parameter loop on two non-empty lists. -/
theorem EqParams_cons_true_iff (t o : GoType) (ts os : List GoType) :
    GoType.EqParams (t :: ts) (o :: os) = .ok true ↔
      t.Eq (some o) = .ok true ∧ GoType.EqParams ts os = .ok true := by
  simp only [GoType.EqParams]
  cases hE : t.Eq (some o) with
  | error e => simp
  | ok b => cases b <;> simp

mutual
/-- Equality as decided by `Eq` is symmetric. -/
theorem Eq_symm_true : ∀ (a b : GoType), a.Eq (some b) = .ok true → b.Eq (some a) = .ok true
  | .IntType k t, b, h => by
      cases b with
      | IntType k' t' =>
        simp only [GoType.Eq, Except.ok.injEq, beq_iff_eq] at h ⊢
        exact h.symm
      | _ => simp [GoType.Eq] at h
  | .AliasType id al, b, h => by
      cases b with
      | AliasType id' al' =>
        simp only [GoType.Eq] at h ⊢
        split at h
        · rename_i hid
          have hid' : id = id' := by simpa using hid
          have ih := Eq_symm_true al al' h
          simp [hid', ih]
        · cases h
      | _ => simp [GoType.Eq] at h
  | .PointerType a, b, h => by
      cases b with
      | PointerType a' =>
        simp only [GoType.Eq] at h ⊢
        exact Eq_symm_true a a' h
      | _ => simp [GoType.Eq] at h
  | .FuncType ps none, b, h => absurd h (Eq_FuncType_nil_ne_true ps (some b))
  | .FuncType ps (some rt), b, h => by
      cases b with
      | FuncType ps' r' =>
        cases r' with
        | none =>
          rw [Eq_FuncType_true_iff, Eq_nil] at h
          simp at h
        | some rt' =>
          rw [Eq_FuncType_true_iff] at h ⊢
          exact ⟨h.1.symm, EqParams_symm_true ps ps' h.1 h.2.1, Eq_symm_true rt rt' h.2.2⟩
      | _ => simp [GoType.Eq] at h
/-- List counterpart of `Eq_symm_true`. -/
theorem EqParams_symm_true : ∀ (ps os : List GoType), ps.length = os.length →
    GoType.EqParams ps os = .ok true → GoType.EqParams os ps = .ok true
  | [], os, hlen, _ => by
      cases os with
      | nil => simp [GoType.EqParams]
      | cons o os => simp at hlen
  | t :: ts, os, hlen, h => by
      cases os with
      | nil => simp at hlen
      | cons o os =>
        rw [EqParams_cons_true_iff] at h ⊢
        exact ⟨Eq_symm_true t o h.1, EqParams_symm_true ts os (by simpa using hlen) h.2⟩
end

mutual
/-- Equality as decided by `Eq` is transitive. -/
theorem Eq_trans_true : ∀ (a b c : GoType), a.Eq (some b) = .ok true →
    b.Eq (some c) = .ok true → a.Eq (some c) = .ok true
  | .IntType k t, b, c, h1, h2 => by
      cases b with
      | IntType k' t' =>
        cases c with
        | IntType k'' t'' =>
          simp only [GoType.Eq, Except.ok.injEq, beq_iff_eq] at h1 h2 ⊢
          exact h1.trans h2
        | _ => simp [GoType.Eq] at h2
      | _ => simp [GoType.Eq] at h1
  | .AliasType id al, b, c, h1, h2 => by
      cases b with
      | AliasType id' al' =>
        cases c with
        | AliasType id'' al'' =>
          simp only [GoType.Eq] at h1 h2 ⊢
          split at h1
          · rename_i hid1
            split at h2
            · rename_i hid2
              have e1 : id = id' := by simpa using hid1
              have e2 : id' = id'' := by simpa using hid2
              have ih := Eq_trans_true al al' al'' h1 h2
              simp [e1, e2, ih]
            · cases h2
          · cases h1
        | _ => simp [GoType.Eq] at h2
      | _ => simp [GoType.Eq] at h1
  | .PointerType a, b, c, h1, h2 => by
      cases b with
      | PointerType a' =>
        cases c with
        | PointerType a'' =>
          simp only [GoType.Eq] at h1 h2 ⊢
          exact Eq_trans_true a a' a'' h1 h2
        | _ => simp [GoType.Eq] at h2
      | _ => simp [GoType.Eq] at h1
  | .FuncType ps none, b, _, h1, _ => absurd h1 (Eq_FuncType_nil_ne_true ps (some b))
  | .FuncType ps (some rt), b, c, h1, h2 => by
      cases b with
      | FuncType ps' r' =>
        cases r' with
        | none => exact absurd h2 (Eq_FuncType_nil_ne_true ps' (some c))
        | some rt' =>
          cases c with
          | FuncType ps'' r'' =>
            cases r'' with
            | none =>
              rw [Eq_FuncType_true_iff, Eq_nil] at h2
              simp at h2
            | some rt'' =>
              rw [Eq_FuncType_true_iff] at h1 h2 ⊢
              exact ⟨h1.1.trans h2.1,
                EqParams_trans_true ps ps' ps'' h1.1 h2.1 h1.2.1 h2.2.1,
                Eq_trans_true rt rt' rt'' h1.2.2 h2.2.2⟩
          | _ => simp [GoType.Eq] at h2
      | _ => simp [GoType.Eq] at h1
/-- List counterpart of `Eq_trans_true`. -/
theorem EqParams_trans_true : ∀ (ps os qs : List GoType), ps.length = os.length →
    os.length = qs.length → GoType.EqParams ps os = .ok true →
    GoType.EqParams os qs = .ok true → GoType.EqParams ps qs = .ok true
  | [], _, _, _, _, _, _ => by simp [GoType.EqParams]
  | t :: ts, os, qs, hl1, hl2, h1, h2 => by
      cases os with
      | nil => simp at hl1
      | cons o os =>
        cases qs with
        | nil => simp at hl2
        | cons q qs =>
          rw [EqParams_cons_true_iff] at h1 h2 ⊢
          exact ⟨Eq_trans_true t o q h1.1 h2.1,
            EqParams_trans_true ts os qs (by simpa using hl1) (by simpa using hl2) h1.2 h2.2⟩
end

mutual
/-- Equality as decided by `Eq` is reflexive on every type all of whose
function types have a result. -/
theorem Eq_refl_of_hasResults : ∀ (a : GoType), a.hasResults = true →
    a.Eq (some a) = .ok true
  | .IntType k t, _ => by simp [GoType.Eq]
  | .AliasType id al, h => by
      simp only [GoType.hasResults] at h
      simp [GoType.Eq, Eq_refl_of_hasResults al h]
  | .PointerType a, h => by
      simp only [GoType.hasResults] at h
      simp only [GoType.Eq]
      exact Eq_refl_of_hasResults a h
  | .FuncType ps none, h => by simp [GoType.hasResults] at h
  | .FuncType ps (some rt), h => by
      simp only [GoType.hasResults, Bool.and_eq_true] at h
      rw [Eq_FuncType_true_iff]
      exact ⟨rfl, EqParams_refl_of_hasResults ps h.1, Eq_refl_of_hasResults rt h.2⟩
/-- List counterpart of `Eq_refl_of_hasResults`. -/
theorem EqParams_refl_of_hasResults : ∀ (ps : List GoType),
    GoType.hasResultsList ps = true → GoType.EqParams ps ps = .ok true
  | [], _ => by simp [GoType.EqParams]
  | t :: ts, h => by
      simp only [GoType.hasResultsList, Bool.and_eq_true] at h
      rw [EqParams_cons_true_iff]
      exact ⟨Eq_refl_of_hasResults t h.1, EqParams_refl_of_hasResults ts h.2⟩
end

/-- The function `assignable` never returns false: it returns true or panics. -/
theorem assignable_ne_false (A B : GoType) : assignable A B ≠ .ok false := by
  unfold assignable
  cases hE : A.Eq (some B) with
  | error e => simp
  | ok e =>
    cases e with
    | true => simp
    | false =>
      cases hA : A.Base with
      | error e => simp
      | ok bA =>
        cases hB : B.Base with
        | error e => simp
        | ok bB =>
          cases hEq : bA.Eq (some bB) with
          | error e => simp [hEq]
          | ok eq =>
            simp only [hEq]
            split <;> simp

/-! The claims. -/

/-- Claim C1 as stated fails: `byte` is named and `uint8` is not, the two are
not `Eq`, yet `assignable(byte, uint8)` returns true, so "neither is named" is
not necessary. -/
theorem assignable_neither_named_counterexample :
    ¬ (assignable ty_byte ty_uint8 = .ok true ↔
        (ty_byte.Eq (some ty_uint8) = .ok true ∨
          (∃ bA bB, ty_byte.Base = .ok bA ∧ ty_uint8.Base = .ok bB ∧
            bA.Eq (some bB) = .ok true ∧
            ty_byte.Named = false ∧ ty_uint8.Named = false))) := by
  intro h
  have hA : assignable ty_byte ty_uint8 = .ok true := rfl
  rcases h.mp hA with h1 | ⟨_, _, _, _, _, h2, _⟩
  · have h0 : ty_byte.Eq (some ty_uint8) = .ok false := rfl
    rw [h0] at h1
    cases h1
  · have h0 : ty_byte.Named = true := rfl
    rw [h0] at h2
    cases h2

/-- Claim C1 amended: for all types A and B, `assignable(A, B)` returns true
iff `A.Eq(B)` returns true, or `Base(A).Eq(Base(B))` returns true and at least
one of A and B is not named. -/
theorem assignable_true_iff (A B : GoType) :
    assignable A B = .ok true ↔
      (A.Eq (some B) = .ok true ∨
        (∃ bA bB, A.Base = .ok bA ∧ B.Base = .ok bB ∧
          bA.Eq (some bB) = .ok true ∧ ¬ (A.Named = true ∧ B.Named = true))) := by
  unfold assignable
  cases hE : A.Eq (some B) with
  | error e =>
    constructor
    · intro h; cases h
    · rintro (h | ⟨bA, _, hA, _, _, _⟩)
      · cases h
      · obtain ⟨b, hb⟩ := GoType.Eq_returns_of_Base A bA hA (some B)
        rw [hb] at hE
        cases hE
  | ok e =>
    cases e with
    | true => simp
    | false =>
      cases hA : A.Base with
      | error e => simp
      | ok bA =>
        cases hB : B.Base with
        | error e => simp
        | ok bB =>
          cases hEq : bA.Eq (some bB) with
          | error e => simp [hEq]
          | ok eq =>
            cases eq <;> cases hnA : A.Named <;> cases hnB : B.Named <;> simp [hEq]

/-- Claim C2 fails on the code for a `FuncType` without a result: comparing the
type of `puts` with itself dereferences the nil `Result` instead of returning
true, and comparing it with its result-bearing variant panics in one order and
returns false in the other. -/
theorem FuncType_Eq_nil_result_panics :
    ty_puts.Eq (some ty_puts) = .error .nilDereference ∧
    ty_puts.Eq (some (.FuncType [.PointerType ty_uint8] (some ty_int64)))
      = .error .nilDereference ∧
    (GoType.FuncType [.PointerType ty_uint8] (some ty_int64)).Eq (some ty_puts)
      = .ok false :=
  ⟨rfl, rfl, rfl⟩

/-- Claim C3 as stated fails: `uint8` is not an alias, and
`assignable(byte, uint8)` returns true rather than false. -/
theorem assignable_alias_referent_counterexample :
    ty_uint8.isAlias = false ∧
    assignable (.AliasType "byte" ty_uint8) ty_uint8 = .ok true ∧
    assignable (.AliasType "byte" ty_uint8) ty_uint8 ≠ .ok false := by
  refine ⟨rfl, rfl, ?_⟩
  have h : assignable (.AliasType "byte" ty_uint8) ty_uint8 = .ok true := rfl
  rw [h]
  intro h'
  cases h'

/-- Claim C3 amended: for every alias A = Alias(ident, R) whose referent R is
not itself an alias and is not named, and whose base is defined, `A.Eq(R)` is
false (the two are nominally distinct) but `assignable(A, R)` returns true,
because only one of the two is named. -/
theorem assignable_alias_unnamed_referent (ident : String) (R bR : GoType)
    (hR : R.isAlias = false) (hN : R.Named = false) (hB : R.Base = .ok bR) :
    (GoType.AliasType ident R).Eq (some R) = .ok false ∧
    assignable (.AliasType ident R) R = .ok true := by
  have hEq : (GoType.AliasType ident R).Eq (some R) = .ok false := by
    cases R <;> simp_all [GoType.Eq, GoType.isAlias]
  refine ⟨hEq, ?_⟩
  have hBA : (GoType.AliasType ident R).Base = .ok bR := by
    simp only [GoType.Base]; exact hB
  have hSelf := GoType.Eq_self_of_Base R bR hB
  simp [assignable, hEq, hBA, hB, hSelf, hN]

/-- Witness for `assignable_alias_unnamed_referent` at `byte` and `uint8`. -/
theorem assignable_alias_unnamed_referent_witness :
    (GoType.AliasType "byte" ty_uint8).Eq (some ty_uint8) = .ok false ∧
    assignable (.AliasType "byte" ty_uint8) ty_uint8 = .ok true :=
  assignable_alias_unnamed_referent "byte" ty_uint8 ty_uint8 rfl rfl rfl

/-- Claim C4 fails on the code: `*a` and `*b`, for aliases `a` and `b` of
`int8`, are pointer types with equal bases. `PointerType.Named` hands the
question on to its pointee, so both count as named although neither is an
alias; neither test of `assignable` holds and the call ends in
`panic("unreachable!")` instead of returning true. -/
theorem assignable_pointers_to_aliases_panics :
    (GoType.PointerType (.AliasType "a" ty_int8)).isCompound = true ∧
    (GoType.PointerType (.AliasType "b" ty_int8)).isCompound = true ∧
    (∃ bA bB, (GoType.PointerType (.AliasType "a" ty_int8)).Base = .ok bA ∧
      (GoType.PointerType (.AliasType "b" ty_int8)).Base = .ok bB ∧
      bA.Eq (some bB) = .ok true) ∧
    (GoType.PointerType (.AliasType "a" ty_int8)).Named = true ∧
    (GoType.PointerType (.AliasType "b" ty_int8)).Named = true ∧
    assignable (.PointerType (.AliasType "a" ty_int8))
      (.PointerType (.AliasType "b" ty_int8)) = .error (.explicit "unreachable!") :=
  ⟨rfl, rfl, ⟨_, _, rfl, rfl, rfl⟩, rfl, rfl, rfl⟩

/-- Two compound types (Pointer or Func) with `Base(A).Eq(Base(B))` of which
at least one does not count as named are assignable. -/
theorem assignable_compound_of_base_eq (A B bA bB : GoType)
    (_hcA : A.isCompound = true) (_hcB : B.isCompound = true)
    (hA : A.Base = .ok bA) (hB : B.Base = .ok bB)
    (hEq : bA.Eq (some bB) = .ok true)
    (hN : ¬ (A.Named = true ∧ B.Named = true)) :
    assignable A B = .ok true := by
  obtain ⟨e, he⟩ := GoType.Eq_returns_of_Base A bA hA (some B)
  cases e with
  | true => simp [assignable, he]
  | false =>
    cases hnA : A.Named <;> cases hnB : B.Named <;>
      simp_all [assignable]

/-- Witness for `assignable_compound_of_base_eq`: `*a` (named) against `*int8`
(not named). -/
theorem assignable_compound_of_base_eq_witness :
    assignable (.PointerType (.AliasType "a" ty_int8)) (.PointerType ty_int8) = .ok true :=
  assignable_compound_of_base_eq (.PointerType (.AliasType "a" ty_int8))
    (.PointerType ty_int8) (.PointerType ty_int8) (.PointerType ty_int8)
    rfl rfl rfl rfl rfl (by intro h; cases h.2)

/-- Claim C5 fails on the code: `assignable(int8, int16)` falls out of both
`if`s and reaches `panic("unreachable!")` instead of returning false. -/
theorem assignable_reaches_unreachable_panic :
    assignable ty_int8 ty_int16 = .error (.explicit "unreachable!") :=
  rfl

/-- Outside the two-character case decimal literals parse to their value: a
single digit, or three and more digits of which the first is not `0`. -/
theorem parseInt_decimal_of_length_ne_two (ds : List Char)
    (h : ∀ c ∈ ds, c ∈ decimalDigits) (hlen : ds.length = 1 ∨ 3 ≤ ds.length)
    (h0 : ds.length = 1 ∨ ds.head? ≠ some '0') :
    parseInt ds = .ok (some ⟨(literalValue 10 ds : ℤ), true⟩) := by
  have hv : ∀ c ∈ ds, c ≠ '-' ∧ c ≠ '+' ∧ digitVal c = digitValue c ∧ digitVal c < 10 :=
    fun c hc => by
      have := decimalDigits_scan c (h c hc)
      exact ⟨this.1, this.2.1, this.2.2.1, this.2.2.2.1⟩
  have hne : ds ≠ [] := by
    intro he; subst he; simp at hlen
  have hS := SetString_digits 10 ds hne hv
  rcases hlen with h1 | h3
  · simp [parseInt, assert, h1, hS]
  · cases ds with
    | nil => simp at h3
    | cons c rest =>
      have hc : c ≠ '0' := by
        rcases h0 with h0 | h0
        · rw [h0] at h3; omega
        · simpa using h0
      have hn1 : rest.length ≠ 0 := by simp at h3; omega
      have hn2 : rest.length ≠ 1 := by simp at h3; omega
      have hr : rest ≠ [] := by intro he; subst he; simp at hn1
      simp [parseInt, assert, hn1, hn2, hr, hc, hS]

/-- Claim C6 fails on the code for two-digit decimal literals: in the branch
`len(lit) == 2` nothing is parsed unless the literal starts with `0`, so `42`
and `10` yield nil where the claim says 42 and 10. -/
theorem parseInt_two_digit_decimal_nil :
    parseInt ['4', '2'] = .ok none ∧ parseInt ['1', '0'] = .ok none ∧
    (∀ c d : Char, c ≠ '0' → parseInt [c, d] = .ok none) := by
  refine ⟨rfl, rfl, ?_⟩
  intro c d hc
  simp [parseInt, assert, hc]

/-- Claim C7: for every literal `0x` or `0X` followed by one or more
hexadecimal digits, `parseInt` returns a non-nil `ConstInt`, flagged signed,
whose value is the base-16 value of the digits after the two-character
marker. -/
theorem parseInt_hex (ds : List Char) (hne : ds ≠ []) (h : ∀ c ∈ ds, c ∈ hexDigits) :
    parseInt ('0' :: 'x' :: ds) = .ok (some ⟨(literalValue 16 ds : ℤ), true⟩) ∧
    parseInt ('0' :: 'X' :: ds) = .ok (some ⟨(literalValue 16 ds : ℤ), true⟩) := by
  have hS := SetString_digits 16 ds hne (fun c hc => hexDigits_scan c (h c hc))
  cases ds with
  | nil => exact absurd rfl hne
  | cons d rest =>
    constructor <;> simp [parseInt, assert, hS]

/-- Witness for `parseInt_hex` at the literals `0x1F` and `0X1F`, of value 31. -/
theorem parseInt_hex_witness :
    (parseInt ['0', 'x', '1', 'F'] = .ok (some ⟨(literalValue 16 ['1', 'F'] : ℤ), true⟩) ∧
     parseInt ['0', 'X', '1', 'F'] = .ok (some ⟨(literalValue 16 ['1', 'F'] : ℤ), true⟩)) ∧
    literalValue 16 ['1', 'F'] = 31 :=
  ⟨parseInt_hex ['1', 'F'] (by simp) (by decide), by decide⟩

/-- Claim C8: for every literal that is `0` followed by one or more octal
digits, `parseInt` returns a non-nil `ConstInt`, flagged signed, whose value is
the base-8 value of the digits after the leading `0`; for a two-character
literal `0d` that value is the digit `d`. -/
theorem parseInt_octal (ds : List Char) (hne : ds ≠ []) (h : ∀ c ∈ ds, c ∈ octalDigits) :
    parseInt ('0' :: ds) = .ok (some ⟨(literalValue 8 ds : ℤ), true⟩) ∧
    (∀ d, ds = [d] → parseInt ['0', d] = .ok (some ⟨(digitValue d : ℤ), true⟩)) := by
  have hS := SetString_digits 8 ds hne (fun c hc => by
    have := octalDigits_scan c (h c hc)
    exact ⟨this.1, this.2.1, this.2.2.1, this.2.2.2.1⟩)
  have main : parseInt ('0' :: ds) = .ok (some ⟨(literalValue 8 ds : ℤ), true⟩) := by
    cases ds with
    | nil => exact absurd rfl hne
    | cons d rest =>
      cases rest with
      | nil => simp [parseInt, assert, hS]
      | cons d' rest' =>
        have hd := octalDigits_scan d (h d (List.mem_cons_self _ _))
        simp [parseInt, assert, hS, hd.2.2.2.2.1, hd.2.2.2.2.2]
  refine ⟨main, ?_⟩
  intro d hd
  subst hd
  rw [main]
  simp [literalValue]

/-- Witness for `parseInt_octal` at the literal `017`, of value 15. -/
theorem parseInt_octal_witness :
    (parseInt ['0', '1', '7'] = .ok (some ⟨(literalValue 8 ['1', '7'] : ℤ), true⟩) ∧
     (∀ d, ['1', '7'] = [d] → parseInt ['0', d] = .ok (some ⟨(digitValue d : ℤ), true⟩))) ∧
    literalValue 8 ['1', '7'] = 15 :=
  ⟨parseInt_octal ['1', '7'] (by simp) (by decide), by decide⟩

/-- Claim C9 as stated fails: after `0x` the characters `-1` are not all
hexadecimal digits, yet `parseInt` returns the constant -1 rather than nil,
because `SetString` accepts a leading sign. -/
theorem parseInt_signed_hex_counterexample :
    (∃ c ∈ ['-', '1'], c ∉ hexDigits) ∧
    parseInt ['0', 'x', '-', '1'] = .ok (some ⟨-1, true⟩) ∧
    parseInt ['0', 'X', '+', 'f'] = .ok (some ⟨15, true⟩) :=
  ⟨⟨'-', by decide, by decide⟩, rfl, rfl⟩

/-- Claim C9 amended: `parseInt` returns nil for `0` followed by decimal
digits at least one of which is 8 or 9, for the bare literals `0x` and `0X`,
and for `0x`/`0X` followed by characters that, after one optional leading sign
`+` or `-`, are empty or not all hexadecimal digits; and every `ConstInt`
that `parseInt` returns is flagged signed. -/
theorem parseInt_nil_cases :
    (∀ ds : List Char, (∀ c ∈ ds, c ∈ decimalDigits) → (∃ c ∈ ds, c = '8' ∨ c = '9') →
      parseInt ('0' :: ds) = .ok none) ∧
    parseInt ['0', 'x'] = .ok none ∧ parseInt ['0', 'X'] = .ok none ∧
    (∀ (x : Char) (rest : List Char), x = 'x' ∨ x = 'X' → rest ≠ [] →
      (dropSign rest = [] ∨ ∃ c ∈ dropSign rest, c ∉ hexDigits) →
      parseInt ('0' :: x :: rest) = .ok none) ∧
    (∀ (lit : List Char) (c : ConstInt), parseInt lit = .ok (some c) → c.Signed = true) := by
  refine ⟨?_, rfl, rfl, ?_, ?_⟩
  · intro ds hdec h89
    have hbad : ∃ c ∈ ds, ¬ digitVal c < 8 := by
      obtain ⟨c, hc, h⟩ := h89
      refine ⟨c, hc, ?_⟩
      rcases h with rfl | rfl <;> decide
    have hsign : ∀ c ∈ ds.head?, c ≠ '-' ∧ c ≠ '+' := by
      intro c hc
      have hm : c ∈ ds := List.mem_of_mem_head? hc
      have := decimalDigits_scan c (hdec c hm)
      exact ⟨this.1, this.2.1⟩
    have hS := SetString_invalid 8 ds hsign hbad
    cases ds with
    | nil => obtain ⟨c, hc, _⟩ := h89; cases hc
    | cons d rest =>
      cases rest with
      | nil => simp [parseInt, assert, hS]
      | cons d' rest' =>
        have hd := decimalDigits_scan d (hdec d (List.mem_cons_self _ _))
        simp [parseInt, assert, hS, hd.2.2.2.2.1, hd.2.2.2.2.2]
  · intro x rest hx hne hbad
    have hS := SetString_hex_invalid rest hbad
    cases rest with
    | nil => exact absurd rfl hne
    | cons d rest' =>
      rcases hx with rfl | rfl <;> simp [parseInt, assert, hS]
  · intro lit c h
    have key : ∀ p : Option ℤ,
        (match p with
          | none => (Except.ok none : Except Panic (Option ConstInt))
          | some v => .ok (some ⟨v, true⟩)) = .ok (some c) → c.Signed = true := by
      intro p hp
      cases p with
      | none => cases hp
      | some v =>
        simp only [Except.ok.injEq, Option.some.injEq] at hp
        rw [← hp]
    unfold parseInt at h
    split at h
    · cases h
    · exact key _ h

/-- Witness for `parseInt_nil_cases` at the literals `018`, `0xg` and `0x-`,
and at the constant returned for `7`. -/
theorem parseInt_nil_cases_witness :
    parseInt ['0', '1', '8'] = .ok none ∧
    parseInt ['0', 'x', 'g'] = .ok none ∧
    parseInt ['0', 'x', '-'] = .ok none ∧
    (ConstInt.mk 7 true).Signed = true :=
  ⟨parseInt_nil_cases.1 ['1', '8'] (by decide) ⟨'8', by decide, Or.inl rfl⟩,
   parseInt_nil_cases.2.2.2.1 'x' ['g'] (Or.inl rfl) (by simp)
     (Or.inr ⟨'g', by decide, by decide⟩),
   parseInt_nil_cases.2.2.2.1 'x' ['-'] (Or.inl rfl) (by simp) (Or.inl rfl),
   parseInt_nil_cases.2.2.2.2 ['7'] ⟨7, true⟩ rfl⟩

/-- Claim C10: `ConstInt.RValue` commits a constant to `int` when no type is
expected and to `E` when the expected type `E` is an `IntType`, keeping value
and sign flag without any range check; it yields a value exactly in these two
cases, and for every other expected type (with known integer kinds, so that
its name can be printed) it returns no value and the diagnostic
"Expected type <E> but got integer constant". -/
theorem ConstInt_RValue_commit (factory : TypeFactory) (c : ConstInt) :
    c.RValue factory none = .ok (some ⟨c, .IntType BLTN_TY_INT factory.Target⟩, none) ∧
    (∀ k t, c.RValue factory (some (.IntType k t)) = .ok (some ⟨c, .IntType k t⟩, none)) ∧
    (∀ E : Option GoType, (∃ v d, c.RValue factory E = .ok (some v, d)) ↔
      (E = none ∨ ∃ k t, E = some (.IntType k t))) ∧
    (∀ T : GoType, T.isInt = false → T.knownKinds = true →
      ∃ s, T.String = .ok s ∧
        c.RValue factory (some T) =
          .ok (none, some ⟨"Expected type " ++ s ++ " but got integer constant"⟩)) := by
  refine ⟨rfl, fun _ _ => rfl, ?_, ?_⟩
  · intro E
    constructor
    · rintro ⟨v, d, h⟩
      cases E with
      | none => exact Or.inl rfl
      | some T =>
        cases T with
        | IntType k t => exact Or.inr ⟨k, t, rfl⟩
        | _ =>
          exfalso
          simp only [ConstInt.RValue] at h
          split at h <;> simp at h
    · rintro (rfl | ⟨k, t, rfl⟩)
      · exact ⟨_, _, rfl⟩
      · exact ⟨_, _, rfl⟩
  · intro T hT hK
    obtain ⟨s, hs⟩ := String_returns_of_knownKinds T hK
    refine ⟨s, hs, ?_⟩
    cases T with
    | IntType k t => simp [GoType.isInt] at hT
    | _ => simp only [ConstInt.RValue, hs]

/-- Witness for `ConstInt_RValue_commit`: the constant 300 is committed to
`int` and to `uint8` unchanged, and refused for `byte` and for `*uint8`. -/
theorem ConstInt_RValue_commit_witness :
    (ConstInt.mk 300 true).RValue ⟨darwin_x86_64⟩ (some ty_uint8)
      = .ok (some ⟨⟨300, true⟩, ty_uint8⟩, none) ∧
    (∃ s, ty_byte.String = .ok s ∧
      (ConstInt.mk 300 true).RValue ⟨darwin_x86_64⟩ (some ty_byte) =
        .ok (none, some ⟨"Expected type " ++ s ++ " but got integer constant"⟩)) ∧
    (ConstInt.mk 300 true).RValue ⟨darwin_x86_64⟩ (some ty_byte)
      = .ok (none, some ⟨"Expected type byte but got integer constant"⟩) :=
  ⟨(ConstInt_RValue_commit ⟨darwin_x86_64⟩ ⟨300, true⟩).2.1 BLTN_TY_UINT8 darwin_x86_64,
   (ConstInt_RValue_commit ⟨darwin_x86_64⟩ ⟨300, true⟩).2.2.2 ty_byte rfl rfl,
   rfl⟩

/-! Supporting lemmas on scopes, typed values, the namespace, pipelines and
declarations. -/

/-- One step of `lookupType`: the own entry, else the parent's answer. -/
theorem Scope.lookupType_mk {V : Type} (σ : Store V) (t v : Nat) (p : Scope) (x : string) :
    Scope.lookupType σ (.mk t v p) x =
      match σ.types t x with
      | some ty => some ty
      | none => Scope.lookupType σ p x := by
  simp only [Scope.lookupType, Scope.lookupTypeLoop]

/-- On the nil scope `lookupType` finds nothing. -/
theorem Scope.lookupType_nil {V : Type} (σ : Store V) (x : string) :
    Scope.lookupType σ .nil x = none := by
  simp [Scope.lookupType, Scope.lookupTypeLoop]

/-- The result of `lookupVar` depends only on the value maps on the chain. -/
theorem Scope.lookupVar_congr {V : Type} (σ σ' : Store V) (x : string) :
    ∀ s : Scope, (∀ a ∈ s.chain, σ'.values a x = σ.values a x) →
      Scope.lookupVar σ' s x = Scope.lookupVar σ s x
  | .nil, _ => rfl
  | .mk t v p, h => by
      have hv := h v (by simp [Scope.chain])
      have ih := Scope.lookupVar_congr σ σ' x p
        (fun a ha => h a (by simp [Scope.chain, ha]))
      simp only [Scope.lookupVar, hv, ih]

/-- The result of `lookupType` depends only on the type maps on the chain. -/
theorem Scope.lookupType_congr {V : Type} (σ σ' : Store V) (x : string) :
    ∀ s : Scope, (∀ a ∈ s.typeChain, σ'.types a x = σ.types a x) →
      Scope.lookupType σ' s x = Scope.lookupType σ s x
  | .nil, _ => by simp [Scope.lookupType_nil]
  | .mk t v p, h => by
      have hv := h t (by simp [Scope.typeChain])
      have ih := Scope.lookupType_congr σ σ' x p
        (fun a ha => h a (by simp [Scope.typeChain, ha]))
      simp only [Scope.lookupType_mk, hv, ih]

/-- The addresses on the chains of a scope allocated below `n` are below `n`. -/
theorem Scope.chain_lt_of_allocatedBelow (n : Nat) :
    ∀ s : Scope, s.allocatedBelow n = true →
      (∀ a ∈ s.chain, a < n) ∧ (∀ a ∈ s.typeChain, a < n)
  | .nil, _ => by simp [Scope.chain, Scope.typeChain]
  | .mk t v p, h => by
      simp only [Scope.allocatedBelow, Bool.and_eq_true, decide_eq_true_eq] at h
      have ih := Scope.chain_lt_of_allocatedBelow n p h.2
      constructor
      · intro a ha
        simp only [Scope.chain, List.mem_cons] at ha
        rcases ha with rfl | ha
        · exact h.1.2
        · exact ih.1 a ha
      · intro a ha
        simp only [Scope.typeChain, List.mem_cons] at ha
        rcases ha with rfl | ha
        · exact h.1.1
        · exact ih.2 a ha

/-- A mutating call on a non-nil scope returns, and writes to nothing but the
two maps of that scope. -/
theorem ScopeMutation.apply_frame {V : Type} (σ : Store V) (t v : Nat) (p : Scope)
    (m : ScopeMutation V) :
    ∃ σ', m.apply σ (.mk t v p) = .ok σ' ∧ σ'.next = σ.next ∧
      (∀ a, a ≠ v → σ'.values a = σ.values a) ∧ (∀ a, a ≠ t → σ'.types a = σ.types a) := by
  cases m with
  | addValue ident val =>
    simp only [ScopeMutation.apply, Scope.addValue]
    cases h : Scope.lookupVar σ (.mk t v p) ident with
    | none =>
      refine ⟨_, rfl, rfl, ?_, fun _ _ => rfl⟩
      intro a ha
      simp [Function.update, ha]
    | some b => exact ⟨σ, rfl, rfl, fun _ _ => rfl, fun _ _ => rfl⟩
  | addType ident ty =>
    simp only [ScopeMutation.apply, Scope.addType]
    cases h : Scope.lookupType σ (.mk t v p) ident with
    | none =>
      refine ⟨_, rfl, rfl, fun _ _ => rfl, ?_⟩
      intro a ha
      simp [Function.update, ha]
    | some b => exact ⟨σ, rfl, rfl, fun _ _ => rfl, fun _ _ => rfl⟩
  | addTypeAlias l r =>
    simp only [ScopeMutation.apply, Scope.addTypeAlias]
    cases h : Scope.lookupType σ (.mk t v p) r with
    | none => exact ⟨σ, rfl, rfl, fun _ _ => rfl, fun _ _ => rfl⟩
    | some rT =>
      simp only [Scope.addType]
      cases h' : Scope.lookupType σ (.mk t v p) l with
      | none =>
        refine ⟨_, rfl, rfl, fun _ _ => rfl, ?_⟩
        intro a ha
        simp [Function.update, ha]
      | some b => exact ⟨σ, rfl, rfl, fun _ _ => rfl, fun _ _ => rfl⟩

/-- Nothing is found by `lookupVar` exactly when no value map on the chain has
an entry. -/
theorem Scope.lookupVar_eq_none_iff {V : Type} (σ : Store V) (x : string) :
    ∀ s : Scope, Scope.lookupVar σ s x = none ↔ ∀ a ∈ s.chain, σ.values a x = none
  | .nil => by simp [Scope.lookupVar, Scope.chain]
  | .mk t v p => by
      have ih := Scope.lookupVar_eq_none_iff σ x p
      cases hv : σ.values v x with
      | none => simp [Scope.lookupVar, Scope.chain, hv, ih]
      | some b => simp [Scope.lookupVar, Scope.chain, hv]

/-- A scope allocated below `n` is allocated below every larger bound. -/
theorem Scope.allocatedBelow_mono (n m : Nat) (hnm : n ≤ m) :
    ∀ s : Scope, s.allocatedBelow n = true → s.allocatedBelow m = true
  | .nil, _ => rfl
  | .mk t v p, h => by
      simp only [Scope.allocatedBelow, Bool.and_eq_true, decide_eq_true_eq] at h ⊢
      exact ⟨⟨by omega, by omega⟩, Scope.allocatedBelow_mono n m hnm p h.2⟩

/-- The value map of a scope on the chain of `d` is on the address chain of `d`. -/
theorem Scope.mem_chain_of_mem_ancestors (t v : Nat) (p : Scope) :
    ∀ d : Scope, Scope.mk t v p ∈ d.ancestors → v ∈ d.chain
  | .nil, h => by simp [Scope.ancestors] at h
  | .mk t' v' p', h => by
      simp only [Scope.ancestors, List.mem_cons] at h
      rcases h with h | h
      · injection h with _ hv _
        simp [Scope.chain, hv]
      · simp [Scope.chain, Scope.mem_chain_of_mem_ancestors t v p p' h]

/-- The tree made by `CreateScope` satisfies the invariant. -/
theorem ScopeTree.Inv_init {V : Type} : (ScopeTree.init : ScopeTree V).Inv := by
  refine ⟨?_, ?_, ?_, ?_⟩
  · intro s hs
    simp only [ScopeTree.init, CreateScope, Store.init, List.mem_singleton] at hs
    subst hs
    simp [ScopeTree.init, CreateScope, Store.init, Scope.allocatedBelow]
  · intro s hs
    simp only [ScopeTree.init, CreateScope, Store.init, List.mem_singleton] at hs
    subst hs
    simp [Scope.chain]
  · intro s hs d hd t v p _ _
    simp only [ScopeTree.init, CreateScope, Store.init, List.mem_singleton] at hs hd
    subst hs hd
    simp [Scope.ancestors]
  · intro s hs x
    simp only [ScopeTree.init, CreateScope, Store.init, List.mem_singleton] at hs
    subst hs
    simp [Scope.holders, Scope.chain, ScopeTree.init, CreateScope, Store.init, GoMap.empty]

/-- The invariant survives `createChild` on a scope of the tree. -/
theorem ScopeTree.Inv_createChild {V : Type} (T : ScopeTree V) (hT : T.Inv) (p : Scope)
    (hp : p ∈ T.scopes) :
    (⟨(p.createChild T.store).2, T.scopes ++ [(p.createChild T.store).1]⟩ : ScopeTree V).Inv := by
  have hpa := hT.allocated p hp
  have hplt := (Scope.chain_lt_of_allocatedBelow _ p hpa).1
  have hnp : T.store.next ∉ p.chain := fun h => Nat.lt_irrefl _ (hplt _ h)
  refine ⟨?_, ?_, ?_, ?_⟩
  · intro s hs
    simp only [List.mem_append, List.mem_singleton] at hs
    rcases hs with hs | rfl
    · exact Scope.allocatedBelow_mono _ _ (Nat.le_succ _) s (hT.allocated s hs)
    · simp only [Scope.createChild, Scope.allocatedBelow, Bool.and_eq_true, decide_eq_true_eq]
      exact ⟨⟨Nat.lt_succ_self _, Nat.lt_succ_self _⟩,
        Scope.allocatedBelow_mono _ _ (Nat.le_succ _) p hpa⟩
  · intro s hs
    simp only [List.mem_append, List.mem_singleton] at hs
    rcases hs with hs | rfl
    · exact hT.nodup s hs
    · simp only [Scope.createChild, Scope.chain, List.nodup_cons]
      exact ⟨hnp, hT.nodup p hp⟩
  · intro s hs d hd t v q hsq hv
    simp only [List.mem_append, List.mem_singleton] at hs hd
    rcases hd with hd | rfl
    · rcases hs with hs | rfl
      · exact hT.tree s hs d hd t v q hsq hv
      · exfalso
        simp only [Scope.createChild] at hsq
        injection hsq with _ h2 _
        have := (Scope.chain_lt_of_allocatedBelow _ d (hT.allocated d hd)).1 v hv
        omega
    · rcases hs with hs | rfl
      · simp only [Scope.createChild, Scope.chain, List.mem_cons] at hv
        have hsa := hT.allocated s hs
        rw [hsq] at hsa
        simp only [Scope.allocatedBelow, Bool.and_eq_true, decide_eq_true_eq] at hsa
        rcases hv with hv | hv
        · omega
        · simp only [Scope.createChild, Scope.ancestors, List.mem_cons]
          exact Or.inr (hT.tree s hs p hp t v q hsq hv)
      · simp [Scope.createChild, Scope.ancestors]
  · intro s hs x
    simp only [List.mem_append, List.mem_singleton] at hs
    have key : ∀ d : Scope, (∀ a ∈ d.chain, a < T.store.next) →
        Scope.holders (p.createChild T.store).2 d x = Scope.holders T.store d x := by
      intro d hd
      simp only [Scope.holders]
      apply List.filter_congr
      intro a ha
      have := hd a ha
      simp [Scope.createChild, Function.update, Nat.ne_of_lt this]
    rcases hs with hs | rfl
    · rw [key s (Scope.chain_lt_of_allocatedBelow _ s (hT.allocated s hs)).1]
      exact hT.unique s hs x
    · have h1 : Scope.holders (p.createChild T.store).2 (p.createChild T.store).1 x
          = Scope.holders (p.createChild T.store).2 p x := by
        simp [Scope.holders, Scope.createChild, Scope.chain, GoMap.empty]
      rw [h1, key p hplt]
      exact hT.unique p hp x

/-- The invariant survives an admissible `addValue` on a scope of the tree. -/
theorem ScopeTree.Inv_addValue {V : Type} (T : ScopeTree V) (hT : T.Inv) (t v : Nat)
    (q : Scope) (hs : Scope.mk t v q ∈ T.scopes) (x : string) (val : V)
    (hnone : Scope.lookupVar T.store (.mk t v q) x = none)
    (hadm : ∀ d ∈ T.scopes, Scope.mk t v q ∈ d.ancestors →
      Scope.lookupVar T.store d x = none) :
    (⟨⟨T.store.types,
        Function.update T.store.values v ((T.store.values v).set x ⟨x, false, val⟩),
        T.store.next⟩, T.scopes⟩ : ScopeTree V).Inv := by
  refine ⟨hT.allocated, hT.nodup, hT.tree, ?_⟩
  intro d hd y
  simp only [Scope.holders]
  by_cases hy : y = x
  · subst hy
    by_cases hv : v ∈ d.chain
    · have hanc := hT.tree _ hs d hd t v q rfl hv
      have hdn := (Scope.lookupVar_eq_none_iff T.store y d).mp (hadm d hd hanc)
      have hfil : d.chain.filter (fun a =>
          ((Function.update T.store.values v
            ((T.store.values v).set y ⟨y, false, val⟩)) a y).isSome)
          = d.chain.filter (fun a => decide (a = v)) := by
        apply List.filter_congr
        intro a ha
        by_cases hav : a = v
        · subst hav
          simp [GoMap.set]
        · simp [Function.update, hav, hdn a ha]
      rw [hfil]
      have hnd := hT.nodup d hd
      have hcount : (d.chain.filter (fun a => decide (a = v))).length = d.chain.count v := by
        rw [List.count, List.countP_eq_length_filter]
        congr 1
      rw [hcount]
      exact List.nodup_iff_count_le_one.mp hnd v
    · have hfil : d.chain.filter (fun a =>
          ((Function.update T.store.values v
            ((T.store.values v).set y ⟨y, false, val⟩)) a y).isSome)
          = d.chain.filter (fun a => (T.store.values a y).isSome) := by
        apply List.filter_congr
        intro a ha
        have hav : a ≠ v := fun h => hv (h ▸ ha)
        simp [Function.update, hav]
      rw [hfil]
      exact hT.unique d hd y
  · have hfil : d.chain.filter (fun a =>
        ((Function.update T.store.values v
          ((T.store.values v).set x ⟨x, false, val⟩)) a y).isSome)
        = d.chain.filter (fun a => (T.store.values a y).isSome) := by
      apply List.filter_congr
      intro a _
      by_cases hav : a = v
      · subst hav
        simp [GoMap.set, hy]
      · simp [Function.update, hav]
    rw [hfil]
    exact hT.unique d hd y

/-- The invariant survives every admissible call. -/
theorem ScopeTree.Inv_step {V : Type} (T : ScopeTree V) (hT : T.Inv) (op : ScopeOp V)
    (hadm : op.admissible T = true) : (T.step op).Inv := by
  cases op with
  | createChild i =>
    simp only [ScopeTree.step]
    cases hi : T.scopes[i]? with
    | none => exact hT
    | some s => exact ScopeTree.Inv_createChild T hT s (List.getElem?_mem hi)
  | addValue i x val =>
    simp only [ScopeTree.step]
    cases hi : T.scopes[i]? with
    | none => exact hT
    | some s =>
      have hs : s ∈ T.scopes := List.getElem?_mem hi
      simp only [ScopeOp.admissible, hi, Bool.or_eq_true, List.all_eq_true,
        Bool.not_eq_true', decide_eq_false_iff_not, Option.isNone_iff_eq_none] at hadm
      cases hl : Scope.lookupVar T.store s x with
      | some b => simp only [Scope.addValue, hl]; exact hT
      | none =>
        cases s with
        | nil => simp only [Scope.addValue, hl]; exact hT
        | mk t v q =>
          simp only [Scope.addValue, hl]
          apply ScopeTree.Inv_addValue T hT t v q hs x val hl
          intro d hd hanc
          rcases hadm with h | h
          · simp [hl] at h
          · rcases h d hd with h' | h'
            · exact absurd hanc h'
            · exact h'

/-- The invariant holds after every admissible sequence of calls. -/
theorem ScopeTree.Inv_foldl {V : Type} :
    ∀ (ops : List (ScopeOp V)) (T : ScopeTree V), T.Inv →
      ScopeTree.admissibleRun T ops = true → (ops.foldl ScopeTree.step T).Inv
  | [], _, hT, _ => hT
  | op :: ops, T, hT, h => by
      simp only [ScopeTree.admissibleRun, Bool.and_eq_true] at h
      exact ScopeTree.Inv_foldl ops (T.step op) (ScopeTree.Inv_step T hT op h.1) h.2

/-- Wherever `E.Eq(T)` returns, `RValue` of a typed value of type `T` does what
claim C11 says: the value itself for an absent or equal expected type, and
otherwise no value and the diagnostic naming both types. -/
theorem typedRValue_spec (v : TypedValue) (T : GoType) :
    typedRValue v T none = .ok (some v, none) ∧
    (∀ E, E.Eq (some T) = .ok true → typedRValue v T (some E) = .ok (some v, none)) ∧
    (∀ E sE sT, E.Eq (some T) = .ok false → E.String = .ok sE → T.String = .ok sT →
      typedRValue v T (some E)
        = .ok (none, some ⟨"Expected type " ++ sE ++ " but got type " ++ sT⟩)) := by
  refine ⟨rfl, ?_, ?_⟩
  · intro E h
    simp only [typedRValue, h]
  · intro E sE sT h hE hT
    simp only [typedRValue, h, TypeMismatchDiag, hE, hT]

/-- Modifying the last element of a list. -/
theorem modify_append_singleton {α : Type} (f : α → α) (g : α) :
    ∀ l : List α, (l ++ [g]).modify f l.length = l ++ [f g]
  | [] => rfl
  | a :: l => by
      have ih := modify_append_singleton f g l
      rw [List.cons_append, List.length_cons, List.modify_succ_cons, ih, List.cons_append]

/-- The global that `createAndSetGlobal` adds: a constant with the given name,
type and initializer, at the end of the module, and its handle. -/
theorem LLVMNamespace.createAndSetGlobal_eq (ns : LLVMNamespace) (id : string) (ty : LLType)
    (ll : LLValue) :
    (ns.createAndSetGlobal id ty ll).1 = .Global ns.Mod.Globals.length ∧
    (ns.createAndSetGlobal id ty ll).2.Mod.Globals = ns.Mod.Globals ++ [⟨id, ty, true, some ll⟩] ∧
    (ns.createAndSetGlobal id ty ll).2.TypeCounter = ns.TypeCounter := by
  refine ⟨rfl, ?_, rfl⟩
  simp only [LLVMNamespace.createAndSetGlobal, LLModule.AddGlobal,
    LLModule.SetConstantAndInitializer]
  exact modify_append_singleton _ _ _

/-- One call of `requestStaticConstAlloc` on a namespace whose counters count
the earlier requests. -/
theorem LLVMNamespace.requestStaticConstAlloc_step (w : Nat) (ns : LLVMNamespace)
    (earlier : List string) (r : AllocRequest) (b : string)
    (hc : ns.TypeCounter = mintedCounters earlier) (hb : r.ty.BaseIDString = .ok b)
    (hlen : earlier.length + 1 < 2 ^ w) :
    ∃ ns', ns.requestStaticConstAlloc w r.ty r.llTy r.val
        = .ok (.Global ns.Mod.Globals.length, ns') ∧
      ns'.Mod.Globals = ns.Mod.Globals ++
        [⟨b ++ "." ++ toString (earlier.count b), r.llTy, true, some r.val⟩] ∧
      ns'.TypeCounter = mintedCounters (earlier ++ [b]) := by
  have hcurr : (match ns.TypeCounter b with
      | some c => c
      | none => 0) = earlier.count b := by
    rw [hc]
    simp only [mintedCounters]
    split_ifs with h0 <;> simp [h0]
  have hle : earlier.count b ≤ earlier.length := List.count_le_length _ _
  have hmod : (earlier.count b + 1) % 2 ^ w = earlier.count b + 1 :=
    Nat.mod_eq_of_lt (by omega)
  have hreq : ns.requestStaticConstAlloc w r.ty r.llTy r.val
      = .ok (LLVMNamespace.createAndSetGlobal
          ⟨ns.TypeCounter.set b (earlier.count b + 1), ns.Zero, ns.Mod⟩
          (b ++ "." ++ toString (earlier.count b)) r.llTy r.val) := by
    simp only [LLVMNamespace.requestStaticConstAlloc, hb, hcurr, hmod]
  refine ⟨_, hreq, ?_, ?_⟩
  · exact (LLVMNamespace.createAndSetGlobal_eq _ _ _ _).2.1
  · show GoMap.set ns.TypeCounter b (List.count b earlier + 1) = mintedCounters (earlier ++ [b])
    rw [hc]
    funext k
    by_cases hk : k = b
    · subst hk
      simp [GoMap.set, mintedCounters]
    · have hk' : (b == k) = false := by simpa using fun h => hk h.symm
      simp [GoMap.set, mintedCounters, hk, List.count_append, List.count_cons, hk']

/-- A sequence of calls on a namespace whose counters count the earlier
requests. -/
theorem LLVMNamespace.requestAll_spec (w : Nat) :
    ∀ (reqs : List AllocRequest) (bs earlier : List string) (ns : LLVMNamespace),
      ns.TypeCounter = mintedCounters earlier →
      List.Forall₂ (fun r b => r.ty.BaseIDString = .ok b) reqs bs →
      earlier.length + reqs.length < 2 ^ w →
      ∃ ns', ns.requestAll w reqs = .ok ns' ∧
        ns'.Mod.Globals = ns.Mod.Globals ++
          List.zipWith (fun r name => ⟨name, r.llTy, true, some r.val⟩) reqs
            (mintedNames earlier bs) ∧
        ns'.TypeCounter = mintedCounters (earlier ++ bs)
  | [], bs, earlier, ns, hc, hb, _ => by
      cases hb
      exact ⟨ns, rfl, by simp [mintedNames], by simpa using hc⟩
  | r :: rest, bs, earlier, ns, hc, hb, hlen => by
      cases hb with
      | cons hrb hrest =>
        rename_i b bs'
        simp only [List.length_cons] at hlen
        obtain ⟨ns1, h1, hg1, hc1⟩ :=
          LLVMNamespace.requestStaticConstAlloc_step w ns earlier r b hc hrb (by omega)
        obtain ⟨ns', h2, hg2, hc2⟩ :=
          LLVMNamespace.requestAll_spec w rest bs' (earlier ++ [b]) ns1 hc1 hrest
            (by simp only [List.length_append, List.length_singleton]; omega)
        refine ⟨ns', ?_, ?_, ?_⟩
        · simp only [LLVMNamespace.requestAll, h1, h2]
        · rw [hg2, hg1]
          simp [mintedNames]
        · rw [hc2]
          simp

/-- A call of `allocZero` that returns has added one global to the module and
returns the handle of that new global. -/
theorem LLVMNamespace.allocZero_adds (factory : TypeFactory) (ns ns' : LLVMNamespace)
    (z : TypedValue) (h : LLValue) (e : ns.allocZero factory z = .ok (h, ns')) :
    h = .Global ns.Mod.Globals.length ∧
    ns'.Mod.Globals.length = ns.Mod.Globals.length + 1 := by
  unfold LLVMNamespace.allocZero at e
  split at e
  · cases e
  · split at e
    · cases e
    · split at e
      · cases e
      · simp only [Except.ok.injEq] at e
        have h1 := LLVMNamespace.createAndSetGlobal_eq ns
        rename_i rootTy _ _ llTy _ _ ll _
        have h2 := h1 (rootTy ++ ".zero") llTy ll
        rw [e] at h2
        exact ⟨h2.1, by rw [h2.2.1]; simp⟩

/-- The identifier that `allocZero` derives from a value does not depend on
the namespace. -/
theorem LLVMNamespace.allocZero_returns (factory : TypeFactory) (ns ns' ns1 : LLVMNamespace)
    (z : TypedValue) (h : LLValue) (e : ns.allocZero factory z = .ok (h, ns')) :
    ∃ h1 ns1', ns1.allocZero factory z = .ok (h1, ns1') := by
  unfold LLVMNamespace.allocZero at e ⊢
  cases hb : (z.Type factory).BaseIDString with
  | error x => simp [hb] at e
  | ok rootTy =>
    cases hl : (z.Type factory).LLVM with
    | error x => simp [hb, hl] at e
    | ok llTy =>
      cases hv : z.LLVM with
      | error x => simp [hb, hl, hv] at e
      | ok ll => exact ⟨_, _, rfl⟩

/-- Running the prefix of a pipeline whose stages all return nil. -/
theorem Pipeline.Execute_append {W D : Type} (verbose : Bool) :
    ∀ (pre post : List (Stage W D)) (w : W), everyNil pre w = true →
      Pipeline.Execute (pre ++ post) verbose w = Pipeline.Execute post verbose (runEvery pre w)
  | [], _, _, _ => rfl
  | s :: pre, post, w, h => by
      simp only [everyNil, Bool.and_eq_true, Option.isNone_iff_eq_none] at h
      have ih := Pipeline.Execute_append verbose pre post (s.Run w).2 h.2
      have hs : s.Run w = (none, (s.Run w).2) := Prod.ext h.1 rfl
      simp only [List.cons_append, Pipeline.Execute, runEvery]
      rw [hs]
      simpa using ih

/-- A pipeline returns nil exactly when every stage returns nil, and has then
run every stage. -/
theorem Pipeline.Execute_none_iff {W D : Type} (verbose : Bool) :
    ∀ (pipe : List (Stage W D)) (w : W),
      ((Pipeline.Execute pipe verbose w).1 = none ↔ everyNil pipe w = true) ∧
      (everyNil pipe w = true → Pipeline.Execute pipe verbose w = (none, runEvery pipe w))
  | [], w => by simp [Pipeline.Execute, everyNil, runEvery]
  | s :: rest, w => by
      have ih := Pipeline.Execute_none_iff verbose rest (s.Run w).2
      cases hs : s.Run w with
      | mk d w' =>
        rw [hs] at ih
        cases d with
        | none => simpa [Pipeline.Execute, everyNil, runEvery, hs] using ih
        | some d => simp [Pipeline.Execute, everyNil, hs]

/-- With initializers the loop over the names never ends without a
diagnostic: its first round returns one or panics. -/
theorem Block.translateVarDeclNames_ne_nil (g : Globals) (block : Block) (valueSpec : ValueSpec)
    (ty : GoType) (name : IdentNode) (rest : List IdentNode) (idx : Nat) (st st' : TransState)
    (hv : valueSpec.Values ≠ []) :
    block.translateVarDeclNames g valueSpec ty (name :: rest) idx st ≠ .ok (none, st') := by
  have hlen : valueSpec.Values.length ≠ 0 := by
    intro h; exact hv (List.length_eq_zero.mp h)
  unfold Block.translateVarDeclNames
  split
  · simp
  · rw [if_neg hlen]
    split
    · simp
    · split
      · simp
      · simp
      · split
        · simp
        · split
          · simp
          · split
            · simp
            · split
              · simp
              · simp

/-! The claims on values, scopes, the namespace, pipelines and declarations. -/

/-- Claim C11 fails on the code when the expected type is a function type
without a result: asked for its own type, the value of `puts` panics in
`ty.Eq(fn.Ty)` instead of returning itself, and so does a constant or a
pointer asked for that type after the parameters compare equal. This is the
defect of `FuncType.Eq` shown for claim C2. -/
theorem typed_RValue_nil_result_panics (llvmVal : LLValue) :
    (puts_value llvmVal).RValue (some ty_puts) = .error .nilDereference ∧
    (Pointer.mk ty_puts llvmVal).RValue (some ty_puts) = .error .nilDereference ∧
    (TypedConstInt.mk ⟨0, true⟩ (.FuncType [] none)).RValue (some (.FuncType [] none))
      = .error .nilDereference :=
  ⟨rfl, rfl, rfl⟩

/-- Claim C12: `addValue(x, v)` on a scope `s` returns false and leaves the
whole store (so `s` and all its ancestors) unchanged when `lookupVar(x)` from
`s` finds a binding anywhere on the parent chain, and only then; otherwise it
returns true, and afterwards `s.lookupVar(x)` is the binding with `Ident = x`,
`Const = false` and held value `v`, while `lookupVar` of every other
identifier (and every `lookupType`) is unchanged. -/
theorem addValue_spec {V : Type} (σ : Store V) (t v : Nat) (p : Scope) (x : string) (val : V) :
    (∀ b, Scope.lookupVar σ (.mk t v p) x = some b →
      Scope.addValue σ (.mk t v p) x val = .ok (false, σ)) ∧
    (Scope.lookupVar σ (.mk t v p) x = none →
      ∃ σ', Scope.addValue σ (.mk t v p) x val = .ok (true, σ') ∧
        Scope.lookupVar σ' (.mk t v p) x = some ⟨x, false, val⟩ ∧
        (∀ y, y ≠ x → ∀ s, Scope.lookupVar σ' s y = Scope.lookupVar σ s y) ∧
        (∀ y s, Scope.lookupType σ' s y = Scope.lookupType σ s y)) := by
  constructor
  · intro b hb
    simp [Scope.addValue, hb]
  · intro hnone
    refine ⟨_, by simp only [Scope.addValue, hnone]; rfl, ?_, ?_, ?_⟩
    · simp [Scope.lookupVar, GoMap.set]
    · intro y hy s
      apply Scope.lookupVar_congr
      intro a _
      by_cases ha : a = v
      · subst ha
        simp [GoMap.set, hy]
      · simp [Function.update, ha]
    · intro y s
      exact Scope.lookupType_congr _ _ y s (fun _ _ => rfl)

/-- Witness for `addValue_spec`: in a fresh root scope `x` is not bound, so
`addValue("x", 5)` binds it; a second `addValue("x", 6)` is refused. -/
theorem addValue_spec_witness :
    (∃ σ', Scope.addValue (CreateScope (Store.init : Store Nat)).2 (.mk 0 0 .nil) "x" 5
        = .ok (true, σ') ∧
      Scope.lookupVar σ' (.mk 0 0 .nil) "x" = some ⟨"x", false, 5⟩ ∧
      (∀ y, y ≠ "x" → ∀ s, Scope.lookupVar σ' s y
        = Scope.lookupVar (CreateScope (Store.init : Store Nat)).2 s y) ∧
      (∀ y s, Scope.lookupType σ' s y
        = Scope.lookupType (CreateScope (Store.init : Store Nat)).2 s y)) ∧
    Scope.addValue (⟨fun _ => GoMap.empty,
        fun _ => (GoMap.empty : ValueMap Nat).set "x" ⟨"x", false, 5⟩, 1⟩ : Store Nat)
      (.mk 0 0 .nil) "x" 6
      = .ok (false, ⟨fun _ => GoMap.empty,
        fun _ => (GoMap.empty : ValueMap Nat).set "x" ⟨"x", false, 5⟩, 1⟩) :=
  ⟨(addValue_spec (CreateScope (Store.init : Store Nat)).2 0 0 .nil "x" 5).2 rfl,
   (addValue_spec (⟨fun _ => GoMap.empty,
        fun _ => (GoMap.empty : ValueMap Nat).set "x" ⟨"x", false, 5⟩, 1⟩ : Store Nat)
      0 0 .nil "x" 6).1 ⟨"x", false, 5⟩ rfl⟩

/-- Claim C13: `addTypeAlias(lhs, rhs)` fails with `Type "rhs" not found.` when
`lookupType(rhs)` finds nothing (checked first), fails with
`Type "lhs" already exists.` when `lookupType(lhs)` finds a type, and leaves
the store unchanged in both cases; otherwise it returns no diagnostic and
afterwards `lookupType(lhs)` is the alias type with identifier `lhs` whose
referent is the type that `rhs` resolved to. -/
theorem addTypeAlias_spec {V : Type} (σ : Store V) (t v : Nat) (p : Scope)
    (lhs rhs : string) :
    (Scope.lookupType σ (.mk t v p) rhs = none →
      Scope.addTypeAlias σ (.mk t v p) lhs rhs
        = .ok (some ⟨"Type \"" ++ rhs ++ "\" not found."⟩, σ)) ∧
    (∀ rT lT, Scope.lookupType σ (.mk t v p) rhs = some rT →
      Scope.lookupType σ (.mk t v p) lhs = some lT →
      Scope.addTypeAlias σ (.mk t v p) lhs rhs
        = .ok (some ⟨"Type \"" ++ lhs ++ "\" already exists."⟩, σ)) ∧
    (∀ rT, Scope.lookupType σ (.mk t v p) rhs = some rT →
      Scope.lookupType σ (.mk t v p) lhs = none →
      ∃ σ', Scope.addTypeAlias σ (.mk t v p) lhs rhs = .ok (none, σ') ∧
        Scope.lookupType σ' (.mk t v p) lhs = some (.AliasType lhs rT)) := by
  refine ⟨?_, ?_, ?_⟩
  · intro h
    simp only [Scope.addTypeAlias, h]
  · intro rT lT hr hl
    simp only [Scope.addTypeAlias, hr, Scope.addType, hl]
  · intro rT hr hl
    refine ⟨_, by simp only [Scope.addTypeAlias, hr, Scope.addType, hl]; rfl, ?_⟩
    simp [Scope.lookupType_mk, GoMap.set]

/-- Witness for `addTypeAlias_spec` on a root scope that binds `uint8`:
`byte` becomes an alias of `uint8`, an unknown referent and a taken alias
identifier are refused. -/
theorem addTypeAlias_spec_witness :
    Scope.addTypeAlias (⟨fun _ => (GoMap.empty : TypeMap).set "uint8" ty_uint8,
        fun _ => GoMap.empty, 1⟩ : Store Nat) (.mk 0 0 .nil) "byte" "char"
      = .ok (some ⟨"Type \"" ++ "char" ++ "\" not found."⟩,
          ⟨fun _ => (GoMap.empty : TypeMap).set "uint8" ty_uint8, fun _ => GoMap.empty, 1⟩) ∧
    Scope.addTypeAlias (⟨fun _ => (GoMap.empty : TypeMap).set "uint8" ty_uint8,
        fun _ => GoMap.empty, 1⟩ : Store Nat) (.mk 0 0 .nil) "uint8" "uint8"
      = .ok (some ⟨"Type \"" ++ "uint8" ++ "\" already exists."⟩,
          ⟨fun _ => (GoMap.empty : TypeMap).set "uint8" ty_uint8, fun _ => GoMap.empty, 1⟩) ∧
    (∃ σ', Scope.addTypeAlias (⟨fun _ => (GoMap.empty : TypeMap).set "uint8" ty_uint8,
        fun _ => GoMap.empty, 1⟩ : Store Nat) (.mk 0 0 .nil) "byte" "uint8" = .ok (none, σ') ∧
      Scope.lookupType σ' (.mk 0 0 .nil) "byte" = some (.AliasType "byte" ty_uint8)) :=
  ⟨(addTypeAlias_spec _ 0 0 .nil "byte" "char").1 rfl,
   (addTypeAlias_spec _ 0 0 .nil "uint8" "uint8").2.1 ty_uint8 ty_uint8 rfl rfl,
   (addTypeAlias_spec _ 0 0 .nil "byte" "uint8").2.2 ty_uint8 rfl rfl⟩

/-- Claim C14: for a scope `p` and two children of `p` made by separate
`createChild` calls, and for the store in whatever state it is by now (so
whatever `p` and the two children already bind), every `addValue`, `addType`
or `addTypeAlias` on the one child, successful or not, returns and leaves the
result of every `lookupVar` and `lookupType` on `p` and on the other child
unchanged. The child `c1` was made in the store `σ1` and `c2` in `σ2`; the
two calls took different addresses. -/
theorem scope_isolation {V : Type} (σ1 σ2 σ : Store V) (p : Scope)
    (hp : p.allocatedBelow σ1.next = true) (hne : σ1.next ≠ σ2.next)
    (m : ScopeMutation V) :
    ∃ σ', m.apply σ (p.createChild σ1).1 = .ok σ' ∧
      ∀ y : string,
        Scope.lookupVar σ' p y = Scope.lookupVar σ p y ∧
        Scope.lookupType σ' p y = Scope.lookupType σ p y ∧
        Scope.lookupVar σ' (p.createChild σ2).1 y = Scope.lookupVar σ (p.createChild σ2).1 y ∧
        Scope.lookupType σ' (p.createChild σ2).1 y
          = Scope.lookupType σ (p.createChild σ2).1 y := by
  have hlt := Scope.chain_lt_of_allocatedBelow σ1.next p hp
  obtain ⟨σ', h1, _, hv, ht⟩ := ScopeMutation.apply_frame σ σ1.next σ1.next p m
  refine ⟨σ', h1, fun y => ⟨?_, ?_, ?_, ?_⟩⟩
  · apply Scope.lookupVar_congr
    intro a ha
    rw [hv a (Nat.ne_of_lt (hlt.1 a ha))]
  · apply Scope.lookupType_congr
    intro a ha
    rw [ht a (Nat.ne_of_lt (hlt.2 a ha))]
  · apply Scope.lookupVar_congr
    intro a ha
    simp only [Scope.createChild, Scope.chain, List.mem_cons] at ha
    rcases ha with rfl | ha
    · rw [hv _ (Ne.symm hne)]
    · rw [hv a (Nat.ne_of_lt (hlt.1 a ha))]
  · apply Scope.lookupType_congr
    intro a ha
    simp only [Scope.createChild, Scope.typeChain, List.mem_cons] at ha
    rcases ha with rfl | ha
    · rw [ht _ (Ne.symm hne)]
    · rw [ht a (Nat.ne_of_lt (hlt.2 a ha))]

/-- Witness for `scope_isolation`: the second child of the root already binds
`x` to 7; binding `x` to 5 in the first child succeeds, and afterwards the
second child still finds 7 and the root still finds nothing. -/
theorem scope_isolation_witness :
    ∃ σ', (ScopeMutation.addValue "x" 5).apply siblingStore
        (sampleRoot.createChild sampleRootStore).1 = .ok σ' ∧
      Scope.lookupVar σ' (sampleRoot.createChild sampleRootStore).1 "x"
        = some ⟨"x", false, 5⟩ ∧
      Scope.lookupVar σ' sampleRoot "x" = none ∧
      Scope.lookupVar σ' (sampleRoot.createChild (sampleRoot.createChild sampleRootStore).2).1 "x"
        = some ⟨"x", false, 7⟩ := by
  obtain ⟨σ', h1, h2⟩ :=
    scope_isolation sampleRootStore (sampleRoot.createChild sampleRootStore).2 siblingStore
      sampleRoot rfl (by decide) (.addValue "x" 5)
  refine ⟨σ', h1, ?_, by rw [(h2 "x").1]; rfl, by rw [(h2 "x").2.2.1]; rfl⟩
  have h0 : (ScopeMutation.addValue "x" 5).apply siblingStore
      (sampleRoot.createChild sampleRootStore).1
      = .ok ⟨siblingStore.types,
          Function.update siblingStore.values 1
            ((siblingStore.values 1).set "x" ⟨"x", false, 5⟩), 3⟩ := rfl
  rw [h0] at h1
  injection h1 with h1
  subst h1
  rfl

/-- Claim C15: for a scope `s` with parent `p`, `s.lookupVar(x)` (and likewise
`s.lookupType(x)`) is the entry of `s`'s own map when that map contains `x`,
whatever the ancestors hold, and otherwise is exactly `p.lookupVar(x)`
(`p.lookupType(x)`); with no parent and no own entry it is nil. -/
theorem lookup_precedence {V : Type} (σ : Store V) (t v : Nat) (p : Scope) (x : string) :
    (∀ b, σ.values v x = some b → Scope.lookupVar σ (.mk t v p) x = some b) ∧
    (σ.values v x = none → Scope.lookupVar σ (.mk t v p) x = Scope.lookupVar σ p x) ∧
    (σ.values v x = none → Scope.lookupVar σ (.mk t v .nil) x = none) ∧
    (∀ ty, σ.types t x = some ty → Scope.lookupType σ (.mk t v p) x = some ty) ∧
    (σ.types t x = none → Scope.lookupType σ (.mk t v p) x = Scope.lookupType σ p x) ∧
    (σ.types t x = none → Scope.lookupType σ (.mk t v .nil) x = none) := by
  refine ⟨?_, ?_, ?_, ?_, ?_, ?_⟩
  · intro b h
    simp [Scope.lookupVar, h]
  · intro h
    simp [Scope.lookupVar, h]
  · intro h
    simp [Scope.lookupVar, h]
  · intro ty h
    simp [Scope.lookupType_mk, h]
  · intro h
    simp [Scope.lookupType_mk, h]
  · intro h
    simp [Scope.lookupType_mk, h, Scope.lookupType_nil]

/-- Witness for `lookup_precedence`: the child binds `x` to 1 and its parent
binds `x` to 0; from the child `x` is 1, from the parent it is 0. -/
theorem lookup_precedence_witness :
    Scope.lookupVar shadowStore (.mk 1 1 (.mk 0 0 .nil)) "x" = some ⟨"x", false, 1⟩ ∧
    Scope.lookupVar shadowStore (.mk 1 1 (.mk 0 0 .nil)) "y"
      = Scope.lookupVar shadowStore (.mk 0 0 .nil) "y" ∧
    Scope.lookupVar shadowStore (.mk 0 0 .nil) "x" = some ⟨"x", false, 0⟩ :=
  ⟨(lookup_precedence shadowStore 1 1 (.mk 0 0 .nil) "x").1 ⟨"x", false, 1⟩ rfl,
   (lookup_precedence shadowStore 1 1 (.mk 0 0 .nil) "y").2.1 rfl,
   (lookup_precedence shadowStore 0 0 .nil "x").1 ⟨"x", false, 0⟩ rfl⟩

/-- Claim C16 as stated fails: after `createChild` on the root, `addValue("x")`
on the child and then `addValue("x")` on the root, both calls succeed and the
chain from the child to the root holds two bindings for `x`. -/
theorem uniqueBindings_counterexample :
    ¬ (ScopeTree.run [ScopeOp.createChild 0, .addValue 1 "x" (), .addValue 0 "x" ()] :
        ScopeTree Unit).uniqueBindings := by
  intro h
  have h2 := h (.mk 1 1 (.mk 0 0 .nil)) (by decide) "x"
  revert h2
  decide

/-- Claim C16 amended: in every scope tree reached from `CreateScope` by a
sequence of `createChild` and `addValue` calls in which `addValue(x, _)` is
applied to a scope only when `x` is already visible from it (the call then
fails) or `x` is visible from none of its descendants, at most one scope on
the chain from any scope to the root holds a variable binding for any
identifier. -/
theorem uniqueBindings_of_admissibleRun {V : Type} (ops : List (ScopeOp V))
    (h : ScopeTree.admissibleRun (ScopeTree.init : ScopeTree V) ops = true) :
    (ScopeTree.run ops).uniqueBindings :=
  (ScopeTree.Inv_foldl ops ScopeTree.init ScopeTree.Inv_init h).unique

/-- Witness for `uniqueBindings_of_admissibleRun`: the root binds `x`, then a
child is made, `addValue("x")` on the child is refused and `addValue("y")` on
it succeeds. -/
theorem uniqueBindings_of_admissibleRun_witness :
    (ScopeTree.run [ScopeOp.addValue 0 "x" (), .createChild 0, .addValue 1 "x" (),
      .addValue 1 "y" ()] : ScopeTree Unit).uniqueBindings :=
  uniqueBindings_of_admissibleRun _ (by decide)

/-- Claim C17: starting from a fresh namespace, a sequence of
`requestStaticConstAlloc` calls (shorter than the range of the `uint`
counters) creates, for the `k`-th call made with base identifier `b` and
however the calls for other identifiers are interleaved, a constant module
global named `b.k` with the requested type and initializer; the counters end
as the number of calls per base identifier, and each call raises the counter
of its own base identifier by one and leaves every other counter unchanged. -/
theorem requestStaticConstAlloc_names (w : Nat) (mod : LLModule) (reqs : List AllocRequest)
    (bs : List string) (hb : List.Forall₂ (fun r b => r.ty.BaseIDString = .ok b) reqs bs)
    (hlen : reqs.length < 2 ^ w) :
    (∃ ns', (CreateNamespace mod).requestAll w reqs = .ok ns' ∧
      ns'.Mod.Globals = mod.Globals ++
        List.zipWith (fun r name => ⟨name, r.llTy, true, some r.val⟩) reqs (mintedNames [] bs) ∧
      ns'.TypeCounter = mintedCounters bs) ∧
    (∀ (ns : LLVMNamespace) (earlier : List string) (r : AllocRequest) (b : string),
      ns.TypeCounter = mintedCounters earlier → r.ty.BaseIDString = .ok b →
      earlier.length + 1 < 2 ^ w →
      ∃ ns', ns.requestStaticConstAlloc w r.ty r.llTy r.val
          = .ok (.Global ns.Mod.Globals.length, ns') ∧
        ns'.TypeCounter b = some (earlier.count b + 1) ∧
        (∀ b', b' ≠ b → ns'.TypeCounter b' = ns.TypeCounter b')) := by
  constructor
  · have h := LLVMNamespace.requestAll_spec w reqs bs [] (CreateNamespace mod)
      (by funext k; simp [CreateNamespace, mintedCounters, GoMap.empty]) hb (by simpa using hlen)
    simpa [CreateNamespace] using h
  · intro ns earlier r b hc hrb hl
    obtain ⟨ns', h1, _, hc'⟩ :=
      LLVMNamespace.requestStaticConstAlloc_step w ns earlier r b hc hrb hl
    refine ⟨ns', h1, ?_, ?_⟩
    · rw [hc']
      simp [mintedCounters]
    · intro b' hb'
      have hk' : (b == b') = false := by simpa using fun h => hb' h.symm
      rw [hc', hc]
      simp [mintedCounters, List.count_append, List.count_cons, hk']

/-- Witness for `requestStaticConstAlloc_names`: two string literals with an
`int64` in between are named `p.uint8.0`, `int64.0` and `p.uint8.1`. -/
theorem requestStaticConstAlloc_names_witness :
    ∃ ns', (CreateNamespace (LLModule.create "main")).requestAll 64 sampleRequests = .ok ns' ∧
      ns'.Mod.Globals.map (fun g => g.Name) = ["p.uint8.0", "int64.0", "p.uint8.1"] := by
  have hb : List.Forall₂ (fun (r : AllocRequest) b => r.ty.BaseIDString = .ok b) sampleRequests
      ["p.uint8", "int64", "p.uint8"] := by
    refine .cons ?_ (.cons ?_ (.cons ?_ .nil))
    · simp [GoType.BaseIDString, ty_byte, ty_uint8, GoType.Base, GoType.String, BLTN_TY_UINT8]
    · simp [GoType.BaseIDString, ty_int64, GoType.String, BLTN_TY_UINT8, BLTN_TY_UINT16,
        BLTN_TY_UINT32, BLTN_TY_UINT64, BLTN_TY_INT8, BLTN_TY_INT16, BLTN_TY_INT32,
        BLTN_TY_INT64]
    · simp [GoType.BaseIDString, ty_byte, ty_uint8, GoType.Base, GoType.String, BLTN_TY_UINT8]
  obtain ⟨ns', h1, h2, _⟩ :=
    (requestStaticConstAlloc_names 64 (LLModule.create "main") sampleRequests
      ["p.uint8", "int64", "p.uint8"] hb (by simp [sampleRequests])).1
  refine ⟨ns', h1, ?_⟩
  rw [h2]
  simp [LLModule.create, sampleRequests, mintedNames]
  decide

/-- Claim C18 fails on the code: `allocZero` never consults or fills the `Zero`
map, so whenever a first call returns, a second call with the same value
returns too, with the handle of yet another new global, and the module ends
with two more globals. -/
theorem allocZero_not_idempotent (factory : TypeFactory) (ns ns1 : LLVMNamespace)
    (z : TypedValue) (h1 : LLValue) (e1 : ns.allocZero factory z = .ok (h1, ns1)) :
    ∃ h2 ns2, ns1.allocZero factory z = .ok (h2, ns2) ∧ h2 ≠ h1 ∧
      ns2.Mod.Globals.length = ns.Mod.Globals.length + 2 := by
  obtain ⟨h2, ns2, e2⟩ := LLVMNamespace.allocZero_returns factory ns ns1 ns1 z h1 e1
  have a1 := LLVMNamespace.allocZero_adds factory ns ns1 z h1 e1
  have a2 := LLVMNamespace.allocZero_adds factory ns1 ns2 z h2 e2
  refine ⟨h2, ns2, e2, ?_, by omega⟩
  rw [a1.1, a2.1, a1.2]
  intro h
  injection h with h
  omega

/-- Witness for `allocZero_not_idempotent`: the zero of `int64` requested
twice from a fresh namespace gives the globals 0 and 1. -/
theorem allocZero_not_idempotent_witness :
    ∃ h2 ns2, (LLVMNamespace.createAndSetGlobal (CreateNamespace (LLModule.create "main"))
        "int64.zero" (.IntType 64) (.ConstInt (.IntType 64) 0 true)).2.allocZero
          ⟨darwin_x86_64⟩ zero_int64 = .ok (h2, ns2) ∧
      h2 ≠ .Global 0 ∧ ns2.Mod.Globals.length = 0 + 2 :=
  allocZero_not_idempotent ⟨darwin_x86_64⟩ (CreateNamespace (LLModule.create "main")) _
    zero_int64 (.Global 0) (by
      simp [LLVMNamespace.allocZero, zero_int64, TypedValue.Type, GoType.BaseIDString, ty_int64,
        GoType.String, BLTN_TY_UINT8, BLTN_TY_UINT16, BLTN_TY_UINT32, BLTN_TY_UINT64,
        BLTN_TY_INT8, BLTN_TY_INT16, BLTN_TY_INT32, BLTN_TY_INT64, GoType.LLVM,
        IntType_BitWidth, TypedValue.LLVM]
      rfl)

/-- Claim C19: a pipeline built with `AddStage` holds its stages in the order
they were added; `Execute` runs them in that order, returns the diagnostic of
the first stage whose `Run` returns one and leaves the world as that stage
left it, whatever stages come after; and it returns nil exactly when every
stage returns nil, having then run them all (so for the empty pipeline). -/
theorem Pipeline_Execute_spec {W D : Type} (verbose : Bool) :
    (∀ stages : List (Stage W D), stages.foldl Pipeline.AddStage CreatePipeline = stages) ∧
    (∀ (pre post : List (Stage W D)) (s : Stage W D) (w : W) (d : D),
      everyNil pre w = true → (s.Run (runEvery pre w)).1 = some d →
      Pipeline.Execute (pre ++ s :: post) verbose w
        = (some d, (s.Run (runEvery pre w)).2)) ∧
    (∀ (pipe : List (Stage W D)) (w : W),
      ((Pipeline.Execute pipe verbose w).1 = none ↔ everyNil pipe w = true)) ∧
    (∀ (pipe : List (Stage W D)) (w : W), everyNil pipe w = true →
      Pipeline.Execute pipe verbose w = (none, runEvery pipe w)) ∧
    (∀ w : W, Pipeline.Execute (CreatePipeline : Pipeline W D) verbose w = (none, w)) := by
  refine ⟨?_, ?_, ?_, ?_, ?_⟩
  · intro stages
    have key : ∀ (l acc : List (Stage W D)), l.foldl Pipeline.AddStage acc = acc ++ l := by
      intro l
      induction l with
      | nil => intro acc; simp
      | cons a l ih => intro acc; simp [List.foldl, Pipeline.AddStage, ih]
    simpa [CreatePipeline] using key stages []
  · intro pre post s w d hpre hs
    rw [Pipeline.Execute_append verbose pre (s :: post) w hpre]
    have hrun : s.Run (runEvery pre w) = (some d, (s.Run (runEvery pre w)).2) :=
      Prod.ext hs rfl
    simp only [Pipeline.Execute]
    rw [hrun]
  · intro pipe w
    exact (Pipeline.Execute_none_iff verbose pipe w).1
  · intro pipe w
    exact (Pipeline.Execute_none_iff verbose pipe w).2
  · intro w
    rfl

/-- Witness for `Pipeline_Execute_spec`: of the stages `goc`, `llc` and `clang`
the second fails; `Execute` returns its diagnostic and `clang` is not run. -/
theorem Pipeline_Execute_spec_witness :
    Pipeline.Execute ([logStage "goc" none] ++ logStage "llc" (some "boom") ::
        [logStage "clang" none]) true []
      = (some "boom", ((logStage "llc" (some "boom")).Run
          (runEvery [logStage "goc" none] [])).2) ∧
    ((logStage "llc" (some "boom")).Run (runEvery [logStage "goc" none] [])).2
      = ["goc", "llc"] :=
  ⟨(Pipeline_Execute_spec true).2.1 [logStage "goc" none] [logStage "clang" none]
      (logStage "llc" (some "boom")) [] "boom" rfl rfl,
   rfl⟩

/-- Claim C20 fails on the code: for a `var` declaration with initializers,
`translateVarDecl` never returns without a diagnostic, whatever the
initializers translate to. When the types are equal, the statement after the
mismatch test (line 254) returns the mismatch diagnostic all the same, and
`addValue` is not reached. -/
theorem translateVarDecl_initializers_never_bound (g : Globals) (block : Block) (gen : GenDecl)
    (spec : ValueSpec) (others : List Spec) (st st' : TransState)
    (hs : gen.Specs = .ValueSpec spec :: others) (hv : spec.Values ≠ []) :
    block.translateVarDecl g gen st ≠ .ok (none, st') := by
  unfold Block.translateVarDecl
  rw [hs]
  simp only
  cases hn : spec.Names with
  | nil => simp [assert]
  | cons name rest =>
    simp only [assert, List.length_cons, gt_iff_lt, Nat.zero_lt_succ, decide_True, if_true]
    split
    · simp
    · split
      · simp
      · split
        · simp
        · split
          · simp
          · exact Block.translateVarDeclNames_ne_nil g block spec _ name rest 0 st st' hv

/-- Witness for `translateVarDecl_initializers_never_bound`: in a function body
where `y` holds the zero of `int64`, the declaration `var x int64 = y` is
refused with a mismatch between `int64` and `int64`, and `x` stays unbound. -/
theorem translateVarDecl_initializers_never_bound_witness :
    sampleBlock.translateVarDecl ⟨⟨darwin_x86_64⟩, 64⟩ sampleVarDecl sampleState
      ≠ .ok (none, sampleState) ∧
    sampleBlock.translateVarDecl ⟨⟨darwin_x86_64⟩, 64⟩ sampleVarDecl sampleState
      = .ok (some ⟨14, 15,
          "Expected initializer of type \"int64\", but found type \"int64\"."⟩, sampleState) :=
  ⟨translateVarDecl_initializers_never_bound ⟨⟨darwin_x86_64⟩, 64⟩ sampleBlock sampleVarDecl
      ⟨[⟨4, "x"⟩], some (.Ident 6 "int64"), [.Ident 14 "y"]⟩ [] sampleState sampleState rfl
      (by simp),
   rfl⟩

/-! Supporting lemmas on base types, identifiers, minted names and the
translation of expressions, statements and functions. -/

mutual
/-- On a type whose function types all have a result, `Base` returns the type
with every alias replaced by its referent. -/
theorem GoType.Base_eq_stripAliases : ∀ (t : GoType), t.hasResults = true →
    t.Base = .ok t.stripAliases
  | .IntType _ _, _ => rfl
  | .AliasType _ al, h => by
      simp only [GoType.hasResults] at h
      simpa [GoType.Base, GoType.stripAliases] using GoType.Base_eq_stripAliases al h
  | .PointerType a, h => by
      simp only [GoType.hasResults] at h
      simp [GoType.Base, GoType.stripAliases, GoType.Base_eq_stripAliases a h]
  | .FuncType ps none, h => by simp [GoType.hasResults] at h
  | .FuncType ps (some rt), h => by
      simp only [GoType.hasResults, Bool.and_eq_true] at h
      simp [GoType.Base, GoType.stripAliases, GoType.BaseParams_eq_stripAliasesList ps h.1,
        GoType.Base_eq_stripAliases rt h.2]
/-- List counterpart of `GoType.Base_eq_stripAliases`. -/
theorem GoType.BaseParams_eq_stripAliasesList : ∀ (ps : List GoType),
    GoType.hasResultsList ps = true → GoType.BaseParams ps = .ok (GoType.stripAliasesList ps)
  | [], _ => rfl
  | t :: ts, h => by
      simp only [GoType.hasResultsList, Bool.and_eq_true] at h
      simp [GoType.BaseParams, GoType.stripAliasesList, GoType.Base_eq_stripAliases t h.1,
        GoType.BaseParams_eq_stripAliasesList ts h.2]
end

mutual
/-- No alias is left in a type whose aliases were replaced by their
referents. -/
theorem GoType.noAlias_stripAliases : ∀ (t : GoType), t.stripAliases.noAlias = true
  | .IntType _ _ => rfl
  | .AliasType _ al => by
      simpa [GoType.stripAliases] using GoType.noAlias_stripAliases al
  | .PointerType a => by
      simpa [GoType.stripAliases, GoType.noAlias] using GoType.noAlias_stripAliases a
  | .FuncType ps none => by
      simpa [GoType.stripAliases, GoType.noAlias] using GoType.noAliasList_stripAliasesList ps
  | .FuncType ps (some rt) => by
      simp [GoType.stripAliases, GoType.noAlias, GoType.noAliasList_stripAliasesList ps,
        GoType.noAlias_stripAliases rt]
/-- List counterpart of `GoType.noAlias_stripAliases`. -/
theorem GoType.noAliasList_stripAliasesList : ∀ (ps : List GoType),
    GoType.noAliasList (GoType.stripAliasesList ps) = true
  | [] => rfl
  | t :: ts => by
      simp [GoType.stripAliasesList, GoType.noAliasList, GoType.noAlias_stripAliases t,
        GoType.noAliasList_stripAliasesList ts]
end

/-- Joining a list of strings puts its head in front of the rest joined. -/
theorem String_join_cons (a : string) (l : List string) :
    String.join (a :: l) = a ++ String.join l := by
  rw [String.join_eq, String.join_eq]
  apply String.ext
  simp [String.data_append]

/-- The loop over the parameters appends a dot and the identifier of each
parameter, in order. -/
theorem GoType.BaseIDStringParams_spec : ∀ (ps : List GoType) (ss : List string) (str : string),
    List.Forall₂ (fun p s => GoType.BaseIDString p = .ok s) ps ss →
    GoType.BaseIDStringParams ps str = .ok (str ++ String.join (ss.map (fun s => "." ++ s)))
  | [], ss, str, h => by
      cases h
      simp [GoType.BaseIDStringParams, String.join]
  | p :: ps, ss, str, h => by
      cases h with
      | cons hp hps =>
        rename_i s ss'
        rw [GoType.BaseIDStringParams]
        simp only [hp]
        rw [GoType.BaseIDStringParams_spec ps ss' _ hps]
        rw [List.map_cons, String_join_cons]
        simp only [String.append_assoc]

/-- A type without a result never has a base. -/
theorem GoType.Base_FuncType_nil (ps : List GoType) (b : GoType) :
    (GoType.FuncType ps none).Base ≠ .ok b := by
  simp only [GoType.Base]
  cases GoType.BaseParams ps <;> simp

/-- A string with one separator is split in one way only when the separator
does not occur after it. -/
theorem List.append_cons_inj_of_not_mem_right {α : Type} (a : α) :
    ∀ (l1 l2 r1 r2 : List α), a ∉ r1 → a ∉ r2 → l1 ++ a :: r1 = l2 ++ a :: r2 →
      l1 = l2 ∧ r1 = r2
  | [], [], r1, r2, _, _, h => by
      simp only [List.nil_append, List.cons.injEq, true_and] at h
      exact ⟨rfl, h⟩
  | [], x :: l2, r1, r2, h1, _, h => by
      simp only [List.nil_append, List.cons_append, List.cons.injEq] at h
      exact absurd (by rw [h.2]; simp) h1
  | x :: l1, [], r1, r2, _, h2, h => by
      simp only [List.nil_append, List.cons_append, List.cons.injEq] at h
      exact absurd (by rw [← h.2]; simp) h2
  | x :: l1, y :: l2, r1, r2, h1, h2, h => by
      simp only [List.cons_append, List.cons.injEq] at h
      obtain ⟨e1, e2⟩ := List.append_cons_inj_of_not_mem_right a l1 l2 r1 r2 h1 h2 h.2
      exact ⟨by rw [h.1, e1], e2⟩

/-- The value of a digit string read in base ten. -/
theorem digitChar_decimal (m : Nat) (h : m < 10) :
    m.digitChar ∈ decimalDigits ∧ digitValue m.digitChar = m := by
  interval_cases m <;> exact ⟨by decide, by decide⟩

/-- The digits that `%d` prints for a number: decimal digits, at least one,
whose value is the number. -/
theorem toDigitsCore_decimal : ∀ (fuel n : Nat) (ds : List Char), n < fuel →
    ∃ l, Nat.toDigitsCore 10 fuel n ds = l ++ ds ∧ (∀ c ∈ l, c ∈ decimalDigits) ∧
      l.foldl (fun a c => a * 10 + digitValue c) 0 = n
  | 0, n, ds, h => by omega
  | fuel + 1, n, ds, h => by
      have hd := digitChar_decimal (n % 10) (Nat.mod_lt _ (by decide))
      by_cases h0 : n / 10 = 0
      · refine ⟨[(n % 10).digitChar], ?_, ?_, ?_⟩
        · simp [Nat.toDigitsCore, h0]
        · intro c hc
          simp only [List.mem_singleton] at hc
          rw [hc]
          exact hd.1
        · simp only [List.foldl, hd.2]
          omega
      · obtain ⟨l, e, hl, hv⟩ :=
          toDigitsCore_decimal fuel (n / 10) ((n % 10).digitChar :: ds) (by omega)
        refine ⟨l ++ [(n % 10).digitChar], ?_, ?_, ?_⟩
        · simp [Nat.toDigitsCore, h0, e]
        · intro c hc
          simp only [List.mem_append, List.mem_singleton] at hc
          rcases hc with hc | hc
          · exact hl c hc
          · rw [hc]
            exact hd.1
        · simp only [List.foldl_append, List.foldl, hv, hd.2]
          omega

/-- What `%d` prints for a number holds decimal digits only and determines the
number. -/
theorem toString_decimal (k : Nat) :
    (∀ c ∈ (toString k).data, c ∈ decimalDigits) ∧
      (toString k).data.foldl (fun a c => a * 10 + digitValue c) 0 = k := by
  obtain ⟨l, e, hl, hv⟩ := toDigitsCore_decimal (k + 1) k [] (by omega)
  have hk : (toString k).data = l := by
    show Nat.toDigits 10 k = l
    simpa [Nat.toDigits] using e
  rw [hk]
  exact ⟨hl, hv⟩

/-- A minted name determines its base identifier and its counter. -/
theorem minted_name_inj (b b' : string) (k k' : Nat)
    (h : b ++ "." ++ toString k = b' ++ "." ++ toString k') : b = b' ∧ k = k' := by
  have hd := congrArg String.data h
  simp only [String.data_append] at hd
  have e : b.data ++ '.' :: (toString k).data = b'.data ++ '.' :: (toString k').data := by
    simpa using hd
  have n1 : '.' ∉ (toString k).data := fun hm => by
    have := (toString_decimal k).1 _ hm
    revert this
    decide
  have n2 : '.' ∉ (toString k').data := fun hm => by
    have := (toString_decimal k').1 _ hm
    revert this
    decide
  obtain ⟨e1, e2⟩ := List.append_cons_inj_of_not_mem_right '.' _ _ _ _ n1 n2 e
  refine ⟨String.ext e1, ?_⟩
  rw [← (toString_decimal k).2, ← (toString_decimal k').2, e2]

/-- A minted name is not the name of a zero value. -/
theorem minted_name_ne_zero (b b' : string) (k : Nat) :
    b ++ "." ++ toString k ≠ b' ++ ".zero" := by
  intro h
  have hd := congrArg String.data h
  simp only [String.data_append] at hd
  have e : b.data ++ '.' :: (toString k).data = b'.data ++ '.' :: ['z', 'e', 'r', 'o'] := by
    simpa using hd
  have n1 : '.' ∉ (toString k).data := fun hm => by
    have := (toString_decimal k).1 _ hm
    revert this
    decide
  obtain ⟨_, e2⟩ := List.append_cons_inj_of_not_mem_right '.' _ _ _ _ n1 (by decide) e
  have := (toString_decimal k).1 'z' (by rw [e2]; simp)
  revert this
  decide

/-- The names minted after earlier requests carry counters no smaller than the
numbers of those requests. -/
theorem mintedNames_mem : ∀ (bs earlier : List string) (name : string),
    name ∈ mintedNames earlier bs →
      ∃ b k, name = b ++ "." ++ toString k ∧ earlier.count b ≤ k
  | [], _, _, h => by simp [mintedNames] at h
  | b :: rest, earlier, name, h => by
      simp only [mintedNames, List.mem_cons] at h
      rcases h with h | h
      · exact ⟨b, earlier.count b, h, Nat.le_refl _⟩
      · obtain ⟨b', k, e, hk⟩ := mintedNames_mem rest (earlier ++ [b]) name h
        refine ⟨b', k, e, ?_⟩
        rw [List.count_append] at hk
        omega

/-- The names minted for a sequence of requests are pairwise distinct. -/
theorem mintedNames_nodup : ∀ (bs earlier : List string), (mintedNames earlier bs).Nodup
  | [], _ => by simp [mintedNames]
  | b :: rest, earlier => by
      simp only [mintedNames, List.nodup_cons]
      refine ⟨?_, mintedNames_nodup rest (earlier ++ [b])⟩
      intro hm
      obtain ⟨b', k, e, hk⟩ := mintedNames_mem rest (earlier ++ [b]) _ hm
      obtain ⟨e1, e2⟩ := minted_name_inj _ _ _ _ e
      subst e1
      rw [List.count_append] at hk
      simp at hk
      omega

/-- One name is minted for each request. -/
theorem mintedNames_length : ∀ (bs earlier : List string),
    (mintedNames earlier bs).length = bs.length
  | [], _ => rfl
  | b :: rest, earlier => by simp [mintedNames, mintedNames_length rest]

/-- A type without function types has a result in each of its function
types. -/
theorem GoType.hasResults_of_funcFree : ∀ (t : GoType), t.funcFree = true →
    t.hasResults = true
  | .IntType _ _, _ => rfl
  | .AliasType _ al, h => by
      simp only [GoType.funcFree] at h
      simpa [GoType.hasResults] using GoType.hasResults_of_funcFree al h
  | .PointerType a, h => by
      simp only [GoType.funcFree] at h
      simpa [GoType.hasResults] using GoType.hasResults_of_funcFree a h
  | .FuncType _ _, h => by simp [GoType.funcFree] at h

/-- Replacing the aliases of a type without function types leaves it without
function types. -/
theorem GoType.funcFree_stripAliases : ∀ (t : GoType), t.funcFree = true →
    t.stripAliases.funcFree = true
  | .IntType _ _, _ => rfl
  | .AliasType _ al, h => by
      simp only [GoType.funcFree] at h
      simpa [GoType.stripAliases] using GoType.funcFree_stripAliases al h
  | .PointerType a, h => by
      simp only [GoType.funcFree] at h
      simpa [GoType.stripAliases, GoType.funcFree] using GoType.funcFree_stripAliases a h
  | .FuncType _ _, h => by simp [GoType.funcFree] at h

/-- The identifier of a type without function types is that of the type with
its aliases replaced. -/
theorem GoType.BaseIDString_stripAliases : ∀ (t : GoType), t.funcFree = true →
    t.BaseIDString = t.stripAliases.BaseIDString
  | .IntType _ _, _ => rfl
  | .AliasType _ al, h => by
      simp only [GoType.funcFree] at h
      have hb := GoType.Base_eq_stripAliases al (GoType.hasResults_of_funcFree al h)
      rw [GoType.BaseIDString]
      split
      · rename_i e he
        rw [hb] at he
        cases he
      · rename_i b he
        rw [hb] at he
        cases he
        rfl
  | .PointerType a, h => by
      simp only [GoType.funcFree] at h
      simp only [GoType.stripAliases]
      rw [GoType.BaseIDString, GoType.BaseIDString, GoType.BaseIDString_stripAliases a h]
  | .FuncType _ _, h => by simp [GoType.funcFree] at h

/-- Only the ten kinds of `CreateGoScope` have a name. -/
theorem GoType.IntType_String_kind (k : Nat) (tg : Target) (s : string)
    (h : (GoType.IntType k tg).String = .ok s) : k ≤ 9 := by
  by_contra hk
  simp only [GoType.String, BLTN_TY_UINT8, BLTN_TY_UINT16, BLTN_TY_UINT32, BLTN_TY_UINT64,
    BLTN_TY_INT8, BLTN_TY_INT16, BLTN_TY_INT32, BLTN_TY_INT64, BLTN_TY_INT, BLTN_TY_UINT] at h
  rw [if_neg (by omega : ¬ k = 0), if_neg (by omega : ¬ k = 1), if_neg (by omega : ¬ k = 2),
    if_neg (by omega : ¬ k = 3), if_neg (by omega : ¬ k = 4), if_neg (by omega : ¬ k = 5),
    if_neg (by omega : ¬ k = 6), if_neg (by omega : ¬ k = 7), if_neg (by omega : ¬ k = 8),
    if_neg (by omega : ¬ k = 9)] at h
  simp at h

/-- The names of the integer kinds are pairwise distinct. -/
theorem GoType.IntType_String_inj (k k' : Nat) (tg tg' : Target) (s : string)
    (h : (GoType.IntType k tg).String = .ok s) (h' : (GoType.IntType k' tg').String = .ok s) :
    k = k' := by
  have hk := GoType.IntType_String_kind k tg s h
  have hk' := GoType.IntType_String_kind k' tg' s h'
  rw [← h'] at h
  interval_cases k <;> interval_cases k' <;> first
    | rfl
    | (simp [GoType.String, BLTN_TY_UINT8, BLTN_TY_UINT16, BLTN_TY_UINT32, BLTN_TY_UINT64,
        BLTN_TY_INT8, BLTN_TY_INT16, BLTN_TY_INT32, BLTN_TY_INT64, BLTN_TY_INT,
        BLTN_TY_UINT] at h)

/-- No name of an integer kind starts like the identifier of a pointer. -/
theorem GoType.IntType_String_ne_pointer (k : Nat) (tg : Target) (s : string) :
    (GoType.IntType k tg).String ≠ .ok ("p." ++ s) := by
  intro h
  have hk := GoType.IntType_String_kind k tg _ h
  interval_cases k <;>
    simp [GoType.String, BLTN_TY_UINT8, BLTN_TY_UINT16, BLTN_TY_UINT32, BLTN_TY_UINT64,
        BLTN_TY_INT8, BLTN_TY_INT16, BLTN_TY_INT32, BLTN_TY_INT64, BLTN_TY_INT,
        BLTN_TY_UINT, String.ext_iff] at h

/-- The identifier of a pointer is `p.` before that of its pointee. -/
theorem GoType.BaseIDString_pointer_ok (a : GoType) (s : string)
    (h : (GoType.PointerType a).BaseIDString = .ok s) :
    ∃ s1, a.BaseIDString = .ok s1 ∧ s = "p." ++ s1 := by
  rw [GoType.BaseIDString] at h
  cases ha : a.BaseIDString with
  | error e => simp [ha] at h
  | ok s1 =>
    simp only [ha, Except.ok.injEq] at h
    exact ⟨s1, rfl, h.symm⟩

/-- On types made of integers and pointers the identifier determines the
type up to `Eq`. -/
theorem GoType.BaseIDString_inj_plain : ∀ (u v : GoType) (s : string),
    u.funcFree = true → u.noAlias = true → v.funcFree = true → v.noAlias = true →
    u.BaseIDString = .ok s → v.BaseIDString = .ok s → u.Eq (some v) = .ok true
  | .IntType k tg, .IntType k' tg', s, _, _, _, _, h, h' => by
      rw [GoType.BaseIDString] at h h'
      have := GoType.IntType_String_inj k k' tg tg' s h h'
      simp [GoType.Eq, this]
  | .IntType k tg, .PointerType a, s, _, _, _, _, h, h' => by
      obtain ⟨s1, _, e⟩ := GoType.BaseIDString_pointer_ok a s h'
      rw [GoType.BaseIDString, e] at h
      exact absurd h (GoType.IntType_String_ne_pointer k tg s1)
  | .PointerType a, .IntType k tg, s, _, _, _, _, h, h' => by
      obtain ⟨s1, _, e⟩ := GoType.BaseIDString_pointer_ok a s h
      rw [GoType.BaseIDString, e] at h'
      exact absurd h' (GoType.IntType_String_ne_pointer k tg s1)
  | .PointerType a, .PointerType a', s, f, n, f', n', h, h' => by
      obtain ⟨s1, h1, e⟩ := GoType.BaseIDString_pointer_ok a s h
      obtain ⟨s2, h2, e'⟩ := GoType.BaseIDString_pointer_ok a' s h'
      have e12 : s1 = s2 := by
        have hd := congrArg String.data (e.symm.trans e')
        simp only [String.data_append, List.append_cancel_left_eq] at hd
        exact String.ext hd
      subst e12
      simp only [GoType.funcFree, GoType.noAlias] at f n f' n'
      simpa [GoType.Eq] using GoType.BaseIDString_inj_plain a a' s1 f n f' n' h1 h2
  | .AliasType _ _, _, _, _, n, _, _, _, _ => by simp [GoType.noAlias] at n
  | _, .AliasType _ _, _, _, _, _, n, _, _ => by simp [GoType.noAlias] at n
  | .FuncType _ _, _, _, f, _, _, _, _, _ => by simp [GoType.funcFree] at f
  | _, .FuncType _ _, _, _, _, f, _, _, _ => by simp [GoType.funcFree] at f

/-- The name of an integer kind starts with a letter other than `p` and `f`
and holds no dot. -/
theorem GoType.IntType_String_data (k : Nat) (tg : Target) (s : string)
    (h : (GoType.IntType k tg).String = .ok s) :
    ∃ c rest, s.data = c :: rest ∧ c ≠ 'p' ∧ c ≠ 'f' ∧ '.' ∉ s.data := by
  have hk := GoType.IntType_String_kind k tg s h
  interval_cases k <;>
    (simp only [GoType.String, BLTN_TY_UINT8, BLTN_TY_UINT16, BLTN_TY_UINT32, BLTN_TY_UINT64,
        BLTN_TY_INT8, BLTN_TY_INT16, BLTN_TY_INT32, BLTN_TY_INT64, BLTN_TY_INT,
        BLTN_TY_UINT] at h
     simp at h
     subst h
     exact ⟨_, _, rfl, by decide, by decide, by decide⟩)

/-- Two strings without a dot, each followed by nothing or by a dot and more,
are equal when the whole texts are, and so is what follows them. -/
theorem List.dotfree_split : ∀ (l1 l2 x y : List Char), '.' ∉ l1 → '.' ∉ l2 →
    (x = [] ∨ ∃ x', x = '.' :: x') → (y = [] ∨ ∃ y', y = '.' :: y') →
    l1 ++ x = l2 ++ y → l1 = l2 ∧ x = y
  | [], [], x, y, _, _, _, _, h => ⟨rfl, by simpa using h⟩
  | [], c :: l2, x, y, _, h2, hx, _, h => by
      simp only [List.nil_append, List.cons_append] at h
      rcases hx with rfl | ⟨x', rfl⟩
      · cases h
      · simp only [List.cons.injEq] at h
        exact absurd (by rw [← h.1]; simp) h2
  | c :: l1, [], x, y, h1, _, _, hy, h => by
      simp only [List.nil_append, List.cons_append] at h
      rcases hy with rfl | ⟨y', rfl⟩
      · cases h
      · simp only [List.cons.injEq] at h
        exact absurd (by rw [h.1]; simp) h1
  | c :: l1, d :: l2, x, y, h1, h2, hx, hy, h => by
      simp only [List.cons_append, List.cons.injEq] at h
      obtain ⟨e1, e2⟩ := List.dotfree_split l1 l2 x y
        (fun hm => h1 (by simp [hm])) (fun hm => h2 (by simp [hm])) hx hy h.2
      exact ⟨by rw [h.1, e1], e2⟩

/-- The joined parameter suffixes are empty or start with a dot. -/
theorem String_join_dots (ss : List string) :
    (String.join (ss.map (fun s => "." ++ s))).data = [] ∨
      ∃ x', (String.join (ss.map (fun s => "." ++ s))).data = '.' :: x' := by
  cases ss with
  | nil => exact .inl rfl
  | cons s ss =>
    refine .inr ⟨s.data ++ (String.join (ss.map (fun s => "." ++ s))).data, ?_⟩
    rw [List.map_cons, String_join_cons]
    simp only [String.data_append]
    rfl

/-- The identifier of a type made of integers and pointers ends where the
text after it is over or goes on with a dot: two such identifiers, each
followed by such a text, are equal when the whole texts are, and so is what
follows them. -/
theorem GoType.plain_id_split : ∀ (u v : GoType) (s t : string) (x y : List Char),
    u.funcFree = true → u.noAlias = true → v.funcFree = true → v.noAlias = true →
    u.BaseIDString = .ok s → v.BaseIDString = .ok t →
    (x = [] ∨ ∃ x', x = '.' :: x') → (y = [] ∨ ∃ y', y = '.' :: y') →
    s.data ++ x = t.data ++ y → s = t ∧ x = y
  | .IntType k tg, .IntType k' tg', s, t, x, y, _, _, _, _, h, h', hx, hy, e => by
      rw [GoType.BaseIDString] at h h'
      obtain ⟨_, _, _, _, _, hs⟩ := GoType.IntType_String_data k tg s h
      obtain ⟨_, _, _, _, _, ht⟩ := GoType.IntType_String_data k' tg' t h'
      obtain ⟨e1, e2⟩ := List.dotfree_split _ _ x y hs ht hx hy e
      exact ⟨String.ext e1, e2⟩
  | .IntType k tg, .PointerType a, s, t, x, y, _, _, _, _, h, h', hx, hy, e => by
      rw [GoType.BaseIDString] at h
      obtain ⟨c, rest, hc, hp, _, _⟩ := GoType.IntType_String_data k tg s h
      obtain ⟨t1, _, rfl⟩ := GoType.BaseIDString_pointer_ok a t h'
      rw [hc, String.data_append] at e
      have e' : c :: (rest ++ x) = 'p' :: ('.' :: (t1.data ++ y)) := e
      simp only [List.cons.injEq] at e'
      exact absurd e'.1 hp
  | .PointerType a, .IntType k tg, s, t, x, y, _, _, _, _, h, h', hx, hy, e => by
      rw [GoType.BaseIDString] at h'
      obtain ⟨c, rest, hc, hp, _, _⟩ := GoType.IntType_String_data k tg t h'
      obtain ⟨s1, _, rfl⟩ := GoType.BaseIDString_pointer_ok a s h
      rw [hc, String.data_append] at e
      have e' : 'p' :: ('.' :: (s1.data ++ x)) = c :: (rest ++ y) := e
      simp only [List.cons.injEq] at e'
      exact absurd e'.1.symm hp
  | .PointerType a, .PointerType a', s, t, x, y, f, n, f', n', h, h', hx, hy, e => by
      obtain ⟨s1, h1, rfl⟩ := GoType.BaseIDString_pointer_ok a s h
      obtain ⟨t1, h2, rfl⟩ := GoType.BaseIDString_pointer_ok a' t h'
      simp only [String.data_append] at e
      have e' : 'p' :: ('.' :: (s1.data ++ x)) = 'p' :: ('.' :: (t1.data ++ y)) := e
      simp only [List.cons.injEq, true_and] at e'
      simp only [GoType.funcFree, GoType.noAlias] at f n f' n'
      obtain ⟨e1, e2⟩ := GoType.plain_id_split a a' s1 t1 x y f n f' n' h1 h2 hx hy e'
      exact ⟨by rw [e1], e2⟩
  | .AliasType _ _, _, _, _, _, _, _, n, _, _, _, _, _, _, _ => by simp [GoType.noAlias] at n
  | _, .AliasType _ _, _, _, _, _, _, _, _, n, _, _, _, _, _ => by simp [GoType.noAlias] at n
  | .FuncType _ _, _, _, _, _, _, f, _, _, _, _, _, _, _, _ => by simp [GoType.funcFree] at f
  | _, .FuncType _ _, _, _, _, _, _, _, f, _, _, _, _, _, _ => by simp [GoType.funcFree] at f

/-- Parameter lists of integer and pointer types whose identifiers join to
the same text have the same length and are equal in order. -/
theorem GoType.params_ids_inj : ∀ (ps qs : List GoType) (ss ts : List string),
    ps.all GoType.funcFree = true → GoType.noAliasList ps = true →
    qs.all GoType.funcFree = true → GoType.noAliasList qs = true →
    List.Forall₂ (fun p s => GoType.BaseIDString p = .ok s) ps ss →
    List.Forall₂ (fun p s => GoType.BaseIDString p = .ok s) qs ts →
    (String.join (ss.map (fun s => "." ++ s))).data
      = (String.join (ts.map (fun s => "." ++ s))).data →
    ps.length = qs.length ∧ GoType.EqParams ps qs = .ok true
  | [], [], _, _, _, _, _, _, _, _, _ => ⟨rfl, rfl⟩
  | [], q :: qs, ss, ts, _, _, _, _, hs, ht, e => by
      cases hs
      cases ht with
      | cons hq hqs =>
        rename_i t ts'
        rw [List.map_cons, String_join_cons] at e
        simp only [String.data_append] at e
        exact absurd e (by
          show ([] : List Char) ≠ '.' :: (t.data ++ _)
          simp)
  | p :: ps, [], ss, ts, _, _, _, _, hs, ht, e => by
      cases ht
      cases hs with
      | cons hp hps =>
        rename_i s ss'
        rw [List.map_cons, String_join_cons] at e
        simp only [String.data_append] at e
        exact absurd e (by
          show '.' :: (s.data ++ _) ≠ ([] : List Char)
          simp)
  | p :: ps, q :: qs, ss, ts, fp, np, fq, nq, hs, ht, e => by
      cases hs with
      | cons hp hps =>
        cases ht with
        | cons hq hqs =>
          rename_i s ss' t ts'
          simp only [List.all_cons, Bool.and_eq_true] at fp fq
          simp only [GoType.noAliasList, Bool.and_eq_true] at np nq
          rw [List.map_cons, String_join_cons, List.map_cons, String_join_cons] at e
          simp only [String.data_append] at e
          have e' : '.' :: (s.data ++ (String.join (ss'.map (fun s => "." ++ s))).data)
              = '.' :: (t.data ++ (String.join (ts'.map (fun s => "." ++ s))).data) := e
          simp only [List.cons.injEq, true_and] at e'
          obtain ⟨e1, e2⟩ := GoType.plain_id_split p q s t _ _ fp.1 np.1 fq.1 nq.1 hp hq
            (String_join_dots ss') (String_join_dots ts') e'
          subst e1
          obtain ⟨l, ih⟩ := GoType.params_ids_inj ps qs ss' ts' fp.2 np.2 fq.2 nq.2 hps hqs e2
          refine ⟨by simp [l], ?_⟩
          rw [EqParams_cons_true_iff]
          exact ⟨GoType.BaseIDString_inj_plain p q s fp.1 np.1 fq.1 nq.1 hp hq, ih⟩

/-- When the loop over the parameters returns, every parameter had an
identifier and the result is the start text followed by a dot and the
identifier of each parameter. -/
theorem GoType.BaseIDStringParams_ok : ∀ (ps : List GoType) (str s : string),
    GoType.BaseIDStringParams ps str = .ok s →
    ∃ ss, List.Forall₂ (fun p s => GoType.BaseIDString p = .ok s) ps ss ∧
      s = str ++ String.join (ss.map (fun s => "." ++ s))
  | [], str, s, h => by
      simp only [GoType.BaseIDStringParams, Except.ok.injEq] at h
      exact ⟨[], .nil, by simp [String.join, ← h]⟩
  | p :: ps, str, s, h => by
      rw [GoType.BaseIDStringParams] at h
      cases hp : p.BaseIDString with
      | error e => simp [hp] at h
      | ok sp =>
        simp only [hp] at h
        obtain ⟨ss, hss, e⟩ := GoType.BaseIDStringParams_ok ps _ s h
        refine ⟨sp :: ss, .cons hp hss, ?_⟩
        rw [e, List.map_cons, String_join_cons]
        simp only [String.append_assoc]

/-- The identifier of a function type with a result, when there is one, is
made of the identifier of the result and those of the parameters. -/
theorem GoType.BaseIDString_func_ok (ps : List GoType) (r : GoType) (s : string)
    (h : (GoType.FuncType ps (some r)).BaseIDString = .ok s) :
    ∃ sr ss, r.BaseIDString = .ok sr ∧
      List.Forall₂ (fun p s => GoType.BaseIDString p = .ok s) ps ss ∧
      s.data = 'f' :: '.' :: 'r' :: '.' ::
        (sr.data ++ '.' :: 'p' :: (String.join (ss.map (fun s => "." ++ s))).data) := by
  rw [GoType.BaseIDString] at h
  cases hr : r.BaseIDString with
  | error e => simp [hr] at h
  | ok sr =>
    simp only [hr] at h
    obtain ⟨ss, hss, e⟩ := GoType.BaseIDStringParams_ok ps _ s h
    refine ⟨sr, ss, rfl, hss, ?_⟩
    rw [e]
    simp only [String.data_append, List.append_assoc]
    rfl

/-- On types without alias in which no function type stands inside a function
type and every function type has a result, the identifier determines the type
up to `Eq`. -/
theorem GoType.BaseIDString_inj_firstOrder : ∀ (u v : GoType) (s : string),
    u.firstOrder = true → u.noAlias = true → v.firstOrder = true → v.noAlias = true →
    u.BaseIDString = .ok s → v.BaseIDString = .ok s → u.Eq (some v) = .ok true
  | .IntType k tg, .IntType k' tg', s, _, _, _, _, h, h' => by
      rw [GoType.BaseIDString] at h h'
      have := GoType.IntType_String_inj k k' tg tg' s h h'
      simp [GoType.Eq, this]
  | .IntType k tg, .PointerType a, s, _, _, _, _, h, h' => by
      obtain ⟨s1, _, e⟩ := GoType.BaseIDString_pointer_ok a s h'
      rw [GoType.BaseIDString, e] at h
      exact absurd h (GoType.IntType_String_ne_pointer k tg s1)
  | .PointerType a, .IntType k tg, s, _, _, _, _, h, h' => by
      obtain ⟨s1, _, e⟩ := GoType.BaseIDString_pointer_ok a s h
      rw [GoType.BaseIDString, e] at h'
      exact absurd h' (GoType.IntType_String_ne_pointer k tg s1)
  | .PointerType a, .PointerType a', s, f, n, f', n', h, h' => by
      obtain ⟨s1, h1, e⟩ := GoType.BaseIDString_pointer_ok a s h
      obtain ⟨s2, h2, e'⟩ := GoType.BaseIDString_pointer_ok a' s h'
      have e12 : s1 = s2 := by
        have hd := congrArg String.data (e.symm.trans e')
        simp only [String.data_append, List.append_cancel_left_eq] at hd
        exact String.ext hd
      subst e12
      simp only [GoType.firstOrder, GoType.noAlias] at f n f' n'
      simpa [GoType.Eq] using GoType.BaseIDString_inj_firstOrder a a' s1 f n f' n' h1 h2
  | .IntType k tg, .FuncType ps (some r), s, _, _, _, _, h, h' => by
      rw [GoType.BaseIDString] at h
      obtain ⟨c, rest, hc, _, hf, _⟩ := GoType.IntType_String_data k tg s h
      obtain ⟨_, _, _, _, e⟩ := GoType.BaseIDString_func_ok ps r s h'
      rw [hc] at e
      simp only [List.cons.injEq] at e
      exact absurd e.1 hf
  | .FuncType ps (some r), .IntType k tg, s, _, _, _, _, h, h' => by
      rw [GoType.BaseIDString] at h'
      obtain ⟨c, rest, hc, _, hf, _⟩ := GoType.IntType_String_data k tg s h'
      obtain ⟨_, _, _, _, e⟩ := GoType.BaseIDString_func_ok ps r s h
      rw [hc] at e
      simp only [List.cons.injEq] at e
      exact absurd e.1 hf
  | .PointerType a, .FuncType ps (some r), s, _, _, _, _, h, h' => by
      obtain ⟨s1, _, e1⟩ := GoType.BaseIDString_pointer_ok a s h
      obtain ⟨_, _, _, _, e⟩ := GoType.BaseIDString_func_ok ps r s h'
      rw [e1, String.data_append] at e
      have e' : 'p' :: ('.' :: s1.data) = 'f' :: _ := e
      simp only [List.cons.injEq] at e'
      exact absurd e'.1 (by decide)
  | .FuncType ps (some r), .PointerType a, s, _, _, _, _, h, h' => by
      obtain ⟨s1, _, e1⟩ := GoType.BaseIDString_pointer_ok a s h'
      obtain ⟨_, _, _, _, e⟩ := GoType.BaseIDString_func_ok ps r s h
      rw [e1, String.data_append] at e
      have e' : 'p' :: ('.' :: s1.data) = 'f' :: _ := e
      simp only [List.cons.injEq] at e'
      exact absurd e'.1 (by decide)
  | .FuncType ps (some r), .FuncType qs (some r'), s, f, n, f', n', h, h' => by
      obtain ⟨sr, ss, hr, hss, e⟩ := GoType.BaseIDString_func_ok ps r s h
      obtain ⟨tr, ts, hr', hts, e'⟩ := GoType.BaseIDString_func_ok qs r' s h'
      simp only [GoType.firstOrder, GoType.noAlias, Bool.and_eq_true] at f n f' n'
      rw [e] at e'
      simp only [List.cons.injEq, true_and] at e'
      obtain ⟨e1, e2⟩ := GoType.plain_id_split r r' sr tr _ _ f.2 n.2 f'.2 n'.2 hr hr'
        (.inr ⟨_, rfl⟩) (.inr ⟨_, rfl⟩) e'
      subst e1
      simp only [List.cons.injEq, true_and] at e2
      obtain ⟨l, hp⟩ := GoType.params_ids_inj ps qs ss ts f.1 n.1 f'.1 n'.1 hss hts e2
      rw [Eq_FuncType_true_iff]
      exact ⟨l, hp, GoType.BaseIDString_inj_plain r r' sr f.2 n.2 f'.2 n'.2 hr hr'⟩
  | .AliasType _ _, _, _, _, n, _, _, _, _ => by simp [GoType.noAlias] at n
  | _, .AliasType _ _, _, _, _, _, n, _, _ => by simp [GoType.noAlias] at n
  | .FuncType _ none, _, _, f, _, _, _, _, _ => by simp [GoType.firstOrder] at f
  | _, .FuncType _ none, _, _, _, f, _, _, _ => by simp [GoType.firstOrder] at f

/-- A type in which every function type has a result and holds no function
type has a result in each of its function types. -/
theorem GoType.hasResultsList_of_funcFree : ∀ (ps : List GoType),
    ps.all GoType.funcFree = true → GoType.hasResultsList ps = true
  | [], _ => rfl
  | p :: ps, h => by
      simp only [List.all_cons, Bool.and_eq_true] at h
      simp [GoType.hasResultsList, GoType.hasResults_of_funcFree p h.1,
        GoType.hasResultsList_of_funcFree ps h.2]

/-- Every function type of a first-order type has a result. -/
theorem GoType.hasResults_of_firstOrder : ∀ (t : GoType), t.firstOrder = true →
    t.hasResults = true
  | .IntType _ _, _ => rfl
  | .AliasType _ al, h => by
      simp only [GoType.firstOrder] at h
      simpa [GoType.hasResults] using GoType.hasResults_of_firstOrder al h
  | .PointerType a, h => by
      simp only [GoType.firstOrder] at h
      simpa [GoType.hasResults] using GoType.hasResults_of_firstOrder a h
  | .FuncType _ none, h => by simp [GoType.firstOrder] at h
  | .FuncType ps (some r), h => by
      simp only [GoType.firstOrder, Bool.and_eq_true] at h
      simp [GoType.hasResults, GoType.hasResultsList_of_funcFree ps h.1,
        GoType.hasResults_of_funcFree r h.2]

/-- Replacing the aliases in a list of types without function types leaves
them without function types. -/
theorem GoType.funcFree_stripAliasesList : ∀ (ps : List GoType),
    ps.all GoType.funcFree = true → (GoType.stripAliasesList ps).all GoType.funcFree = true
  | [], _ => rfl
  | p :: ps, h => by
      simp only [List.all_cons, Bool.and_eq_true] at h
      simp [GoType.stripAliasesList, GoType.funcFree_stripAliases p h.1,
        GoType.funcFree_stripAliasesList ps h.2]

/-- Replacing the aliases of a first-order type leaves it first-order. -/
theorem GoType.firstOrder_stripAliases : ∀ (t : GoType), t.firstOrder = true →
    t.stripAliases.firstOrder = true
  | .IntType _ _, _ => rfl
  | .AliasType _ al, h => by
      simp only [GoType.firstOrder] at h
      simpa [GoType.stripAliases] using GoType.firstOrder_stripAliases al h
  | .PointerType a, h => by
      simp only [GoType.firstOrder] at h
      simpa [GoType.stripAliases, GoType.firstOrder] using GoType.firstOrder_stripAliases a h
  | .FuncType _ none, h => by simp [GoType.firstOrder] at h
  | .FuncType ps (some r), h => by
      simp only [GoType.firstOrder, Bool.and_eq_true] at h
      simp [GoType.stripAliases, GoType.firstOrder, GoType.funcFree_stripAliasesList ps h.1,
        GoType.funcFree_stripAliases r h.2]

/-- The loop over parameters without function types gives the same text for
the parameters with their aliases replaced. -/
theorem GoType.BaseIDStringParams_stripAliasesList : ∀ (ps : List GoType) (str : string),
    ps.all GoType.funcFree = true →
    GoType.BaseIDStringParams ps str = GoType.BaseIDStringParams (GoType.stripAliasesList ps) str
  | [], str, _ => by simp [GoType.stripAliasesList]
  | p :: ps, str, h => by
      simp only [List.all_cons, Bool.and_eq_true] at h
      simp only [GoType.stripAliasesList]
      rw [GoType.BaseIDStringParams, GoType.BaseIDStringParams,
        GoType.BaseIDString_stripAliases p h.1]
      cases (GoType.stripAliases p).BaseIDString with
      | error e => rfl
      | ok s => exact GoType.BaseIDStringParams_stripAliasesList ps _ h.2

/-- The identifier of a first-order type is that of the type with its aliases
replaced. -/
theorem GoType.BaseIDString_stripAliases_firstOrder : ∀ (t : GoType), t.firstOrder = true →
    t.BaseIDString = t.stripAliases.BaseIDString
  | .IntType _ _, _ => rfl
  | .AliasType _ al, h => by
      simp only [GoType.firstOrder] at h
      have hb := GoType.Base_eq_stripAliases al (GoType.hasResults_of_firstOrder al h)
      rw [GoType.BaseIDString]
      split
      · rename_i e he
        rw [hb] at he
        cases he
      · rename_i b he
        rw [hb] at he
        cases he
        rfl
  | .PointerType a, h => by
      simp only [GoType.firstOrder] at h
      simp only [GoType.stripAliases]
      rw [GoType.BaseIDString, GoType.BaseIDString,
        GoType.BaseIDString_stripAliases_firstOrder a h]
  | .FuncType _ none, h => by simp [GoType.firstOrder] at h
  | .FuncType ps (some r), h => by
      simp only [GoType.firstOrder, Bool.and_eq_true] at h
      simp only [GoType.stripAliases]
      rw [GoType.BaseIDString, GoType.BaseIDString, GoType.BaseIDString_stripAliases r h.2]
      cases (GoType.stripAliases r).BaseIDString with
      | error e => rfl
      | ok s => exact GoType.BaseIDStringParams_stripAliasesList ps _ h.1

/-- A function type among the parameters of a function type makes identifiers
collide as one in the result does: `func(func(uint8) int8, int16) int8` and
`func(func(uint8, int16) int8) int8` have the same identifier and are not
equal. -/
theorem BaseIDString_collision_in_parameters :
    ty_collide_c.BaseIDString = .ok "f.r.int8.p.f.r.int8.p.uint8.int16" ∧
    ty_collide_d.BaseIDString = .ok "f.r.int8.p.f.r.int8.p.uint8.int16" ∧
    ty_collide_c.Eq (some ty_collide_d) = .ok false := by
  refine ⟨?_, ?_, rfl⟩
  · simp [ty_collide_c, ty_int16, ty_uint8, ty_int8, GoType.BaseIDString,
      GoType.BaseIDStringParams, GoType.String, BLTN_TY_UINT8, BLTN_TY_UINT16, BLTN_TY_UINT32,
      BLTN_TY_UINT64, BLTN_TY_INT8, BLTN_TY_INT16, BLTN_TY_INT32, BLTN_TY_INT64]
  · simp [ty_collide_d, ty_int16, ty_uint8, ty_int8, GoType.BaseIDString,
      GoType.BaseIDStringParams, GoType.String, BLTN_TY_UINT8, BLTN_TY_UINT16, BLTN_TY_UINT32,
      BLTN_TY_UINT64, BLTN_TY_INT8, BLTN_TY_INT16, BLTN_TY_INT32, BLTN_TY_INT64]

/-- The binding that `lookupVarAt` finds is the one `lookupVar` returns. -/
theorem Scope.lookupVarAt_snd {V : Type} (σ : Store V) (x : string) :
    ∀ s : Scope, (Scope.lookupVarAt σ s x).map Prod.snd = Scope.lookupVar σ s x
  | .nil => rfl
  | .mk t v p => by
      cases hv : σ.values v x with
      | none => simp [Scope.lookupVarAt, Scope.lookupVar, hv, Scope.lookupVarAt_snd σ x p]
      | some b => simp [Scope.lookupVarAt, Scope.lookupVar, hv]

/-- The place that `lookupVarAt` returns is a map on the chain of the scope,
and holds the binding. -/
theorem Scope.lookupVarAt_spec {V : Type} (σ : Store V) (x : string) :
    ∀ (s : Scope) (a : Nat) (b : BoundVar V), Scope.lookupVarAt σ s x = some (a, b) →
      a ∈ s.chain ∧ σ.values a x = some b
  | .nil, a, b, h => by simp [Scope.lookupVarAt] at h
  | .mk t v p, a, b, h => by
      cases hv : σ.values v x with
      | none =>
        simp only [Scope.lookupVarAt, hv] at h
        have ih := Scope.lookupVarAt_spec σ x p a b h
        exact ⟨by simp [Scope.chain, ih.1], ih.2⟩
      | some b' =>
        simp only [Scope.lookupVarAt, hv, Option.some.injEq, Prod.mk.injEq] at h
        obtain ⟨rfl, rfl⟩ := h
        exact ⟨by simp [Scope.chain], hv⟩

/-- Where `lookupVar` finds a binding, `lookupVarAt` finds it with its place;
where `lookupVar` finds none, so does `lookupVarAt`. -/
theorem Scope.lookupVarAt_of_lookupVar {V : Type} (σ : Store V) (x : string) (s : Scope) :
    (∀ b, Scope.lookupVar σ s x = some b → ∃ place, Scope.lookupVarAt σ s x = some (place, b)) ∧
    (Scope.lookupVar σ s x = none → Scope.lookupVarAt σ s x = none) := by
  have h1 := Scope.lookupVarAt_snd σ x s
  constructor
  · intro b hb
    rw [hb] at h1
    cases h2 : Scope.lookupVarAt σ s x with
    | none => simp [h2] at h1
    | some q =>
      obtain ⟨place, b'⟩ := q
      simp only [h2, Option.map_some', Option.some.injEq] at h1
      subst h1
      exact ⟨place, rfl⟩
  · intro hb
    rw [hb] at h1
    cases h2 : Scope.lookupVarAt σ s x with
    | none => rfl
    | some q => simp [h2] at h1

/-- The common body of the typed `RValue` methods returns a value or a
diagnostic, never neither. -/
theorem typedRValue_ne_nil (v : TypedValue) (ty : GoType) (E : Option GoType) :
    typedRValue v ty E ≠ .ok (none, none) := by
  unfold typedRValue
  cases E with
  | none => simp
  | some E =>
    simp only
    cases h : E.Eq (some ty) with
    | error e => simp
    | ok b =>
      cases b with
      | true => simp
      | false =>
        simp only
        cases TypeMismatchDiag E ty <;> simp

/-- No `RValue` method returns a nil value without a diagnostic. -/
theorem UntypedValue.RValue_ne_nil (f : TypeFactory) :
    ∀ (v : UntypedValue) (E : Option GoType), v.RValue f E ≠ .ok (none, none)
  | .ConstInt lit, E => by
      simp only [UntypedValue.RValue, ConstInt.RValue]
      cases E with
      | none => simp
      | some ty =>
        cases ty with
        | IntType k t => simp
        | AliasType id al => simp only []; cases (GoType.AliasType id al).String <;> simp
        | PointerType a => simp only []; cases (GoType.PointerType a).String <;> simp
        | FuncType ps r => simp only []; cases (GoType.FuncType ps r).String <;> simp
  | .Typed v, E => by
      cases v <;>
        simp [UntypedValue.RValue, TypedValue.RValue, TypedConstInt.RValue, FuncValue.RValue,
          ConstString.RValue, Pointer.RValue, typedRValue_ne_nil]
  | .BoundVar _ _ val, E => by
      have ih := UntypedValue.RValue_ne_nil f val E
      simp only [UntypedValue.RValue]
      cases h : UntypedValue.RValue f val E with
      | error e => simp
      | ok p =>
        obtain ⟨t, d⟩ := p
        cases d with
        | some d => simp
        | none =>
          cases t with
          | none => exact absurd h ih
          | some t => simp

/-- A string literal is translated without a change of the scopes. -/
theorem Block.translateStringLit_store (g : Globals) (block : Block) (lit : string)
    (st st' : TransState) (v : TypedValue)
    (h : block.translateStringLit g lit st = .ok (v, st')) :
    st'.store = st.store ∧ ∃ c, v = .ConstString c := by
  unfold Block.translateStringLit at h
  split at h
  · cases h
  · simp only at h
    split at h
    · cases h
    · split at h
      · cases h
      · split at h
        · cases h
        · simp only [Except.ok.injEq, Prod.mk.injEq] at h
          obtain ⟨rfl, rfl⟩ := h
          exact ⟨rfl, _, rfl⟩

/-- A literal is translated without a change of the scopes, and to no
function value. -/
theorem Block.translateBasicLit_store (g : Globals) (block : Block) (p : Nat) (kind : Token)
    (value : string) (st st' : TransState) (r : Except GoDiag UntypedValue)
    (h : block.translateBasicLit g p kind value st = .ok (r, st')) :
    st'.store = st.store ∧ ∀ fv, r ≠ .ok (.Typed (.FuncValue fv)) := by
  unfold Block.translateBasicLit at h
  split at h
  · cases hs : block.translateStringLit g value st with
    | error e => simp [hs] at h
    | ok q =>
      obtain ⟨v, st1⟩ := q
      simp only [hs, Except.ok.injEq, Prod.mk.injEq] at h
      obtain ⟨rfl, rfl⟩ := h
      obtain ⟨e1, c, rfl⟩ := Block.translateStringLit_store g block value st st1 v hs
      exact ⟨e1, by simp⟩
  · split at h
    · cases h
    · simp only [Except.ok.injEq, Prod.mk.injEq] at h
      obtain ⟨rfl, rfl⟩ := h
      exact ⟨rfl, by simp⟩
    · simp only [Except.ok.injEq, Prod.mk.injEq] at h
      obtain ⟨rfl, rfl⟩ := h
      exact ⟨rfl, by simp⟩
  · simp only [Except.ok.injEq, Prod.mk.injEq] at h
    obtain ⟨rfl, rfl⟩ := h
    exact ⟨rfl, by simp⟩

/-- No expression translates to a `*FuncValue`: an identifier gives its
`*BoundVar`, a literal a constant, and a call needs a callee that does. -/
theorem Block.translateExprRHS_ne_FuncValue (g : Globals) (block : Block) :
    ∀ (e : Expr) (st st' : TransState) (fv : FuncValue),
      block.translateExprRHS g e st ≠ .ok (.ok (.Typed (.FuncValue fv)), st')
  | .CallExpr f lp args rp, st, st', fv => by
      have ih := Block.translateExprRHS_ne_FuncValue g block f st
      rw [Block.translateExprRHS]
      split
      · simp
      · simp
      · rename_i fv1 st1 hf
        exact absurd hf (ih st1 fv1)
      · simp
  | .Ident p name, st, st', fv => by
      rw [Block.translateExprRHS]
      split <;> simp [BoundVar.toValue]
  | .BasicLit p kind value, st, st', fv => by
      rw [Block.translateExprRHS]
      intro h
      exact (Block.translateBasicLit_store g block p kind value st st' _ h).2 fv rfl
  | .StarExpr _ _, st, st', fv => by
      simp [Block.translateExprRHS]
  | .Other _ _ _, st, st', fv => by
      simp [Block.translateExprRHS]

/-- A call expression never translates to a value: its callee is no
`*FuncValue`. -/
theorem Block.translateExprRHS_call (g : Globals) (block : Block) (f : Expr) (lp rp : Nat)
    (args : List Expr) (st : TransState) :
    (∃ e, block.translateExprRHS g f st = .error e ∧
      block.translateExprRHS g (.CallExpr f lp args rp) st = .error e) ∨
    (∃ diag st1, block.translateExprRHS g f st = .ok (.error diag, st1) ∧
      block.translateExprRHS g (.CallExpr f lp args rp) st = .ok (.error diag, st1)) ∨
    (∃ v st1, block.translateExprRHS g f st = .ok (.ok v, st1) ∧
      block.translateExprRHS g (.CallExpr f lp args rp) st
        = .ok (.error (DiagFromAST f "Given expression not a function!"), st1)) := by
  have ih := Block.translateExprRHS_ne_FuncValue g block f st
  rw [Block.translateExprRHS]
  split
  · rename_i e hf
    exact .inl ⟨e, hf, rfl⟩
  · rename_i diag st1 hf
    exact .inr (.inl ⟨diag, st1, hf, rfl⟩)
  · rename_i fv1 st1 hf
    exact absurd hf (ih st1 fv1)
  · rename_i v st1 hne hf
    exact .inr (.inr ⟨v, st1, hf, rfl⟩)

/-- An expression is translated without a change of the scopes. -/
theorem Block.translateExprRHS_store (g : Globals) (block : Block) :
    ∀ (e : Expr) (st st' : TransState) (r : Except GoDiag UntypedValue),
      block.translateExprRHS g e st = .ok (r, st') → st'.store = st.store
  | .CallExpr f lp args rp, st, st', r, h => by
      rcases Block.translateExprRHS_call g block f lp rp args st with
        ⟨e, _, h2⟩ | ⟨diag, st1, h1, h2⟩ | ⟨v, st1, h1, h2⟩
      · rw [h2] at h
        cases h
      · rw [h2] at h
        simp only [Except.ok.injEq, Prod.mk.injEq] at h
        rw [← h.2]
        exact Block.translateExprRHS_store g block f st st1 _ h1
      · rw [h2] at h
        simp only [Except.ok.injEq, Prod.mk.injEq] at h
        rw [← h.2]
        exact Block.translateExprRHS_store g block f st st1 _ h1
  | .Ident p name, st, st', r, h => by
      rw [Block.translateExprRHS] at h
      split at h <;>
        (simp only [Except.ok.injEq, Prod.mk.injEq] at h; rw [← h.2])
  | .BasicLit p kind value, st, st', r, h => by
      rw [Block.translateExprRHS] at h
      exact (Block.translateBasicLit_store g block p kind value st st' _ h).1
  | .StarExpr _ _, st, st', r, h => by
      simp only [Block.translateExprRHS, Except.ok.injEq, Prod.mk.injEq] at h
      rw [← h.2]
  | .Other _ _ _, st, st', r, h => by
      simp only [Block.translateExprRHS, Except.ok.injEq, Prod.mk.injEq] at h
      rw [← h.2]

/-- Every store agrees with itself. -/
theorem Store.sameOutside_refl {V : Type} (own : Nat) (σ : Store V) :
    Store.sameOutside own σ σ := ⟨rfl, rfl, fun _ _ => rfl⟩

/-- Agreement outside a value map goes through an intermediate store. -/
theorem Store.sameOutside_trans {V : Type} (own : Nat) (σ1 σ2 σ3 : Store V)
    (h12 : Store.sameOutside own σ1 σ2) (h23 : Store.sameOutside own σ2 σ3) :
    Store.sameOutside own σ1 σ3 :=
  ⟨h23.1.trans h12.1, h23.2.1.trans h12.2.1, fun a ha => (h23.2.2 a ha).trans (h12.2.2 a ha)⟩

/-- A call of `addValue` writes to the value map of its receiver only. -/
theorem Scope.addValue_frame {V : Type} (σ σ' : Store V) (t v : Nat) (p : Scope) (x : string)
    (val : V) (b : Bool) (h : Scope.addValue σ (.mk t v p) x val = .ok (b, σ')) :
    Store.sameOutside v σ σ' := by
  unfold Scope.addValue at h
  split at h
  · simp only [Except.ok.injEq, Prod.mk.injEq] at h
    obtain ⟨_, rfl⟩ := h
    exact ⟨rfl, rfl, fun a ha => by simp [Function.update, ha]⟩
  · simp only [Except.ok.injEq, Prod.mk.injEq] at h
    obtain ⟨_, rfl⟩ := h
    exact Store.sameOutside_refl v σ

/-- The loop over the names of a `var` declaration writes to the value map of
the block's own scope only. -/
theorem translateVarDeclNames_frame (g : Globals) (block : Block) (valueSpec : ValueSpec)
    (ty : GoType) (t own : Nat) (p : Scope) (hs : block.Scope = .mk t own p) :
    ∀ (names : List IdentNode) (idx : Nat) (st st' : TransState) (d : Option GoDiag),
      block.translateVarDeclNames g valueSpec ty names idx st = .ok (d, st') →
      Store.sameOutside own st.store st'.store
  | [], idx, st, st', d, h => by
      simp only [Block.translateVarDeclNames, Except.ok.injEq, Prod.mk.injEq] at h
      rw [← h.2]
      exact Store.sameOutside_refl own _
  | name :: rest, idx, st, st', d, h => by
      rw [Block.translateVarDeclNames] at h
      split at h
      · simp only [Except.ok.injEq, Prod.mk.injEq] at h
        rw [← h.2]
        exact Store.sameOutside_refl own _
      · split at h
        · split at h
          · cases h
          · rename_i rValue hz
            split at h
            · cases h
            · rename_i b store' ha
              rw [hs] at ha
              have h1 := Scope.addValue_frame _ _ t own p _ _ _ ha
              have h2 := translateVarDeclNames_frame g block valueSpec ty t own p hs
                rest (idx + 1) _ st' d h
              exact Store.sameOutside_trans own _ _ _ h1 h2
        · split at h
          · cases h
          · rename_i rExpr hr
            split at h
            · cases h
            · rename_i diag st1 he
              simp only [Except.ok.injEq, Prod.mk.injEq] at h
              rw [← h.2]
              have := Block.translateExprRHS_store g block rExpr st st1 _ he
              rw [this]
              exact Store.sameOutside_refl own _
            · rename_i rValue st1 he
              have hst := Block.translateExprRHS_store g block rExpr st st1 _ he
              split at h
              · cases h
              · split at h
                · cases h
                · split at h
                  · cases h
                  · split at h
                    · cases h
                    · simp only [Except.ok.injEq, Prod.mk.injEq] at h
                      rw [← h.2, hst]
                      exact Store.sameOutside_refl own _

/-- A `var` declaration writes to the value map of the block's own scope
only. -/
theorem translateVarDecl_frame (g : Globals) (block : Block) (gen : GenDecl)
    (t own : Nat) (p : Scope) (hs : block.Scope = .mk t own p) (st st' : TransState)
    (d : Option GoDiag) (h : block.translateVarDecl g gen st = .ok (d, st')) :
    Store.sameOutside own st.store st'.store := by
  unfold Block.translateVarDecl at h
  split at h
  · cases h
  · split at h
    · cases h
    · split at h
      · cases h
      · split at h
        · simp only [Except.ok.injEq, Prod.mk.injEq] at h
          rw [← h.2]
          exact Store.sameOutside_refl own _
        · split at h
          · simp only [Except.ok.injEq, Prod.mk.injEq] at h
            rw [← h.2]
            exact Store.sameOutside_refl own _
          · split at h
            · simp only [Except.ok.injEq, Prod.mk.injEq] at h
              rw [← h.2]
              exact Store.sameOutside_refl own _
            · split at h
              · simp only [Except.ok.injEq, Prod.mk.injEq] at h
                rw [← h.2]
                exact Store.sameOutside_refl own _
              · exact translateVarDeclNames_frame g block _ _ t own p hs _ _ _ _ _ h

/-- An assignment through a `*BoundVar` changes no map of a scope. -/
theorem Assignable.BuildAssign_store (v : Assignable) (val : TypedValue)
    (st st' : TransState) (d : Option GoDiag)
    (h : v.BuildAssign val st = .ok (d, st')) : st'.store = st.store := by
  unfold Assignable.BuildAssign at h
  split at h
  · cases h
  · split at h
    · cases h
    · simp only [Except.ok.injEq, Prod.mk.injEq] at h
      rw [← h.2]

/-- A typed expression is translated without a change of the scopes. -/
theorem Block.translateExprRHSTyped_store (g : Globals) (block : Block) (expr : Expr)
    (E : Option GoType) (st st' : TransState) (r : Except GoDiag (Option TypedValue))
    (h : block.translateExprRHSTyped g expr E st = .ok (r, st')) : st'.store = st.store := by
  unfold Block.translateExprRHSTyped at h
  split at h
  · cases h
  · rename_i diag st1 he
    simp only [Except.ok.injEq, Prod.mk.injEq] at h
    rw [← h.2]
    exact Block.translateExprRHS_store g block expr st st1 _ he
  · rename_i untyped st1 he
    have hst := Block.translateExprRHS_store g block expr st st1 _ he
    split at h
    · cases h
    · simp only [Except.ok.injEq, Prod.mk.injEq] at h
      rw [← h.2]
      exact hst
    · simp only [Except.ok.injEq, Prod.mk.injEq] at h
      rw [← h.2]
      exact hst

/-- Read as `translateExprRHSTyped(rExpr, nil)`, the call of line 293 changes
no map of a scope. -/
theorem translateExprRHSTypedNil_store (g : Globals) (block : Block) (e : Expr)
    (st : TransState) (r : Except GoDiag TypedValue) (st' : TransState)
    (h : translateExprRHSTypedNil g block e st = .ok (r, st')) : st'.store = st.store := by
  unfold translateExprRHSTypedNil at h
  split at h
  · cases h
  · rename_i diag st1 he
    simp only [Except.ok.injEq, Prod.mk.injEq] at h
    rw [← h.2]
    exact Block.translateExprRHSTyped_store g block e none st st1 _ he
  · cases h
  · rename_i typed st1 he
    simp only [Except.ok.injEq, Prod.mk.injEq] at h
    rw [← h.2]
    exact Block.translateExprRHSTyped_store g block e none st st1 _ he

/-- A return statement is translated without a change of the scopes. -/
theorem Block.translateReturn_store (g : Globals) (block : Block) (ret : Nat)
    (results : List Expr) (st st' : TransState) (d : Option GoDiag)
    (h : block.translateReturn g ret results st = .ok (d, st')) : st'.store = st.store := by
  unfold Block.translateReturn at h
  split at h
  · split at h <;>
      (simp only [Except.ok.injEq, Prod.mk.injEq] at h; rw [← h.2])
  · split at h
    · simp only [Except.ok.injEq, Prod.mk.injEq] at h
      rw [← h.2]
    · split at h
      · cases h
      · rename_i diag st1 he
        simp only [Except.ok.injEq, Prod.mk.injEq] at h
        rw [← h.2]
        exact Block.translateExprRHSTyped_store g block _ _ st st1 _ he
      · cases h
      · rename_i result st1 he
        have hst := Block.translateExprRHSTyped_store g block _ _ st st1 _ he
        split at h
        · cases h
        · simp only [Except.ok.injEq, Prod.mk.injEq] at h
          rw [← h.2]
          exact hst

/-- The loop of an assignment statement changes no map of a scope, whatever
the call of line 293 is, as long as that call changes none. -/
theorem Block.translateAssignLoop_store (rhs : AssignRhs)
    (hrhs : ∀ block e st r st', rhs block e st = .ok (r, st') → st'.store = st.store)
    (block : Block) (Rhs : List Expr) :
    ∀ (Lhs : List Expr) (idx : Nat) (st st' : TransState) (d : Option GoDiag),
      block.translateAssignLoop rhs Rhs Lhs idx st = .ok (d, st') → st'.store = st.store
  | [], idx, st, st', d, h => by
      simp only [Block.translateAssignLoop, Except.ok.injEq, Prod.mk.injEq] at h
      rw [← h.2]
  | lExpr :: rest, idx, st, st', d, h => by
      rw [Block.translateAssignLoop] at h
      split at h
      · cases h
      · simp only [Except.ok.injEq, Prod.mk.injEq] at h
        rw [← h.2]
      · split at h
        · cases h
        · rename_i rExpr hr
          split at h
          · cases h
          · rename_i diag st1 he
            simp only [Except.ok.injEq, Prod.mk.injEq] at h
            rw [← h.2]
            exact hrhs _ _ _ _ _ he
          · rename_i rValue st1 he
            have hst := hrhs _ _ _ _ _ he
            split at h
            · cases h
            · rename_i diag st2 hb
              simp only [Except.ok.injEq, Prod.mk.injEq] at h
              rw [← h.2, Assignable.BuildAssign_store _ _ _ _ _ hb, hst]
            · rename_i st2 hb
              rw [Block.translateAssignLoop_store rhs hrhs block Rhs rest (idx + 1) st2 st' d h,
                Assignable.BuildAssign_store _ _ _ _ _ hb, hst]

/-- A statement of a function body writes to the value map of the block's own
scope only. -/
theorem translateStatement_frame (g : Globals) (rhs : AssignRhs)
    (hrhs : ∀ block e st r st', rhs block e st = .ok (r, st') → st'.store = st.store)
    (block : Block) (t own : Nat) (p : Scope)
    (hs : block.Scope = .mk t own p) (statement : Stmt) (st st' : TransState)
    (d : Option GoDiag) (h : block.translateStatement g rhs statement st = .ok (d, st')) :
    Store.sameOutside own st.store st'.store := by
  have same : st'.store = st.store → Store.sameOutside own st.store st'.store := by
    intro e
    rw [e]
    exact Store.sameOutside_refl own _
  cases statement with
  | ExprStmt x =>
    simp only [Block.translateStatement] at h
    split at h
    · cases h
    · rename_i diag st1 he
      simp only [Except.ok.injEq, Prod.mk.injEq] at h
      exact same (by rw [← h.2]; exact Block.translateExprRHS_store g block x st st1 _ he)
    · rename_i v st1 he
      simp only [Except.ok.injEq, Prod.mk.injEq] at h
      exact same (by rw [← h.2]; exact Block.translateExprRHS_store g block x st st1 _ he)
  | ReturnStmt ret results =>
    simp only [Block.translateStatement] at h
    exact same (Block.translateReturn_store g block ret results st st' d h)
  | DeclStmt decl =>
    simp only [Block.translateStatement, Block.translateDecl] at h
    cases decl with
    | GenDecl gen rparen =>
      simp only [Block.translateGenDecl] at h
      split at h
      · exact translateVarDecl_frame g block gen t own p hs st st' d h
      · exact translateVarDecl_frame g block gen t own p hs st st' d h
      · simp only [Except.ok.injEq, Prod.mk.injEq] at h
        rw [← h.2]
        exact Store.sameOutside_refl own _
    | Other typeName pos end_ =>
      simp only [Except.ok.injEq, Prod.mk.injEq] at h
      exact same (by rw [← h.2])
  | AssignStmt lhs tokPos rhsExprs =>
    simp only [Block.translateStatement, Block.translateAssign] at h
    split at h
    · simp only [Except.ok.injEq, Prod.mk.injEq] at h
      rw [← h.2]
      exact Store.sameOutside_refl own _
    · exact same (Block.translateAssignLoop_store rhs hrhs block rhsExprs lhs 0 st st' d h)
  | Other typeName pos end_ =>
    simp only [Block.translateStatement, Except.ok.injEq, Prod.mk.injEq] at h
    exact same (by rw [← h.2])

/-- The statements of a function body write to the value map of the block's
own scope only. -/
theorem translateStatements_frame (g : Globals) (rhs : AssignRhs)
    (hrhs : ∀ block e st r st', rhs block e st = .ok (r, st') → st'.store = st.store)
    (block : Block) (t own : Nat) (p : Scope) (hs : block.Scope = .mk t own p) :
    ∀ (body : List Stmt) (st st' : TransState) (d : Option GoDiag),
      block.translateStatements g rhs body st = .ok (d, st') →
      Store.sameOutside own st.store st'.store
  | [], st, st', d, h => by
      simp only [Block.translateStatements, Except.ok.injEq, Prod.mk.injEq] at h
      rw [← h.2]
      exact Store.sameOutside_refl own _
  | s :: rest, st, st', d, h => by
      rw [Block.translateStatements] at h
      split at h
      · cases h
      · rename_i diag st1 he
        simp only [Except.ok.injEq, Prod.mk.injEq] at h
        rw [← h.2]
        exact translateStatement_frame g rhs hrhs block t own p hs s st st1 _ he
      · rename_i st1 he
        exact Store.sameOutside_trans own _ _ _
          (translateStatement_frame g rhs hrhs block t own p hs s st st1 _ he)
          (translateStatements_frame g rhs hrhs block t own p hs rest st1 st' d h)

/-- In the block made for a function, a lookup from the new scope finds what
the same lookup from the top-level scope found before: the new maps are
empty. -/
theorem CreateBlockForFunction_lookupVar (trans : Translator) (llvmFunc : LLValue)
    (fnTy : FuncTy) (st : TransState) (ha : trans.Scope.allocatedBelow st.store.next = true)
    (x : string) :
    Scope.lookupVar (trans.CreateBlockForFunction llvmFunc fnTy st).2.store
        (trans.CreateBlockForFunction llvmFunc fnTy st).1.Scope x
      = Scope.lookupVar st.store trans.Scope x := by
  have hlt := (Scope.chain_lt_of_allocatedBelow _ _ ha).1
  simp only [Translator.CreateBlockForFunction, Scope.createChild, Scope.lookupVar,
    Function.update_same, GoMap.empty]
  apply Scope.lookupVar_congr
  intro a hmem
  have := hlt a hmem
  simp [Function.update, Nat.ne_of_lt this]

/-- A function declaration leaves the maps allocated before it as they were,
whatever its body holds. -/
theorem translateFuncDecl_frame (g : Globals) (rhs : AssignRhs)
    (hrhs : ∀ block e st r st', rhs block e st = .ok (r, st') → st'.store = st.store)
    (trans : Translator) (decl : FuncDecl) (st st' : TransState) (d : Option GoDiag)
    (h : trans.translateFuncDecl g rhs decl st = .ok (d, st')) :
    st.store.next ≤ st'.store.next ∧
    (∀ a, a < st.store.next → st'.store.types a = st.store.types a) ∧
    (∀ a, a < st.store.next → st'.store.values a = st.store.values a) := by
  have same : st' = st → st.store.next ≤ st'.store.next ∧
      (∀ a, a < st.store.next → st'.store.types a = st.store.types a) ∧
      (∀ a, a < st.store.next → st'.store.values a = st.store.values a) := by
    intro e
    subst e
    exact ⟨Nat.le_refl _, fun _ _ => rfl, fun _ _ => rfl⟩
  unfold Translator.translateFuncDecl at h
  split at h
  · cases h
  · split at h
    · simp only [Except.ok.injEq, Prod.mk.injEq] at h
      exact same h.2.symm
    · split at h
      · simp only [Except.ok.injEq, Prod.mk.injEq] at h
        exact same h.2.symm
      · split at h
        · simp only [Except.ok.injEq, Prod.mk.injEq] at h
          exact same h.2.symm
        · split at h
          · cases h
          · simp only at h
            split at h
            · cases h
            · rename_i body hb
              have key := translateStatements_frame g rhs hrhs _ st.store.next st.store.next
                trans.Scope rfl body.List_ _ st' d h
              simp only [Translator.CreateBlockForFunction, Scope.createChild] at key
              refine ⟨?_, ?_, ?_⟩
              · have := key.2.1
                simp only at this
                omega
              · intro a ha
                rw [key.1]
                simp [Function.update, Nat.ne_of_lt ha]
              · intro a ha
                rw [key.2.2 a (Nat.ne_of_lt ha)]
                simp [Function.update, Nat.ne_of_lt ha]

/-! The claims on calls, assignment targets, functions, base types and
identifiers. -/

/-- Claim C21 fails on the code: `translateCallExpr` asserts `*FuncValue` on
what `translateExprRHS` returned for the callee, and for an identifier that is
the `*BoundVar`, whatever it holds. So no call expression translates to a
value, and a call through an identifier that is bound (to a function value or
to anything else) is refused with the diagnostic that the expression is not a
function. -/
theorem translateCallExpr_rejects_bound_function (g : Globals) (block : Block) :
    (∀ (f : Expr) (lp rp : Nat) (args : List Expr) (st st' : TransState) (v : UntypedValue),
      block.translateExprRHS g (.CallExpr f lp args rp) st ≠ .ok (.ok v, st')) ∧
    (∀ (p lp rp : Nat) (name : string) (args : List Expr) (st : TransState)
      (b : BoundVar UntypedValue), Scope.lookupVar st.store block.Scope name = some b →
      block.translateExprRHS g (.CallExpr (.Ident p name) lp args rp) st
        = .ok (.error (DiagFromAST (.Ident p name) "Given expression not a function!"), st)) := by
  constructor
  · intro f lp rp args st st' v h
    rcases Block.translateExprRHS_call g block f lp rp args st with
      ⟨e, _, h2⟩ | ⟨diag, st1, _, h2⟩ | ⟨v', st1, _, h2⟩ <;>
      (rw [h2] at h; simp at h)
  · intro p lp rp name args st b hb
    obtain ⟨place, hat⟩ := (Scope.lookupVarAt_of_lookupVar st.store name block.Scope).1 b hb
    rcases Block.translateExprRHS_call g block (.Ident p name) lp rp args st with
      ⟨e, h1, _⟩ | ⟨diag, st1, h1, _⟩ | ⟨v', st1, h1, h2⟩
    · simp [Block.translateExprRHS, hat] at h1
    · simp [Block.translateExprRHS, hat] at h1
    · simp only [Block.translateExprRHS, hat, Except.ok.injEq, Prod.mk.injEq] at h1
      rw [h2, ← h1.2]

/-- Witness for `translateCallExpr_rejects_bound_function`: with `puts` bound
to its function value, the call `puts("hi")` is refused. -/
theorem translateCallExpr_rejects_bound_function_witness :
    sampleTopBlock.translateExprRHS ⟨⟨darwin_x86_64⟩, 64⟩
        (.CallExpr (.Ident 0 "puts") 4 [.BasicLit 5 .STRING "\"hi\""] 9) sampleTopState
      = .ok (.error (DiagFromAST (.Ident 0 "puts") "Given expression not a function!"),
          sampleTopState) :=
  (translateCallExpr_rejects_bound_function ⟨⟨darwin_x86_64⟩, 64⟩ sampleTopBlock).2 0 4 9 "puts"
    [.BasicLit 5 .STRING "\"hi\""] sampleTopState
    ⟨"puts", false, .Typed (.FuncValue (puts_value (.Function 0)))⟩ rfl

/-- Claim C22 fails on the code: for an identifier without a binding
`lookupVar` returns nil and `lVal.LValue()` dereferences it, so
`translateExprLHS` panics instead of returning a diagnostic. In the other
cases it does what the claim says: the binding as the assignable when it is
not const, a diagnostic when it is const, and a diagnostic for every
expression that is no identifier. -/
theorem translateExprLHS_unbound_panics (block : Block) (st : TransState) :
    (∀ (p : Nat) (name : string), Scope.lookupVar st.store block.Scope name = none →
      block.translateExprLHS st (.Ident p name) = .error .nilDereference) ∧
    (∀ (p : Nat) (name : string) (b : BoundVar UntypedValue),
      Scope.lookupVar st.store block.Scope name = some b → b.Const = false →
      ∃ place, block.translateExprLHS st (.Ident p name) = .ok (.ok ⟨place, name⟩) ∧
        place ∈ block.Scope.chain ∧ st.store.values place name = some b) ∧
    (∀ (p : Nat) (name : string) (b : BoundVar UntypedValue),
      Scope.lookupVar st.store block.Scope name = some b → b.Const = true →
      block.translateExprLHS st (.Ident p name)
        = .ok (.error (DiagFromAST (.Ident p name)
            ("Unable to assign to variable \"" ++ name ++ "\".")))) ∧
    (∀ e : Expr, (∀ p name, e ≠ .Ident p name) →
      block.translateExprLHS st e = .ok (.error (DiagFromAST e "Expected an lvalue expression."))) := by
  refine ⟨?_, ?_, ?_, ?_⟩
  · intro p name h
    have h1 := Scope.lookupVarAt_snd st.store name block.Scope
    rw [h] at h1
    cases h2 : Scope.lookupVarAt st.store block.Scope name with
    | none => simp [Block.translateExprLHS, h2]
    | some q => simp [h2] at h1
  · intro p name b h hc
    have h1 := Scope.lookupVarAt_snd st.store name block.Scope
    rw [h] at h1
    cases h2 : Scope.lookupVarAt st.store block.Scope name with
    | none => simp [h2] at h1
    | some q =>
      obtain ⟨place, b'⟩ := q
      simp only [h2, Option.map_some', Option.some.injEq] at h1
      subst h1
      have h3 := Scope.lookupVarAt_spec st.store name block.Scope place b' h2
      exact ⟨place, by simp [Block.translateExprLHS, h2, BoundVar.LValue, hc], h3.1, h3.2⟩
  · intro p name b h hc
    have h1 := Scope.lookupVarAt_snd st.store name block.Scope
    rw [h] at h1
    cases h2 : Scope.lookupVarAt st.store block.Scope name with
    | none => simp [h2] at h1
    | some q =>
      obtain ⟨place, b'⟩ := q
      simp only [h2, Option.map_some', Option.some.injEq] at h1
      subst h1
      simp [Block.translateExprLHS, h2, BoundVar.LValue, hc]
  · intro e he
    cases e with
    | Ident p name => exact absurd rfl (he p name)
    | BasicLit _ _ _ => simp [Block.translateExprLHS]
    | CallExpr _ _ _ _ => simp [Block.translateExprLHS]
    | StarExpr _ _ => simp [Block.translateExprLHS]
    | Other _ _ _ => simp [Block.translateExprLHS]

/-- Witness for `translateExprLHS_unbound_panics`: in the sample function body
the identifier `z` has no binding, and taking it as an assignment target is a
nil dereference. -/
theorem translateExprLHS_unbound_panics_witness :
    sampleBlock.translateExprLHS sampleState (.Ident 0 "z") = .error .nilDereference :=
  (translateExprLHS_unbound_panics sampleBlock sampleState).1 0 "z" rfl

/-- Claim C23 fails on the code: `translateFuncDecl` counts the fields of the
result list, not the values they declare. A declaration whose result list is
one field is accepted whatever the number of names in that field (so also
`(a, b int)`), and the function is added to the module with the type of the
field as its single result. And a declaration without a result list, whose
`Results` is nil, is a nil dereference in the first line. -/
theorem translateFuncDecl_counts_result_fields (g : Globals) (rhs : AssignRhs)
    (trans : Translator) (st : TransState) :
    (∀ (decl : FuncDecl) (results : FieldList) (field : FieldNode) (paramTypes : List GoType)
      (ty : GoType) (llTy : LLType) (body : BlockStmt),
      decl.Type_.Results = some results → results.List_ = [field] →
      trans.translateParams st decl.Type_.Params.List_ [] = .ok paramTypes →
      trans.translateType st field.Type_ = .ok ty →
      (GoType.FuncType paramTypes (some ty)).LLVM = .ok llTy →
      decl.Body = some body → body.List_ = [] →
      ∃ st', trans.translateFuncDecl g rhs decl st = .ok (none, st') ∧
        st'.LLns.Mod.Functions = st.LLns.Mod.Functions ++ [⟨decl.Name.Name, llTy, false⟩]) ∧
    (∀ decl : FuncDecl, decl.Type_.Results = none →
      trans.translateFuncDecl g rhs decl st = .error .nilDereference) := by
  constructor
  · intro decl results field paramTypes ty llTy body hr hl hp ht hll hb he
    refine ⟨(trans.CreateBlockForFunction (st.LLns.Mod.AddFunction decl.Name.Name llTy).1
      ⟨paramTypes, some ty⟩
      { st with LLns := { st.LLns with
          Mod := (st.LLns.Mod.AddFunction decl.Name.Name llTy).2 } }).2, ?_, ?_⟩
    · simp only [Translator.translateFuncDecl, hr, hl, hp, ht, hll, hb, he, List.length_singleton,
        gt_iff_lt, Nat.lt_irrefl, if_false, Except.map, Block.translateStatements]
    · simp [Translator.CreateBlockForFunction, LLModule.AddFunction]
  · intro decl hr
    simp [Translator.translateFuncDecl, hr]

/-- Witness for `translateFuncDecl_counts_result_fields`: the declaration
`func f() (a, b int64) {}` is accepted and `f` is added to the module with
the result type `int64`. -/
theorem translateFuncDecl_counts_result_fields_witness :
    ∃ st', sampleTranslator.translateFuncDecl ⟨⟨darwin_x86_64⟩, 64⟩
        (translateExprRHSTypedNil ⟨⟨darwin_x86_64⟩, 64⟩) sampleTwoResultsDecl
        sampleState = .ok (none, st') ∧
      st'.LLns.Mod.Functions = sampleState.LLns.Mod.Functions ++
        [⟨sampleTwoResultsDecl.Name.Name, .FunctionType (.IntType 64) [] false, false⟩] :=
  (translateFuncDecl_counts_result_fields ⟨⟨darwin_x86_64⟩, 64⟩
    (translateExprRHSTypedNil ⟨⟨darwin_x86_64⟩, 64⟩) sampleTranslator sampleState).1
    sampleTwoResultsDecl ⟨9, [⟨[⟨10, "a"⟩, ⟨13, "b"⟩], .Ident 15 "int64"⟩], 20⟩
    ⟨[⟨10, "a"⟩, ⟨13, "b"⟩], .Ident 15 "int64"⟩ [] ty_int64 (.FunctionType (.IntType 64) [] false)
    ⟨22, [], 23⟩ rfl rfl rfl rfl rfl rfl rfl

/-- For a `var` declaration whose first spec has a declared type that
resolves, at least one name, and initializers that are neither none nor as
many as the names, `translateVarDecl` returns the diagnostic of partial
initialization and leaves the state as it was: no name is bound, and no
initializer was translated. -/
theorem translateVarDecl_partial_initialization (g : Globals) (block : Block) (gen : GenDecl)
    (spec : ValueSpec) (others : List Spec) (st : TransState) (tyExpr : Expr) (ty : GoType)
    (hs : gen.Specs = .ValueSpec spec :: others) (hv : gen.Tok = .VAR)
    (hn : spec.Names ≠ []) (hty : spec.Type_ = some tyExpr)
    (ht : block.Trans.translateType st tyExpr = .ok ty)
    (hm0 : spec.Values.length ≠ 0) (hmn : spec.Values.length ≠ spec.Names.length) :
    block.translateVarDecl g gen st
      = .ok (some (DiagFromValueSpec spec
          "Partial initialization of variables in a variable declaration is not allowed."),
          st) := by
  have hpos : spec.Names.length > 0 := List.length_pos.mpr hn
  simp [Block.translateVarDecl, hs, assert, hpos, hty, ht, hv, Except.map, hm0, hmn]

/-- Witness for `translateVarDecl_partial_initialization`: the declaration
`var a, b int64 = 1` in the sample function body. -/
theorem translateVarDecl_partial_initialization_witness :
    sampleBlock.translateVarDecl ⟨⟨darwin_x86_64⟩, 64⟩ samplePartialDecl sampleState
      = .ok (some ⟨4, 18,
          "Partial initialization of variables in a variable declaration is not allowed."⟩,
          sampleState) :=
  translateVarDecl_partial_initialization ⟨⟨darwin_x86_64⟩, 64⟩ sampleBlock samplePartialDecl
    ⟨[⟨4, "a"⟩, ⟨7, "b"⟩], some (.Ident 9 "int64"), [.BasicLit 17 .INT "1"]⟩ [] sampleState
    (.Ident 9 "int64") ty_int64 rfl rfl (by simp) rfl rfl (by simp) (by simp)

/-- Claim C24 fails on the code: the `return nil` that follows the loop over
the names stands inside the loop over `gen.Specs`, so `translateVarDecl`
leaves after the first spec and what it returns does not depend on the specs
after it. In `var ( x int64; a, b int64 = 1 )` the second spec is initialized
in part and is never looked at: no diagnostic is returned, `x` is bound, and
`a` and `b` are not. Only for the first spec is the diagnostic of partial
initialization returned. -/
theorem translateVarDecl_later_specs_unseen :
    (∀ (g : Globals) (block : Block) (gen : GenDecl) (spec : Spec) (others others' : List Spec)
      (st : TransState), gen.Specs = spec :: others →
      block.translateVarDecl g gen st
        = block.translateVarDecl g ⟨gen.TokPos, gen.Tok, spec :: others'⟩ st) ∧
    (∃ st', sampleBlock.translateVarDecl ⟨⟨darwin_x86_64⟩, 64⟩ sampleLaterPartialDecl sampleState
        = .ok (none, st') ∧
      Scope.lookupVar st'.store sampleBlock.Scope "x" = some ⟨"x", false, .Typed zero_int64⟩ ∧
      Scope.lookupVar st'.store sampleBlock.Scope "a" = none ∧
      Scope.lookupVar st'.store sampleBlock.Scope "b" = none) := by
  constructor
  · intro g block gen spec others others' st hs
    simp only [Block.translateVarDecl, hs]
  · exact ⟨_, rfl, rfl, rfl, rfl⟩

/-- Witness for `translateVarDecl_later_specs_unseen`: the declaration
`var ( x int64; a, b int64 = 1 )` is translated as `var x int64` is. -/
theorem translateVarDecl_later_specs_unseen_witness :
    sampleBlock.translateVarDecl ⟨⟨darwin_x86_64⟩, 64⟩ sampleLaterPartialDecl sampleState
      = sampleBlock.translateVarDecl ⟨⟨darwin_x86_64⟩, 64⟩
          ⟨0, .VAR, [.ValueSpec ⟨[⟨6, "x"⟩], some (.Ident 8 "int64"), []⟩]⟩ sampleState :=
  translateVarDecl_later_specs_unseen.1 ⟨⟨darwin_x86_64⟩, 64⟩ sampleBlock sampleLaterPartialDecl
    (.ValueSpec ⟨[⟨6, "x"⟩], some (.Ident 8 "int64"), []⟩)
    [.ValueSpec ⟨[⟨15, "a"⟩, ⟨18, "b"⟩], some (.Ident 20 "int64"), [.BasicLit 28 .INT "1"]⟩]
    [] sampleState rfl

/-- Claim C25 fails on the code: `PointerType.Named` returns the named flag
of its pointee, so the pointer type `*byte`, which is no alias, counts as
named, against the comment on `Named` in the interface (named types are
interfaces and aliases) and unlike `FuncType.Named`. For the types that are no
pointers the flag is as the claim says: true for every alias, false for every
integer and every function type. -/
theorem PointerType_Named_delegates :
    (GoType.PointerType ty_byte).Named = true ∧
    (GoType.PointerType ty_byte).isAlias = false ∧
    (∀ a : GoType, (GoType.PointerType a).Named = a.Named) ∧
    (∀ (id : string) (al : GoType), (GoType.AliasType id al).Named = true) ∧
    (∀ (k : Nat) (tg : Target), (GoType.IntType k tg).Named = false) ∧
    (∀ (ps : List GoType) (r : Option GoType), (GoType.FuncType ps r).Named = false) :=
  ⟨rfl, rfl, fun _ => rfl, fun _ _ => rfl, fun _ _ => rfl, fun _ _ => rfl⟩

/-- Claim C26 fails on the code: `FuncType.Base` calls `fn.Result.Base()` with
no test for a nil `Result`, so `Base` returns for no function type without a
result; on the type of `puts` it is a nil dereference. -/
theorem Base_FuncType_nil_result_panics :
    (∀ (ps : List GoType) (b : GoType), (GoType.FuncType ps none).Base ≠ .ok b) ∧
    ty_puts.Base = .error .nilDereference :=
  ⟨GoType.Base_FuncType_nil, rfl⟩

/-- Claim C27: the identifier of an integer type is its name; that of a pointer
is `p.` before the identifier of the pointee; that of a function type is
`f.r.`, the identifier of the result, `.p`, and then a dot and the identifier
of each parameter in order, or `f.r.p` and the same suffixes when there is no
result; that of an alias is the identifier of its base. So `func(*uint8) int64`
gives `f.r.int64.p.p.uint8` and `*uint8` gives `p.uint8`. -/
theorem BaseIDString_format :
    (∀ (k : Nat) (tg : Target),
      (GoType.IntType k tg).BaseIDString = (GoType.IntType k tg).String) ∧
    ty_uint8.BaseIDString = .ok "uint8" ∧
    (∀ (T : GoType) (s : string), T.BaseIDString = .ok s →
      (GoType.PointerType T).BaseIDString = .ok ("p." ++ s)) ∧
    (∀ (ps : List GoType) (R : GoType) (r : string) (ss : List string),
      R.BaseIDString = .ok r →
      List.Forall₂ (fun p s => GoType.BaseIDString p = .ok s) ps ss →
      (GoType.FuncType ps (some R)).BaseIDString
        = .ok ("f.r." ++ r ++ ".p" ++ String.join (ss.map (fun s => "." ++ s)))) ∧
    (∀ (ps : List GoType) (ss : List string),
      List.Forall₂ (fun p s => GoType.BaseIDString p = .ok s) ps ss →
      (GoType.FuncType ps none).BaseIDString
        = .ok ("f.r.p" ++ String.join (ss.map (fun s => "." ++ s)))) ∧
    (∀ (id : string) (al b : GoType), (GoType.AliasType id al).Base = .ok b →
      (GoType.AliasType id al).BaseIDString = b.BaseIDString) ∧
    ty_func_ptr_int64.BaseIDString = .ok "f.r.int64.p.p.uint8" ∧
    (GoType.PointerType ty_uint8).BaseIDString = .ok "p.uint8" := by
  have hu : ty_uint8.BaseIDString = .ok "uint8" := by
    simp [GoType.BaseIDString, ty_uint8, GoType.String, BLTN_TY_UINT8]
  have hi : ty_int64.BaseIDString = .ok "int64" := by
    simp [GoType.BaseIDString, ty_int64, GoType.String, BLTN_TY_UINT8, BLTN_TY_UINT16,
      BLTN_TY_UINT32, BLTN_TY_UINT64, BLTN_TY_INT8, BLTN_TY_INT16, BLTN_TY_INT32,
      BLTN_TY_INT64]
  have hp : ∀ (T : GoType) (s : string), T.BaseIDString = .ok s →
      (GoType.PointerType T).BaseIDString = .ok ("p." ++ s) := by
    intro T s h
    rw [GoType.BaseIDString]
    simp only [h]
  have hf : ∀ (ps : List GoType) (R : GoType) (r : string) (ss : List string),
      R.BaseIDString = .ok r →
      List.Forall₂ (fun p s => GoType.BaseIDString p = .ok s) ps ss →
      (GoType.FuncType ps (some R)).BaseIDString
        = .ok ("f.r." ++ r ++ ".p" ++ String.join (ss.map (fun s => "." ++ s))) := by
    intro ps R r ss hR hps
    rw [GoType.BaseIDString]
    simp only [hR]
    rw [GoType.BaseIDStringParams_spec ps ss _ hps]
    congr 1
    apply String.ext
    simp [String.data_append]
  refine ⟨fun k tg => ?_, hu, hp, hf, ?_, ?_, ?_, hp _ _ hu⟩
  · rw [GoType.BaseIDString]
  · intro ps ss hps
    rw [GoType.BaseIDString, GoType.BaseIDStringParams_spec ps ss _ hps]
    rfl
  · intro id al b hb
    simp only [GoType.Base] at hb
    rw [GoType.BaseIDString]
    split
    · rename_i e he
      rw [hb] at he
      cases he
    · rename_i b' he
      rw [hb] at he
      cases he
      rfl
  · exact hf [.PointerType ty_uint8] ty_int64 "int64" ["p.uint8"] hi
      (.cons (hp _ _ hu) .nil)

/-- Witness for `BaseIDString_format`: the pointer `**uint8` takes `p.` before
the identifier `p.uint8` of `*uint8`. -/
theorem BaseIDString_format_witness :
    (GoType.PointerType (.PointerType ty_uint8)).BaseIDString = .ok ("p." ++ "p.uint8") :=
  BaseIDString_format.2.2.1 (.PointerType ty_uint8) "p.uint8" BaseIDString_format.2.2.2.2.2.2.2

/-- Counterexample for claim C28: the types `func(int16) func(*uint8) int8` and
`func(uint8, *int16) func() int8` are their own bases, have the same
identifier `f.r.f.r.int8.p.p.uint8.p.int16`, and are not equal. -/
theorem BaseIDString_collision_counterexample :
    ty_collide_a.BaseIDString = .ok "f.r.f.r.int8.p.p.uint8.p.int16" ∧
    ty_collide_b.BaseIDString = .ok "f.r.f.r.int8.p.p.uint8.p.int16" ∧
    ty_collide_a.Base = .ok ty_collide_a ∧ ty_collide_b.Base = .ok ty_collide_b ∧
    ty_collide_a.Eq (some ty_collide_b) = .ok false := by
  refine ⟨?_, ?_, rfl, rfl, rfl⟩
  · simp [ty_collide_a, ty_int16, ty_uint8, ty_int8, GoType.BaseIDString,
      GoType.BaseIDStringParams, GoType.String, BLTN_TY_UINT8, BLTN_TY_UINT16, BLTN_TY_UINT32,
      BLTN_TY_UINT64, BLTN_TY_INT8, BLTN_TY_INT16, BLTN_TY_INT32, BLTN_TY_INT64]
  · simp [ty_collide_b, ty_int16, ty_uint8, ty_int8, GoType.BaseIDString,
      GoType.BaseIDStringParams, GoType.String, BLTN_TY_UINT8, BLTN_TY_UINT16, BLTN_TY_UINT32,
      BLTN_TY_UINT64, BLTN_TY_INT8, BLTN_TY_INT16, BLTN_TY_INT32, BLTN_TY_INT64]

/-- Claim C28, amended: on the types in which no function type stands inside
a function type and every function type has a result (integers, pointers and
aliases around at most one function type whose result and parameters are made
of integers, pointers and aliases), the base identifier is injective: when two
such types have the same identifier, both have a base and the bases are equal
under `Eq`. -/
theorem BaseIDString_injective_of_firstOrder (a b : GoType) (s : string)
    (fa : a.firstOrder = true) (fb : b.firstOrder = true)
    (ha : a.BaseIDString = .ok s) (hb : b.BaseIDString = .ok s) :
    ∃ ba bb, a.Base = .ok ba ∧ b.Base = .ok bb ∧ ba.Eq (some bb) = .ok true := by
  refine ⟨a.stripAliases, b.stripAliases,
    GoType.Base_eq_stripAliases a (GoType.hasResults_of_firstOrder a fa),
    GoType.Base_eq_stripAliases b (GoType.hasResults_of_firstOrder b fb), ?_⟩
  rw [GoType.BaseIDString_stripAliases_firstOrder a fa] at ha
  rw [GoType.BaseIDString_stripAliases_firstOrder b fb] at hb
  exact GoType.BaseIDString_inj_firstOrder _ _ s (GoType.firstOrder_stripAliases a fa)
    (GoType.noAlias_stripAliases a) (GoType.firstOrder_stripAliases b fb)
    (GoType.noAlias_stripAliases b) ha hb

/-- Witness for `BaseIDString_injective_of_firstOrder`: `func(*byte) int64` and
`func(*uint8) int64` both have the identifier `f.r.int64.p.p.uint8`, and
their bases are equal. -/
theorem BaseIDString_injective_of_firstOrder_witness :
    ∃ ba bb, ty_func_byteptr_int64.Base = .ok ba ∧ ty_func_ptr_int64.Base = .ok bb ∧
      ba.Eq (some bb) = .ok true :=
  BaseIDString_injective_of_firstOrder ty_func_byteptr_int64 ty_func_ptr_int64
    "f.r.int64.p.p.uint8" rfl rfl
    (by simp [ty_func_byteptr_int64, ty_byte, ty_uint8, ty_int64, GoType.BaseIDString,
      GoType.BaseIDStringParams, GoType.Base, GoType.String, BLTN_TY_UINT8, BLTN_TY_UINT16,
      BLTN_TY_UINT32, BLTN_TY_UINT64, BLTN_TY_INT8, BLTN_TY_INT16, BLTN_TY_INT32,
      BLTN_TY_INT64])
    (by simp [ty_func_ptr_int64, ty_uint8, ty_int64, GoType.BaseIDString,
      GoType.BaseIDStringParams, GoType.String, BLTN_TY_UINT8, BLTN_TY_UINT16,
      BLTN_TY_UINT32, BLTN_TY_UINT64, BLTN_TY_INT8, BLTN_TY_INT16, BLTN_TY_INT32,
      BLTN_TY_INT64])

/-- Claim C29: on a fresh namespace a sequence of `requestStaticConstAlloc`
calls (shorter than the range of the `uint` counters), whatever the types and
also when types share a base identifier, adds globals whose names are pairwise
distinct, and none of these names is some identifier followed by `.zero`, the
form of the names that `allocZero` gives. -/
theorem minted_names_unique (w : Nat) (mod : LLModule) (reqs : List AllocRequest)
    (bs : List string) (hb : List.Forall₂ (fun r b => r.ty.BaseIDString = .ok b) reqs bs)
    (hlen : reqs.length < 2 ^ w) :
    ∃ ns' created, (CreateNamespace mod).requestAll w reqs = .ok ns' ∧
      ns'.Mod.Globals = mod.Globals ++ created ∧ created.length = reqs.length ∧
      (created.map (fun g => g.Name)).Nodup ∧
      ∀ g ∈ created, ∀ b : string, g.Name ≠ b ++ ".zero" := by
  obtain ⟨ns', h1, h2, _⟩ := LLVMNamespace.requestAll_spec w reqs bs [] (CreateNamespace mod)
    (by funext k; simp [CreateNamespace, mintedCounters, GoMap.empty]) hb (by simpa using hlen)
  have hl : reqs.length = (mintedNames [] bs).length := by
    rw [mintedNames_length, hb.length_eq]
  have hnames : (List.zipWith (fun (r : AllocRequest) name =>
      (⟨name, r.llTy, true, some r.val⟩ : GlobalVar)) reqs (mintedNames [] bs)).map
        (fun g => g.Name) = mintedNames [] bs := by
    rw [List.map_zipWith]
    have : ∀ (l1 : List AllocRequest) (l2 : List string), l1.length = l2.length →
        List.zipWith (fun (r : AllocRequest) (name : string) => name) l1 l2 = l2 := by
      intro l1
      induction l1 with
      | nil => intro l2 h; cases l2 <;> simp_all
      | cons x l1 ih =>
        intro l2 h
        cases l2 with
        | nil => simp at h
        | cons y l2 => simp [ih l2 (by simpa using h)]
    exact this _ _ hl
  refine ⟨ns', _, h1, by simpa [CreateNamespace] using h2, ?_, ?_, ?_⟩
  · simp [List.length_zipWith, ← hl]
  · rw [hnames]
    exact mintedNames_nodup bs []
  · intro g hg b e
    have hm : g.Name ∈ mintedNames [] bs := by
      rw [← hnames]
      exact List.mem_map_of_mem _ hg
    obtain ⟨b', k, e', _⟩ := mintedNames_mem bs [] _ hm
    rw [e'] at e
    exact minted_name_ne_zero b' b k e

/-- Witness for `minted_names_unique`: two string literals with an `int64` in
between give three globals with distinct names. -/
theorem minted_names_unique_witness :
    ∃ ns' created, (CreateNamespace (LLModule.create "main")).requestAll 64 sampleRequests
        = .ok ns' ∧
      ns'.Mod.Globals = (LLModule.create "main").Globals ++ created ∧
      created.length = sampleRequests.length ∧
      (created.map (fun g => g.Name)).Nodup ∧
      ∀ g ∈ created, ∀ b : string, g.Name ≠ b ++ ".zero" :=
  minted_names_unique 64 (LLModule.create "main") sampleRequests ["p.uint8", "int64", "p.uint8"]
    (by
      refine .cons ?_ (.cons ?_ (.cons ?_ .nil))
      · simp [GoType.BaseIDString, ty_byte, ty_uint8, GoType.Base, GoType.String, BLTN_TY_UINT8]
      · simp [GoType.BaseIDString, ty_int64, GoType.String, BLTN_TY_UINT8, BLTN_TY_UINT16,
          BLTN_TY_UINT32, BLTN_TY_UINT64, BLTN_TY_INT8, BLTN_TY_INT16, BLTN_TY_INT32,
          BLTN_TY_INT64]
      · simp [GoType.BaseIDString, ty_byte, ty_uint8, GoType.Base, GoType.String, BLTN_TY_UINT8])
    (by simp [sampleRequests])

/-- Claim C30: `translateFuncDecl` leaves the top-level scope unchanged.
Whenever it returns, with or without a diagnostic and whatever statements the
body holds, every `lookupType` and every `lookupVar` on the top-level scope
returns what it returned before: declarations of the body go to the new child
scope, and an assignment writes through the `*BoundVar` it found and changes
no map (`rhs`, the call of line 293 that the source leaves open, is any call
that changes no map of a scope). So an identifier that was not bound, such as
the name of the declared function, is not bound afterwards, and a call to it
in the body of a later function gives the diagnostic of an unknown
identifier. In the block made for a function body a lookup finds what the
top-level scope held: no parameter name is bound. -/
theorem translateFuncDecl_top_level_unchanged (g : Globals) (rhs : AssignRhs)
    (trans : Translator) (decl : FuncDecl) (st st' : TransState) (d : Option GoDiag)
    (hrhs : ∀ block e st r st', rhs block e st = .ok (r, st') → st'.store = st.store)
    (ha : trans.Scope.allocatedBelow st.store.next = true)
    (h : trans.translateFuncDecl g rhs decl st = .ok (d, st')) :
    (∀ x, Scope.lookupType st'.store trans.Scope x = Scope.lookupType st.store trans.Scope x) ∧
    (∀ x, Scope.lookupVar st'.store trans.Scope x = Scope.lookupVar st.store trans.Scope x) ∧
    (∀ f, Scope.lookupVar st.store trans.Scope f = none →
      Scope.lookupVar st'.store trans.Scope f = none ∧
      ∀ (llvmFunc : LLValue) (fnTy : FuncTy) (p lp rp : Nat) (args : List Expr),
        (trans.CreateBlockForFunction llvmFunc fnTy st').1.translateExprRHS g
            (.CallExpr (.Ident p f) lp args rp) (trans.CreateBlockForFunction llvmFunc fnTy st').2
          = .ok (.error (DiagFromAST (.Ident p f) ("Unknown identifier \"" ++ f ++ "\".")),
              (trans.CreateBlockForFunction llvmFunc fnTy st').2)) ∧
    (∀ (llvmFunc : LLValue) (fnTy : FuncTy) (x : string),
      Scope.lookupVar (trans.CreateBlockForFunction llvmFunc fnTy st).2.store
          (trans.CreateBlockForFunction llvmFunc fnTy st).1.Scope x
        = Scope.lookupVar st.store trans.Scope x) := by
  obtain ⟨hnext, htypes, hvals⟩ := translateFuncDecl_frame g rhs hrhs trans decl st st' d h
  have hlt := Scope.chain_lt_of_allocatedBelow _ _ ha
  have ha' : trans.Scope.allocatedBelow st'.store.next = true :=
    Scope.allocatedBelow_mono _ _ hnext _ ha
  have hv : ∀ x, Scope.lookupVar st'.store trans.Scope x
      = Scope.lookupVar st.store trans.Scope x := fun x =>
    Scope.lookupVar_congr _ _ x _ (fun a hmem => by rw [hvals a (hlt.1 a hmem)])
  refine ⟨fun x => ?_, hv, fun f hf => ?_,
    fun llvmFunc fnTy x => CreateBlockForFunction_lookupVar trans llvmFunc fnTy st ha x⟩
  · exact Scope.lookupType_congr _ _ x _ (fun a hmem => by rw [htypes a (hlt.2 a hmem)])
  · have hnone : Scope.lookupVar st'.store trans.Scope f = none := by rw [hv f, hf]
    refine ⟨hnone, fun llvmFunc fnTy p lp rp args => ?_⟩
    have hcall : Scope.lookupVarAt (trans.CreateBlockForFunction llvmFunc fnTy st').2.store
        (trans.CreateBlockForFunction llvmFunc fnTy st').1.Scope f = none :=
      (Scope.lookupVarAt_of_lookupVar _ f _).2
        (by rw [CreateBlockForFunction_lookupVar trans llvmFunc fnTy st' ha' f, hnone])
    rcases Block.translateExprRHS_call g (trans.CreateBlockForFunction llvmFunc fnTy st').1
        (.Ident p f) lp rp args (trans.CreateBlockForFunction llvmFunc fnTy st').2 with
      ⟨e, h1, _⟩ | ⟨diag, st1, h1, h2⟩ | ⟨v', st1, h1, _⟩
    · simp [Block.translateExprRHS, hcall] at h1
    · simp only [Block.translateExprRHS, hcall, Except.ok.injEq, Prod.mk.injEq] at h1
      rw [h2, ← h1.1, ← h1.2]
    · simp [Block.translateExprRHS, hcall] at h1

/-- Witness for `translateFuncDecl_top_level_unchanged`: the declaration
`func f() int64 { puts = 5 }`, with the call of line 293 read as
`translateExprRHSTyped(rExpr, nil)`, is translated without a diagnostic;
afterwards `f` is not bound in the top-level scope and `lookupVar("puts")`
returns the binding it returned before. -/
theorem translateFuncDecl_top_level_unchanged_witness :
    ∃ st', sampleTranslator.translateFuncDecl ⟨⟨darwin_x86_64⟩, 64⟩
        (translateExprRHSTypedNil ⟨⟨darwin_x86_64⟩, 64⟩) sampleAssignDecl sampleTopState
          = .ok (none, st') ∧
      Scope.lookupVar st'.store sampleTranslator.Scope "f" = none ∧
      Scope.lookupVar st'.store sampleTranslator.Scope "puts"
        = Scope.lookupVar sampleTopState.store sampleTranslator.Scope "puts" ∧
      st'.assigned 0 "puts"
        = some (.TypedConstInt ⟨⟨5, true⟩, .IntType BLTN_TY_INT darwin_x86_64⟩) :=
  ⟨_, rfl,
    ((translateFuncDecl_top_level_unchanged ⟨⟨darwin_x86_64⟩, 64⟩
      (translateExprRHSTypedNil ⟨⟨darwin_x86_64⟩, 64⟩) sampleTranslator sampleAssignDecl
      sampleTopState _ none (translateExprRHSTypedNil_store ⟨⟨darwin_x86_64⟩, 64⟩) rfl
      rfl).2.2.1 "f" rfl).1,
    (translateFuncDecl_top_level_unchanged ⟨⟨darwin_x86_64⟩, 64⟩
      (translateExprRHSTypedNil ⟨⟨darwin_x86_64⟩, 64⟩) sampleTranslator sampleAssignDecl
      sampleTopState _ none (translateExprRHSTypedNil_store ⟨⟨darwin_x86_64⟩, 64⟩) rfl
      rfl).2.1 "puts",
    rfl⟩
